import Mathlib

/-!
# BotchOrganismTab: layout engine, viewport model and name de-duplication

A shallow embedding of `src/containers/botch-organism-tab.jsx`.

Conventions of the embedding.

* JavaScript numbers are embedded as exact rationals (`ℚ`) and the arithmetic on them is
  exact, as over the reals; counters that only ever hold small non-negative integers
  (`i`, `generation`, array indices) are `Nat`.  The double precision arithmetic of the
  source is `roundDouble`; `zoomDouble` is `zoom` in that arithmetic.
* A JavaScript string is a Lean `String`.  The source only inspects the last
  UTF-16 code unit of a string and compares it with `'0'` and `'9'`; a code unit
  is an ASCII digit exactly when the last character is, so looking at the last
  `Char` decides the same tests.
* A value that may be `undefined` is an `Option`.
* Objects that are shared and mutated (the layout nodes) live in a heap: the
  `Layout` maps a key to its node, and a reference to a node is its key.  The `Layout` holds
  the own keys of the object `layout`; the keys that it inherits from `Object.prototype` are
  those of `inheritedKey`.
* A descriptor has the keys `md5`, `name`, `json` and possibly `parentId`, possibly a key
  `children` with an empty array, and further keys of which only the names are kept.  Where
  the source writes to `Object.prototype`, or overwrites a field of a node with the value of
  such a further key, the model stops with `Failure.notModelled`.
* `this.state.viz` is passed explicitly and every handler returns the new `Viz`.
* The loop of `findNewName` always ends, and is defined by well-founded recursion.  The
  traversal loop of `calcLayout` need not end on every input (a node that is its own
  descendant), so `calcLayout` takes the number of iterations it may run and reports
  `Failure.outOfFuel` beyond it; the theorems show that `length + 1` iterations are enough
  for descriptors with distinct identities.
-/

namespace BotchOrganismTab

/-! ## Name de-duplication -/

/-- JavaScript `last >= c` for a one-character string `last` that may be `undefined`. -/
def charGe (last : Option Char) (c : Char) : Bool :=
  match last with
  | some l => decide (c ≤ l)
  | none => false

/-- JavaScript `last < c` for a one-character string `last` that may be `undefined`. -/
def charLt (last : Option Char) (c : Char) : Bool :=
  match last with
  | some l => decide (l < c)
  | none => false

/-- JavaScript `last <= c` for a one-character string `last` that may be `undefined`. -/
def charLe (last : Option Char) (c : Char) : Bool :=
  match last with
  | some l => decide (l ≤ c)
  | none => false

/-- The body of the `while` loop of `findNewName`: from the current `candidate` and
counter `i` to the next ones. -/
def findNewNameBody (candidate : String) (i : Nat) : String × Nat :=
  let last := candidate.data.getLast?
  if charGe last '0' && charLt last '9' && decide (i < 10) then
    (String.mk candidate.data.dropLast ++ toString i, i + 1)
  else
    let n := if charGe last '0' && charLe last '9' then "0" else " 1"
    (candidate ++ n, 1)

/-- The `while (names.has(candidate))` loop of `findNewName`. -/
def findNewNameLoop (names : Finset String) (candidate : String) (i : Nat) : String :=
  if candidate ∈ names then
    findNewNameLoop names (findNewNameBody candidate i).1 (findNewNameBody candidate i).2
  else
    candidate
termination_by (names.sup String.length + 1 - candidate.length) * 11 + (10 - i)
decreasing_by
  rename_i hmem
  have hbound : candidate.length ≤ names.sup String.length :=
    Finset.le_sup (f := String.length) hmem
  cases hc : (charGe candidate.data.getLast? '0' && charLt candidate.data.getLast? '9'
      && decide (i < 10))
  · have hbody : findNewNameBody candidate i =
        (candidate ++ (if charGe candidate.data.getLast? '0' && charLe candidate.data.getLast? '9'
          then "0" else " 1"), 1) := by
      simp only [findNewNameBody, hc]
      rfl
    have hlen : candidate.length + 1 ≤
        (candidate ++ (if charGe candidate.data.getLast? '0' && charLe candidate.data.getLast? '9'
          then "0" else " 1")).length := by
      rw [String.length_append]
      split
      · exact Nat.le_refl _
      · exact Nat.add_le_add_left (by decide : 1 ≤ " 1".length) _
    rw [hbody]
    simp only
    omega
  · have hbody : findNewNameBody candidate i =
        (String.mk candidate.data.dropLast ++ toString i, i + 1) := by
      simp only [findNewNameBody, hc, if_true]
    simp only [Bool.and_eq_true, decide_eq_true_eq] at hc
    obtain ⟨⟨h0, _⟩, hi⟩ := hc
    have hne : candidate.data ≠ [] := by
      intro hnil
      rw [hnil] at h0
      simp [charGe] at h0
    have hdigit : (toString i).length = 1 := by
      interval_cases i <;> rfl
    have hlen : (String.mk candidate.data.dropLast ++ toString i).length = candidate.length := by
      rw [String.length_append, hdigit]
      show candidate.data.dropLast.length + 1 = candidate.data.length
      rw [List.length_dropLast]
      have := List.length_pos.mpr hne
      omega
    rw [hbody]
    simp only [hlen]
    omega

/-- The function `findNewName (name, names)`: the loop entered with `candidate = name`, `i = 1`. -/
def findNewName (name : String) (names : Finset String) : String :=
  findNewNameLoop names name 1

/-- The part of `libSprite.json` that `updateSprites` writes. -/
structure SpriteJson where
  name : String
  objName : String
deriving DecidableEq, Repr

/-- A sprite descriptor as loaded from the storage helper.  The keys `md5`, `name` and `json`
are present and `parentId = none` is an absent property.  `emptyChildren` says that the
descriptor has a key `children` whose value is an empty array, which no other descriptor
holds.  `others` lists the names of the further enumerable keys of the descriptor, which
`for (const key in libSprite)` of `calcLayout` copies onto the layout node as well; their
values are not part of the model. -/
structure LibSprite where
  md5 : String
  parentId : Option String
  name : String
  json : SpriteJson
  emptyChildren : Bool := false
  others : List String := []
deriving DecidableEq, Repr

/-- The renaming loop of `updateSprites`: `names` is the set built so far. -/
def updateSpritesLoop : Finset String → List LibSprite → List LibSprite
  | _, [] => []
  | names, libSprite :: rest =>
    let candidate := findNewName libSprite.name names
    { libSprite with name := candidate, json := { name := candidate, objName := candidate } }
      :: updateSpritesLoop (insert candidate names) rest

/-! ## Viewport model -/

/-- The constants `viz.measures`. -/
structure Measures where
  deltah : ℚ
  deltaw : ℚ
  nodeh : ℚ
  nodew : ℚ
  levh : ℚ
deriving DecidableEq

/-- The occupied screen `viz.viewport`. -/
structure Viewport where
  width : ℚ
  height : ℚ
deriving DecidableEq

/-- The logical window `viz.viewBox`. -/
structure ViewBox where
  x : ℚ
  y : ℚ
  width : ℚ
  height : ℚ
deriving DecidableEq

/-- A point in layout coordinates, as returned by `getPointFromEvent`. -/
structure Point where
  x : ℚ
  y : ℚ
deriving DecidableEq

/-- The viewport state `this.state.viz`. -/
structure Viz where
  viewport : Viewport
  viewBox : ViewBox
  measures : Measures
  isPointerDown : Bool
  pointerOrigin : Option Point
  zoom : ℚ
deriving DecidableEq

/-- The static getter `MIN_ZOOM`. -/
def MIN_ZOOM : ℚ := 2

/-- The function `calcViz`.  `window.innerWidth`, `window.innerHeight` and the width of
`getStageDimensions (stageSize, isFullScreen)`, which are read from the environment,
are the parameters. -/
def calcViz (innerWidth innerHeight stageWidth : ℚ) : Viz :=
  let vp : Viewport := { width := innerWidth - stageWidth - 40, height := innerHeight - 100 }
  { viewport := vp
    viewBox := { x := -vp.width / 2, y := 0, width := vp.width, height := vp.height }
    measures := { deltah := 15, deltaw := 25, nodeh := 150, nodew := 100,
                  levh := (15 * 2) + 150 }
    isPointerDown := false
    pointerOrigin := none
    zoom := 1 }

/-- The method `zoom (factor, p)` as a transition of `this.state.viz`, in exact arithmetic.
`zoomDouble` is the same method in the double precision arithmetic of the source. -/
def zoom (viz : Viz) (factor : ℚ) (p : Point) : Viz :=
  if viz.zoom > MIN_ZOOM ∧ factor > 1 then
    viz
  else
    let oldViewBox := viz.viewBox
    { viz with
      zoom := viz.zoom * factor
      viewBox :=
        { oldViewBox with
          width := oldViewBox.width * factor
          height := oldViewBox.height * factor
          x := (oldViewBox.x * factor) + (p.x - (p.x * factor))
          y := (oldViewBox.y * factor) + (p.y - (p.y * factor)) } }

/-! ## Layout engine -/

/-- A node of the layout.  `children` holds references (layout keys); every other field
may still be `undefined`, as in the stub `{children: []}`. -/
structure LayoutNode where
  children : List String := []
  md5 : Option String := none
  parentId : Option String := none
  name : Option String := none
  json : Option SpriteJson := none
  generation : Option Nat := none
  expanded : Option Bool := none
  visible : Option Bool := none
  x : Option ℚ := none
  y : Option ℚ := none
  xoff : Option ℚ := none
  yoff : Option ℚ := none
deriving DecidableEq

/-- The object `layout`: the node stored under each key, `none` for a key that is not in it. -/
abbrev Layout := String → Option LayoutNode

/-- The empty object `{}`, as far as its own keys go.  The keys it inherits from
`Object.prototype` are listed by `inheritedKey`. -/
def Layout.empty : Layout := fun _ => none

/-- The names that `key in layout` and `layout[key]` find on an object without that own
key: the properties of `Object.prototype`.  All of them are functions, except `__proto__`,
which reads as `Object.prototype` itself. -/
def inheritedKey (key : String) : Bool :=
  ["constructor", "__defineGetter__", "__defineSetter__", "hasOwnProperty",
    "__lookupGetter__", "__lookupSetter__", "isPrototypeOf", "propertyIsEnumerable",
    "toString", "valueOf", "__proto__", "toLocaleString"].contains key

/-- The keys of a layout node that `calcLayout` itself writes or reads, other than the four
of a descriptor, and `__proto__`, whose assignment replaces the prototype of the node. -/
def maintainedKey (key : String) : Bool :=
  ["children", "generation", "expanded", "visible", "x", "y", "xoff", "yoff",
    "__proto__"].contains key

/-- The assignment `layout[key] = node`. -/
def Layout.set (layout : Layout) (key : String) (node : LayoutNode) : Layout :=
  fun k => if k = key then some node else layout k

/-- Following a reference: the node stored under `ref`.  A reference is always the key of
an entry, the stub returned for a missing key is never observed. -/
def Layout.deref (layout : Layout) (ref : String) : LayoutNode :=
  (layout ref).getD {}

/-- An in-place update of the node that `ref` refers to. -/
def Layout.modify (layout : Layout) (ref : String) (f : LayoutNode → LayoutNode) : Layout :=
  fun k => if k = ref then (layout k).map f else layout k

/-- The guard `if (!(key in layout)) layout[key] = {children: []}` for a key that is not
inherited from `Object.prototype`: then `key in layout` looks at the own keys only. -/
def Layout.ensure (layout : Layout) (key : String) : Layout :=
  if (layout key).isSome then layout else layout.set key {}

/-- The function `calcGroupWidth`. -/
def calcGroupWidth (nodeGroup : List String) (m : Measures) : ℚ :=
  (m.nodeh * nodeGroup.length) + (m.deltah * 2 * ((nodeGroup.length : ℚ) - 1))

/-- How a run of the model can end without a value. -/
inductive Failure where
  /-- A property of `undefined` was read (the source throws a `TypeError`). -/
  | typeError
  /-- An `undefined` coordinate entered the arithmetic (the source goes on with `NaN`). -/
  | notANumber
  /-- The traversal loop did not finish within the given number of iterations. -/
  | outOfFuel
  /-- The source goes on in a way that the model does not follow: it writes to
  `Object.prototype`, or it overwrites a field of a node with a value of a descriptor. -/
  | notModelled
deriving DecidableEq, Repr

/-- The lookup `layout[nodeGroup[0].parentId]`, of which `.x` or `.y` is read next.  An
absent `parentId` is the key `'undefined'`.  A key that is found on `Object.prototype` only
gives a value without `x` and `y`; a key that is not found gives `undefined`. -/
def groupParent (layout : Layout) (nodeGroup : List String) : Except Failure LayoutNode :=
  match nodeGroup.head? with
  | none => .error .typeError
  | some node =>
    match (layout.deref node).parentId with
    | none =>
      match layout "undefined" with
      | none => .error .typeError
      | some parent => .ok parent
    | some parentId =>
      match layout parentId with
      | none => if inheritedKey parentId then .ok {} else .error .typeError
      | some parent => .ok parent

/-- A coordinate that is read into the arithmetic. -/
def coordinate (v : Option ℚ) : Except Failure ℚ :=
  match v with
  | some q => .ok q
  | none => .error .notANumber

/-- The four writes to `node` in the inner loops of `updateFrontierLayout`: `x` and `y` are
the values assigned to `node.x` and `node.y`. -/
def setPos (m : Measures) (x y : ℚ) (node : LayoutNode) : LayoutNode :=
  { node with
    x := some x
    xoff := some (x - (m.nodew / 2))
    y := some y
    yoff := some (y - (m.nodeh / 2)) }

/-- The inner loop `for (let i = 0; i < nodeGroup.length; i++)` of `updateFrontierLayout`,
from index `i` on; `x i` is the value assigned to `node.x`, `y` the one assigned to `node.y`. -/
def placeNodes (m : Measures) (x : Nat → ℚ) (y : ℚ) : Layout → Nat → List String → Layout
  | layout, _, [] => layout
  | layout, i, node :: rest =>
    placeNodes m x y (layout.modify node (setPos m (x i) y)) (i + 1) rest

/-- The first loop of `updateFrontierLayout` (left side), over the groups still to place. -/
def layoutLeft (m : Measures) (midY : ℚ) :
    Layout → ℚ → List (List String) → Except Failure Layout
  | layout, _, [] => .ok layout
  | layout, rightLimit, nodeGroup :: rest => do
    let px ← coordinate (← groupParent layout nodeGroup).x
    let groupw := calcGroupWidth nodeGroup m
    let rightLimit := min rightLimit (px + (groupw / 2))
    let layout := placeNodes m
      (fun i => rightLimit - groupw + (m.nodew / 2) + ((m.nodew + (m.deltaw * 2)) * i))
      (midY - m.levh) layout 0 nodeGroup
    layoutLeft m midY layout (rightLimit - groupw - (2 * m.deltaw)) rest

/-- The second loop of `updateFrontierLayout` (right side), over the groups still to place. -/
def layoutRight (m : Measures) (midY : ℚ) :
    Layout → ℚ → List (List String) → Except Failure Layout
  | layout, _, [] => .ok layout
  | layout, leftLimit, nodeGroup :: rest => do
    let px ← coordinate (← groupParent layout nodeGroup).x
    let groupw := (m.nodeh * nodeGroup.length) + (m.deltah * 2 * ((nodeGroup.length : ℚ) - 1))
    let leftLimit := max leftLimit (px - (groupw / 2))
    let layout := placeNodes m
      (fun i => leftLimit + (m.nodew / 2) + ((m.nodew + (m.deltaw * 2)) * i))
      (midY - m.levh) layout 0 nodeGroup
    layoutRight m midY layout (leftLimit + groupw + (2 * m.deltaw)) rest

/-- The function `updateFrontierLayout`. -/
def updateFrontierLayout (viz : Viz) (layout : Layout) (generation : List (List String))
    (genNum : Nat) : Except Failure Layout :=
  if genNum = 0 then
    .ok layout
  else do
    let m := viz.measures
    let midIndex := generation.length / 2
    let midGroup ← match generation[midIndex]? with
      | some g => Except.ok g
      | none => Except.error Failure.typeError
    let midX := (← coordinate (← groupParent layout midGroup).x) - (calcGroupWidth midGroup m / 2)
    let midY ← coordinate (← groupParent layout midGroup).y
    let layout ← layoutLeft m midY layout (midX - m.deltaw) (generation.take midIndex).reverse
    layoutRight m midY layout (midX + m.deltaw) (generation.drop midIndex)

/-- The fictitious node `p0`. -/
def rootNode (viz : Viz) : LayoutNode :=
  { generation := some 0
    children := []
    md5 := some "parent_0"
    parentId := some ""
    expanded := some true
    visible := some false
    x := some 0
    y := some (viz.viewport.height + (viz.measures.nodeh / 2))
    xoff := some (0 - (viz.measures.nodew / 2))
    yoff := some (viz.viewport.height + (viz.measures.nodeh / 2) - (viz.measures.nodeh / 2)) }

/-- The value of `laySprite.parentId` after the descriptor is copied: the descriptor's
`parentId`, or `'parent_0'` when that is falsy (absent or empty). -/
def LibSprite.layParentId (libSprite : LibSprite) : String :=
  match libSprite.parentId with
  | none => "parent_0"
  | some parentId => if parentId = "" then "parent_0" else parentId

/-- The copy `laySprite[key] = libSprite[key]` of the keys `md5`, `name`, `json`, `parentId`
and `children` of the descriptor onto its layout node, followed by the default of
`parentId`.  An empty array `children` of the descriptor replaces the children that the node
has got so far.  The keys of `others` are copied too; `addLibSpriteChecked` makes sure that
none of them is a field of `LayoutNode`. -/
def copySprite (libSprite : LibSprite) (laySprite : LayoutNode) : LayoutNode :=
  { laySprite with
    md5 := some libSprite.md5
    name := some libSprite.name
    json := some libSprite.json
    children := if libSprite.emptyChildren then [] else laySprite.children
    parentId := some libSprite.layParentId }

/-- The push `children.push(laySprite)` of (a reference to) the descriptor's node. -/
def pushChild (libSprite : LibSprite) (parent : LayoutNode) : LayoutNode :=
  { parent with children := parent.children ++ [libSprite.md5] }

/-- The writes of the body of `for (const libSprite of libSprites)` in `calcLayout`, for a
descriptor whose `md5` and `parentId` are not inherited keys of `layout` and whose keys in
`others` are not fields of a node. -/
def addLibSprite (layout : Layout) (libSprite : LibSprite) : Layout :=
  let layout := layout.ensure libSprite.md5
  let layout := layout.modify libSprite.md5 (copySprite libSprite)
  let layout := layout.ensure libSprite.layParentId
  layout.modify libSprite.layParentId (pushChild libSprite)

/-- The body of `for (const libSprite of libSprites)` in `calcLayout`, for every descriptor.
The source is a module, hence strict code, and `Object.prototype` is taken to be as the
language defines it when `calcLayout` is called.

* For `md5 = '__proto__'` the test `libSprite.md5 in layout` holds, `laySprite` is
  `Object.prototype` and the copy writes the descriptor onto it: not modelled.
* For another inherited `md5` the test holds as well and `laySprite` is a function; the copy
  reaches the key `name`, which is read-only on a function, and throws a `TypeError`.
* A key of `others` that is a field of a node would overwrite it: not modelled.
* For an inherited `parentId` the test `laySprite.parentId in layout` holds, no node is
  created, `layout[laySprite.parentId].children` is `undefined` and `push` throws a
  `TypeError`. -/
def addLibSpriteChecked (layout : Layout) (libSprite : LibSprite) : Except Failure Layout :=
  if libSprite.md5 = "__proto__" then .error .notModelled
  else if inheritedKey libSprite.md5 then .error .typeError
  else if libSprite.others.any maintainedKey then .error .notModelled
  else if inheritedKey libSprite.layParentId then .error .typeError
  else .ok (addLibSprite layout libSprite)

/-- The loop `for (const libSprite of libSprites)` of `calcLayout`. -/
def addLibSprites : Layout → List LibSprite → Except Failure Layout
  | layout, [] => .ok layout
  | layout, libSprite :: rest =>
    match addLibSpriteChecked layout libSprite with
    | .error e => .error e
    | .ok layout => addLibSprites layout rest

/-- The local variables of the traversal loop of `calcLayout`, with the layout they mutate. -/
structure Traversal where
  layout : Layout
  queue : List String
  genNum : Option Nat
  generation : List (List String)
  generations : List (List (List String))
  curParentId : Option String

/-- JavaScript `a > b` on numbers that may be `undefined`. -/
def numGt (a b : Option Nat) : Bool :=
  match a, b with
  | some a, some b => decide (a > b)
  | _, _ => false

/-- The writes `child.visible = true; child.generation = node.generation + 1`, where
`generation` is the value of `node.generation`. -/
def markChild (generation : Option Nat) (child : LayoutNode) : LayoutNode :=
  { child with visible := some true, generation := generation.map (· + 1) }

/-- The loop `for (const child of node.children)`: the writes to each child.  `node.generation`
is read again at every child. -/
def visitChildren (node : String) : Layout → List String → Layout
  | layout, [] => layout
  | layout, child :: rest =>
    visitChildren node (layout.modify child (markChild (layout.deref node).generation)) rest

/-- The statement `generation[generation.length - 1].push(node)`; `generation` is never empty. -/
def pushToLastGroup (generation : List (List String)) (node : String) : List (List String) :=
  generation.dropLast ++ [generation.getLast?.getD [] ++ [node]]

/-- One iteration of `while (queue.length > 0)`, with `node :: rest` the queue at its start. -/
def traversalStep (t : Traversal) (node : String) (rest : List String) : Traversal :=
  let children := (t.layout.deref node).children
  let queue := rest ++ children
  let layout := visitChildren node t.layout children
  let n := layout.deref node
  let newGeneration := numGt n.generation t.genNum
  let generations := if newGeneration then t.generations ++ [t.generation] else t.generations
  let generation :=
    if newGeneration then [[node]]
    else if n.parentId = t.curParentId then pushToLastGroup t.generation node
    else t.generation ++ [[node]]
  { layout := layout
    queue := queue
    genNum := n.generation
    generation := generation
    generations := if queue.isEmpty then generations ++ [generation] else generations
    curParentId := n.parentId }

/-- The loop `while (queue.length > 0)`, run for at most `fuel` iterations. -/
def traverse : Nat → Traversal → Option Traversal
  | 0, t => if t.queue.isEmpty then some t else none
  | fuel + 1, t =>
    match t.queue with
    | [] => some t
    | node :: rest => traverse fuel (traversalStep t node rest)

/-- The loop `for (let i = 0; i < generations.length; i++)` of `calcLayout`, from index `i` on. -/
def layoutGenerations (viz : Viz) :
    Layout → Nat → List (List (List String)) → Except Failure Layout
  | layout, _, [] => .ok layout
  | layout, i, generation :: rest => do
    let layout ← updateFrontierLayout viz layout generation i
    layoutGenerations viz layout (i + 1) rest

/-- The local variables as the traversal loop of `calcLayout` is entered. -/
def Traversal.start (layout : Layout) : Traversal :=
  { layout := layout
    queue := ["parent_0"]
    genNum := some 0
    generation := [[]]
    generations := []
    curParentId := some "" }

/-- The function `calcLayout`.  The result `.ok none` is the `return;` of an absent list.
The traversal loop runs for at most `fuel` iterations.  The write to the global
`BOTCH.debugLayout` is not part of the model. -/
def calcLayout (fuel : Nat) (viz : Viz) (libSprites : Option (List LibSprite)) :
    Except Failure (Option Layout) :=
  let layout := Layout.empty.set "parent_0" (rootNode viz)
  match libSprites with
  | none => .ok none
  | some libSprites =>
    match addLibSprites layout libSprites with
    | .error e => .error e
    | .ok layout =>
      match traverse fuel (Traversal.start layout) with
      | none => .error .outOfFuel
      | some t =>
        match layoutGenerations viz t.layout 0 t.generations with
        | .error e => .error e
        | .ok layout => .ok (some layout)

/-! ## Invariants of the layout engine -/

/-- What holds of the layout once the descriptors `sprites` have been added to it: the
children of a node are descriptors that name it as their parent, each one once. -/
structure Forest (viz : Viz) (sprites : List LibSprite) (layout : Layout) : Prop where
  root : ∃ r, layout "parent_0" = some r ∧ r.generation = some 0 ∧ r.visible = some false ∧
    r.x = some 0 ∧ r.y = some (viz.viewport.height + (viz.measures.nodeh / 2)) ∧
    r.parentId = some ""
  keys : ∀ k, layout k ≠ none →
    k = "parent_0" ∨ k ∈ sprites.map LibSprite.md5 ∨ k ∈ sprites.map LibSprite.layParentId
  child_mem : ∀ k c, c ∈ (layout.deref k).children → c ∈ sprites.map LibSprite.md5
  child_node : ∀ k c, c ∈ (layout.deref k).children →
    ∃ cn, layout c = some cn ∧ cn.parentId = some k
  children_nodup : ∀ k, (layout.deref k).children.Nodup
  unvisited : ∀ k, k ≠ "parent_0" →
    (layout.deref k).generation = none ∧ (layout.deref k).visible = none ∧
    (layout.deref k).x = none ∧ (layout.deref k).y = none ∧
    (layout.deref k).xoff = none ∧ (layout.deref k).yoff = none
  sprite_node : (∀ s ∈ sprites, s.emptyChildren = false) → ∀ s ∈ sprites,
    ∃ n, layout s.md5 = some n ∧ s.md5 ∈ (layout.deref s.layParentId).children

/-- A node without what the traversal writes to it. -/
def LayoutNode.eraseVisit (n : LayoutNode) : LayoutNode :=
  { n with generation := none, visible := none }

/-- The generations built so far, the one in progress included.  The traversal adds the one
in progress to `generations` in the iteration that empties the queue. -/
def Traversal.pending (t : Traversal) : List (List (List String)) :=
  if t.queue.isEmpty then t.generations else t.generations ++ [t.generation]

/-- The loop invariant of the traversal of `calcLayout` over a forest `layout0`: `visited`
lists the nodes dequeued so far, in order. -/
structure Visited (layout0 : Layout) (t : Traversal) (visited : List String) : Prop where
  same : ∀ k, (t.layout k).map LayoutNode.eraseVisit = (layout0 k).map LayoutNode.eraseVisit
  nodup : (visited ++ t.queue).Nodup
  root_mem : "parent_0" ∈ visited ++ t.queue
  root_gen : (t.layout.deref "parent_0").generation = some 0
  parent_visited : ∀ c ∈ visited ++ t.queue, c ≠ "parent_0" →
    ∃ p ∈ visited, c ∈ (layout0.deref p).children
  closed : ∀ p ∈ visited, ∀ c ∈ (layout0.deref p).children, c ∈ visited ++ t.queue
  edge : ∀ p ∈ visited, ∀ c ∈ (layout0.deref p).children,
    (t.layout.deref c).visible = some true ∧
    ∃ g, (t.layout.deref p).generation = some g ∧ (t.layout.deref c).generation = some (g + 1)
  untouched : ∀ k, k ∉ visited ++ t.queue → t.layout k = layout0 k
  flat : t.pending.flatten.flatten = visited
  index : ∀ i gen, t.pending[i]? = some gen → ∀ n ∈ gen.flatten,
    (t.layout.deref n).generation = some i
  genNum : ∃ g, t.genNum = some g ∧ t.pending.length = g + 1
  queue_gens : ∃ q1 q2, t.queue = q1 ++ q2 ∧
    (∀ n ∈ q1, (t.layout.deref n).generation = t.genNum) ∧
    ∀ n ∈ q2, (t.layout.deref n).generation = t.genNum.map (· + 1)
  groups : ∀ i gen, t.pending[i]? = some gen → 1 ≤ i → gen ≠ [] ∧ ∀ group ∈ gen, group ≠ []
  generation_ne : t.generation ≠ []

/-- A node without what `updateFrontierLayout` writes to it. -/
def LayoutNode.erasePos (n : LayoutNode) : LayoutNode :=
  { n with x := none, y := none, xoff := none, yoff := none }

/-- The layout `layout'` is `layout` with the nodes of `nodes` placed at height `y`, the
node `k` at the abscissa `pos k`. -/
def Placed (m : Measures) (y : ℚ) (nodes : List String) (pos : String → ℚ)
    (layout layout' : Layout) : Prop :=
  ∀ k, layout' k = if k ∈ nodes then (layout k).map (setPos m (pos k) y) else layout k

/-- Every group of `groups` has a first node, whose parent is in the layout, outside
`nodes`, with an abscissa and the ordinate `py`. -/
def Ready (layout : Layout) (nodes : List String) (py : ℚ) (groups : List (List String)) :
    Prop :=
  ∀ group ∈ groups, ∃ node parentId parent px,
    group.head? = some node ∧ (layout.deref node).parentId = some parentId ∧
    layout parentId = some parent ∧ parent.x = some px ∧ parent.y = some py ∧
    parentId ∉ nodes

/-- The measures set by `calcViz`, as far as the abscissas depend on them. -/
def CalcVizMeasures (m : Measures) : Prop :=
  m.deltah = 15 ∧ m.deltaw = 25 ∧ m.nodeh = 150 ∧ m.nodew = 100

/-- Every generation of the list is non-empty, and each of its groups starts with a node
whose `parentId` is the key of a node of the generation before it (of `prev` for the first). -/
def Linked (layout : Layout) : List String → List (List (List String)) → Prop
  | _, [] => True
  | prev, gen :: rest =>
    gen ≠ [] ∧
    (∀ group ∈ gen, ∃ node parentId, group.head? = some node ∧
      (layout.deref node).parentId = some parentId ∧ parentId ∈ prev) ∧
    Linked layout gen.flatten rest

/-- What a run of `calcLayout` on the descriptors `sprites` establishes, where `layout0` is the
layout once the descriptors are added, `t` holds the variables at the end of the traversal,
`visited` lists the nodes it dequeued, in order, and `layout` is the result. -/
structure Outcome (viz : Viz) (sprites : List LibSprite) (layout0 : Layout) (t : Traversal)
    (visited : List String) (layout : Layout) : Prop where
  forest : Forest viz sprites layout0
  traversed : Visited layout0 t visited
  finished : t.queue = []
  shape : ∀ k, (layout k).map LayoutNode.erasePos = (t.layout k).map LayoutNode.erasePos
  root_pos : (layout.deref "parent_0").x = some 0 ∧
    (layout.deref "parent_0").y = some (viz.viewport.height + (viz.measures.nodeh / 2))
  level : ∀ (i : Nat) (gen : List (List String)), t.generations[i]? = some gen → 1 ≤ i →
    ∀ n ∈ gen.flatten, (layout.deref n).y =
      some (viz.viewport.height + (viz.measures.nodeh / 2) - (i : ℚ) * viz.measures.levh)
  spaced : CalcVizMeasures viz.measures →
    ∀ (i : Nat) (gen : List (List String)), t.generations[i]? = some gen → 1 ≤ i →
      gen.flatten.Pairwise (fun a b => ∃ xa xb, (layout.deref a).xoff = some xa ∧
        (layout.deref b).xoff = some xb ∧ xa + viz.measures.nodew < xb)

/-- The descriptors of the example of the specification: `a` without parent, `b` and `c`
with parent `a`. -/
def exampleSprites : List LibSprite :=
  [ { md5 := "a", parentId := none, name := "a", json := { name := "a", objName := "a" } },
    { md5 := "b", parentId := some "a", name := "b", json := { name := "b", objName := "b" } },
    { md5 := "c", parentId := some "a", name := "c", json := { name := "c", objName := "c" } } ]

/-! ## Viewport model: event handlers -/

/-- The method `handleTreeDragStart`; `onTarget` is `event.target === event.currentTarget`
and `point` the result of `getPointFromEvent (event)`. -/
def handleTreeDragStart (viz : Viz) (onTarget : Bool) (point : Point) : Viz :=
  if !onTarget then
    viz
  else
    { viz with isPointerDown := true, pointerOrigin := some point }

/-- The method `handleTreeDragMove`; `pointerPosition` is the result of
`getPointFromEvent (event)`.  Reading `x` of a `null` origin throws a `TypeError`. -/
def handleTreeDragMove (viz : Viz) (pointerPosition : Point) : Except Failure Viz :=
  if !viz.isPointerDown then
    .ok viz
  else
    match viz.pointerOrigin with
    | none => .error .typeError
    | some pointerOrigin =>
      let oldViewBox := viz.viewBox
      .ok { viz with
            viewBox :=
              { x := oldViewBox.x - (pointerPosition.x - pointerOrigin.x)
                y := oldViewBox.y - (pointerPosition.y - pointerOrigin.y)
                height := oldViewBox.height
                width := oldViewBox.width } }

/-- The method `handleTreeDragStop`. -/
def handleTreeDragStop (viz : Viz) : Viz :=
  if !viz.isPointerDown then
    viz
  else
    { viz with isPointerDown := false }

/-- The method `handleTreeWheel`; `deltaY` is `event.deltaY` and `p` the result of
`getPointFromEvent (event)`. -/
def handleTreeWheel (viz : Viz) (deltaY : ℚ) (p : Point) : Viz :=
  if deltaY > 0 then
    zoom viz (105 / 100) p
  else
    zoom viz (95 / 100) p

/-- The method `updateViz`; the parameters are those of `calcViz`.  The viewBox of the new
state is the one of the old state, with `width` and `height` overwritten. -/
def updateViz (viz : Viz) (innerWidth innerHeight stageWidth : ℚ) : Viz :=
  let newStuff := calcViz innerWidth innerHeight stageWidth
  { viz with
    viewport := newStuff.viewport
    viewBox :=
      { viz.viewBox with
        width := newStuff.viewBox.width * viz.zoom
        height := newStuff.viewBox.height * viz.zoom } }

/-- What can happen to the viewport state: a call of `zoom`, or one of the events that the
component handles. -/
inductive Transition where
  | zoom (factor : ℚ) (p : Point)
  | wheel (deltaY : ℚ) (p : Point)
  | pointerDown (onTarget : Bool) (point : Point)
  | pointerMove (pointerPosition : Point)
  | pointerUp
  | resize (innerWidth innerHeight stageWidth : ℚ)

/-- The state after a transition. -/
def Transition.apply (viz : Viz) : Transition → Except Failure Viz
  | .zoom factor p => .ok (BotchOrganismTab.zoom viz factor p)
  | .wheel deltaY p => .ok (handleTreeWheel viz deltaY p)
  | .pointerDown onTarget point => .ok (handleTreeDragStart viz onTarget point)
  | .pointerMove pointerPosition => handleTreeDragMove viz pointerPosition
  | .pointerUp => .ok (handleTreeDragStop viz)
  | .resize innerWidth innerHeight stageWidth =>
    .ok (updateViz viz innerWidth innerHeight stageWidth)

/-- The state after a sequence of transitions; a `TypeError` ends the run. -/
def runTransitions (viz : Viz) : List Transition → Except Failure Viz
  | [] => .ok viz
  | transition :: rest =>
    match transition.apply viz with
    | .ok viz => runTransitions viz rest
    | .error e => .error e

/-- Whether the transition is a direct call of `zoom`, which no event of the component makes
with a factor other than `1.05` and `0.95`. -/
def Transition.isZoomCall : Transition → Bool
  | .zoom _ _ => true
  | _ => false

/-! ## Name de-duplication: counted iterations -/

/-- The loop of `findNewName`, allowed to test its condition at most `fuel` times; `none`
when that is not enough to leave the loop. -/
def findNewNameFuel (names : Finset String) : Nat → String → Nat → Option String
  | 0, _, _ => none
  | fuel + 1, candidate, i =>
    if candidate ∈ names then
      findNewNameFuel names fuel (findNewNameBody candidate i).1 (findNewNameBody candidate i).2
    else
      some candidate

/-! ## Invariants of the layout engine: what every run keeps -/

/-- The layout `layout'` is `layout` with some of its nodes given a position (the four
writes of `updateFrontierLayout`), the other nodes being the same. -/
def Repositioned (m : Measures) (layout layout' : Layout) : Prop :=
  ∀ k, layout' k = layout k ∨ ∃ x y, layout' k = (layout k).map (setPos m x y)

/-- A descriptor `b` with the parent `a`, followed by the descriptor `a`, which has a key
`children` holding an empty array. -/
def shadowedSprites : List LibSprite :=
  [ { md5 := "b", parentId := some "a", name := "b", json := { name := "b", objName := "b" } },
    { md5 := "a", parentId := none, name := "a", json := { name := "a", objName := "a" },
      emptyChildren := true } ]

/-- A descriptor whose identity is a property of `Object.prototype`. -/
def inheritedIdentity : List LibSprite :=
  [ { md5 := "constructor", parentId := none, name := "a",
      json := { name := "a", objName := "a" } } ]

/-- A descriptor whose parent is a property of `Object.prototype`. -/
def inheritedParent : List LibSprite :=
  [ { md5 := "c", parentId := some "toString", name := "c",
      json := { name := "c", objName := "c" } } ]

/-- A descriptor whose parent is not in the list: the node `z` of its parent is a stub. -/
def orphanSprites : List LibSprite :=
  [ { md5 := "c", parentId := some "z", name := "c", json := { name := "c", objName := "c" } } ]

/-- The first generation during the traversal: before the first iteration the variables are
the initial ones, afterwards the first generation is the group of `'parent_0'` alone. -/
def RootGeneration (t : Traversal) (visited : List String) : Prop :=
  (visited = [] → t.generations = [] ∧ t.generation = [[]] ∧ t.curParentId = some "" ∧
    t.genNum = some 0 ∧ t.queue = ["parent_0"]) ∧
  (visited ≠ [] → t.pending[0]? = some [["parent_0"]])

/-! ## Layout engine: the order of the traversal -/

/-- The values of `queue.shift()` in the loop `while (queue.length > 0)` of `calcLayout`, in
the order of the iterations, for at most `fuel` iterations: the nodes as they are dequeued. -/
def dequeued : Nat → Traversal → List String
  | 0, _ => []
  | fuel + 1, t =>
    match t.queue with
    | [] => []
    | node :: rest => node :: dequeued fuel (traversalStep t node rest)

/-- Two sprites with the same name. -/
def twoCats : List LibSprite :=
  [ { md5 := "m1", parentId := none, name := "cat", json := { name := "cat", objName := "cat" } },
    { md5 := "m2", parentId := none, name := "cat", json := { name := "cat", objName := "cat" } } ]

/-! ## Viewport model: the arithmetic of the source -/

/-- The power `2 ^ e` for an integer exponent. -/
def pow2 (e : Int) : ℚ :=
  if 0 ≤ e then ((2 ^ e.toNat : Nat) : ℚ) else 1 / ((2 ^ (-e).toNat : Nat) : ℚ)

/-- The multiple of `2 ^ e` nearest to `q`, the even one of two that are equally near. -/
def roundToEven (q : ℚ) (e : Int) : ℚ :=
  let scaled := q / pow2 e
  let lower : Int := ⌊scaled⌋
  let rest := scaled - lower
  let n : Int :=
    if rest < 1 / 2 then lower
    else if 1 / 2 < rest then lower + 1
    else if lower % 2 = 0 then lower else lower + 1
  n * pow2 e

/-- The number of times that `n` can be halved before it is less than `2`, counted for at
most `fuel` halvings. -/
def halvings : Nat → Nat → Nat
  | 0, _ => 0
  | fuel + 1, n => if n < 2 then 0 else halvings fuel (n / 2) + 1

/-- The exponent `e` with `2 ^ e ≤ |q| < 2 ^ (e + 1)`, for `q ≠ 0`: it is the difference `d`
of the exponents of the numerator and of the denominator, or `d - 1`. -/
def binade (q : ℚ) : Int :=
  let d : Int := (halvings q.num.natAbs q.num.natAbs : Int) - (halvings q.den q.den : Int)
  if pow2 d ≤ |q| then d else d - 1

/-- The JavaScript number (IEEE 754 binary64, round to nearest, ties to even) that an
arithmetic operation with the exact result `q` yields: 53 significant bits, exponents from
`-1022` on.  The result is `none` when it is not finite.  The sign of zero is not kept. -/
def roundDouble (q : ℚ) : Option ℚ :=
  if q = 0 then some 0
  else
    let r := roundToEven q (max (binade q) (-1022) - 52)
    if binade r < 1024 then some r else none

/-- The method `zoom (factor, p)` in the arithmetic of the source: every product, sum and
difference is rounded to a JavaScript number.  The state, `factor` and `p` hold JavaScript
numbers; the result is `none` when a number of the new state is not finite. -/
def zoomDouble (viz : Viz) (factor : ℚ) (p : Point) : Option Viz :=
  if viz.zoom > MIN_ZOOM ∧ factor > 1 then
    some viz
  else do
    let oldViewBox := viz.viewBox
    let zoom ← roundDouble (viz.zoom * factor)
    let width ← roundDouble (oldViewBox.width * factor)
    let height ← roundDouble (oldViewBox.height * factor)
    let x ← roundDouble ((← roundDouble (oldViewBox.x * factor)) +
      (← roundDouble (p.x - (← roundDouble (p.x * factor)))))
    let y ← roundDouble ((← roundDouble (oldViewBox.y * factor)) +
      (← roundDouble (p.y - (← roundDouble (p.y * factor)))))
    some { viz with
      zoom := zoom
      viewBox := { oldViewBox with width := width, height := height, x := x, y := y } }

/-! ## Name de-duplication: properties -/

theorem findNewNameLoop_of_mem (names : Finset String) (candidate : String) (i : Nat)
    (h : candidate ∈ names) :
    findNewNameLoop names candidate i =
      findNewNameLoop names (findNewNameBody candidate i).1 (findNewNameBody candidate i).2 := by
  rw [findNewNameLoop, if_pos h]

theorem findNewNameLoop_of_not_mem (names : Finset String) (candidate : String) (i : Nat)
    (h : candidate ∉ names) : findNewNameLoop names candidate i = candidate := by
  rw [findNewNameLoop, if_neg h]

theorem findNewNameLoop_not_mem (names : Finset String) (candidate : String) (i : Nat) :
    findNewNameLoop names candidate i ∉ names := by
  induction candidate, i using findNewNameLoop.induct names with
  | case1 c i h ih => rw [findNewNameLoop_of_mem names c i h]; exact ih
  | case2 c i h => rw [findNewNameLoop_of_not_mem names c i h]; exact h

theorem updateSpritesLoop_names (libSprites : List LibSprite) :
    ∀ names : Finset String,
      ((updateSpritesLoop names libSprites).map LibSprite.name).Nodup ∧
      ∀ n ∈ (updateSpritesLoop names libSprites).map LibSprite.name, n ∉ names := by
  induction libSprites with
  | nil => intro names; simp [updateSpritesLoop]
  | cons s rest ih =>
    intro names
    obtain ⟨hnodup, hfresh⟩ := ih (insert (findNewName s.name names) names)
    simp only [updateSpritesLoop, List.map_cons, List.nodup_cons, List.mem_cons]
    refine ⟨⟨fun hmem => ?_, hnodup⟩, ?_⟩
    · exact hfresh _ hmem (Finset.mem_insert_self _ _)
    · rintro n (rfl | hn)
      · exact findNewNameLoop_not_mem names s.name 1
      · exact fun hmem => hfresh n hn (Finset.mem_insert_of_mem hmem)

theorem updateSpritesLoop_length (libSprites : List LibSprite) :
    ∀ names : Finset String, (updateSpritesLoop names libSprites).length = libSprites.length := by
  induction libSprites with
  | nil => intro names; rfl
  | cons s rest ih =>
    intro names
    simp only [updateSpritesLoop, List.length_cons, ih]

theorem updateSpritesLoop_getElem (libSprites : List LibSprite) :
    ∀ (names : Finset String) (i : Nat) (s : LibSprite), libSprites[i]? = some s →
      ∃ candidate, candidate = findNewName s.name
          (names ∪ (((updateSpritesLoop names libSprites).take i).map LibSprite.name).toFinset) ∧
        (updateSpritesLoop names libSprites)[i]? = some { s with
          name := candidate, json := { name := candidate, objName := candidate } } := by
  induction libSprites with
  | nil =>
    intro names i s h
    simp at h
  | cons s0 rest ih =>
    intro names i s h
    cases i with
    | zero =>
      simp only [List.getElem?_cons_zero, Option.some.injEq] at h
      subst h
      refine ⟨_, rfl, ?_⟩
      simp [updateSpritesLoop]
    | succ i =>
      rw [List.getElem?_cons_succ] at h
      obtain ⟨candidate, hc, hget⟩ := ih (insert (findNewName s0.name names) names) i s h
      refine ⟨candidate, ?_, ?_⟩
      · rw [hc]
        congr 1
        simp only [updateSpritesLoop, List.take_succ_cons, List.map_cons, List.toFinset_cons]
        rw [Finset.insert_union, Finset.union_insert]
      · simp only [updateSpritesLoop, List.getElem?_cons_succ]
        exact hget

/-- C1: the renaming loop of `updateSprites`, started from the empty set of names, keeps the
sprites of the list, in their order: the sprite at each position gets as `name`,
`json.name` and `json.objName` the string `findNewName (sprite.name, names)`, where `names`
holds the names given to the sprites before it, and keeps its other keys.  After the loop
the names of the sprites of the list are pairwise distinct. -/
theorem updateSprites_names_distinct (libSprites : List LibSprite) :
    (updateSpritesLoop ∅ libSprites).length = libSprites.length ∧
    (∀ (i : Nat) (s : LibSprite), libSprites[i]? = some s →
      ∃ candidate, candidate = findNewName s.name
          (((updateSpritesLoop ∅ libSprites).take i).map LibSprite.name).toFinset ∧
        (updateSpritesLoop ∅ libSprites)[i]? = some { s with
          name := candidate, json := { name := candidate, objName := candidate } }) ∧
    List.Pairwise (fun a b => a ≠ b) ((updateSpritesLoop ∅ libSprites).map LibSprite.name) := by
  refine ⟨updateSpritesLoop_length libSprites ∅, ?_, (updateSpritesLoop_names libSprites ∅).1⟩
  intro i s h
  obtain ⟨candidate, hc, hget⟩ := updateSpritesLoop_getElem libSprites ∅ i s h
  rw [Finset.empty_union] at hc
  exact ⟨candidate, hc, hget⟩

theorem findNewName_cat : findNewName "cat" {"cat"} = "cat 1" := by
  unfold findNewName
  rw [findNewNameLoop_of_mem _ _ _ (by decide)]
  have h1 : findNewNameBody "cat" 1 = ("cat 1", 1) := by decide
  rw [h1, findNewNameLoop_of_not_mem _ _ _ (by decide)]

/-- Witness for C1: two sprites named `cat` become `cat` and `cat 1`. -/
theorem updateSprites_names_distinct_witness :
    (updateSpritesLoop ∅ twoCats).map LibSprite.name = ["cat", "cat 1"] ∧
    (updateSpritesLoop ∅ twoCats).map LibSprite.md5 = ["m1", "m2"] ∧
    List.Pairwise (fun a b => a ≠ b) ((updateSpritesLoop ∅ twoCats).map LibSprite.name) := by
  refine ⟨?_, ?_, (updateSprites_names_distinct twoCats).2.2⟩
  · have h0 : findNewName "cat" ∅ = "cat" := by
      unfold findNewName
      rw [findNewNameLoop_of_not_mem _ _ _ (by decide)]
    simp [twoCats, updateSpritesLoop, h0, findNewName_cat]
  · simp [twoCats, updateSpritesLoop]

/-- C5: the string returned by `findNewName (name, names)` is not a member of `names`. -/
theorem findNewName_not_mem (name : String) (names : Finset String) :
    findNewName name names ∉ names :=
  findNewNameLoop_not_mem names name 1

theorem toString_digit (i : Nat) (h : i < 10) :
    ∃ c : Char, toString i = String.singleton c ∧ (i < 9 → charGe (some c) '0' = true ∧ charLt (some c) '9' = true) := by
  interval_cases i <;> exact ⟨_, rfl, by decide⟩

theorem append_singleton_eq_push (s : String) (c : Char) : s ++ String.singleton c = s.push c := by
  rfl

theorem findNewNameBody_push_digit (s : String) (c : Char) (i : Nat)
    (h0 : charGe (some c) '0' = true) (h9 : charLt (some c) '9' = true) (hi : i < 10) :
    findNewNameBody (s.push c) i = (s ++ toString i, i + 1) := by
  have hlast : (s.push c).data.getLast? = some c := by
    show (s.data ++ [c]).getLast? = some c
    simp
  have hdrop : String.mk (s.push c).data.dropLast = s := by
    show String.mk (s.data ++ [c]).dropLast = s
    simp
  simp only [findNewNameBody, hlast, h0, h9, hi, hdrop, decide_True, Bool.and_self, if_true]

theorem findNewNameLoop_digit_run (names : Finset String) (s : String) (k : Nat) (hk : k ≤ 9)
    (hfree : s ++ toString k ∉ names) :
    ∀ (n i : Nat) (c : Char), k - i = n → 1 ≤ i → i ≤ k →
      charGe (some c) '0' = true → charLt (some c) '9' = true → s.push c ∈ names →
      (∀ j, i ≤ j → j < k → s ++ toString j ∈ names) →
      findNewNameLoop names (s.push c) i = s ++ toString k := by
  intro n
  induction n with
  | zero =>
    intro i c hn _ hik h0 h9 hmem _
    have hi : i = k := by omega
    subst hi
    rw [findNewNameLoop_of_mem names _ _ hmem, findNewNameBody_push_digit s c i h0 h9 (by omega)]
    exact findNewNameLoop_of_not_mem names _ _ hfree
  | succ n ih =>
    intro i c hn h1 hik h0 h9 hmem hused
    rw [findNewNameLoop_of_mem names _ _ hmem, findNewNameBody_push_digit s c i h0 h9 (by omega)]
    obtain ⟨c', hc', hdig⟩ := toString_digit i (by omega)
    have hmem' : s ++ toString i ∈ names := hused i (Nat.le_refl _) (by omega)
    show findNewNameLoop names (s ++ toString i) (i + 1) = s ++ toString k
    rw [hc', append_singleton_eq_push] at hmem' ⊢
    obtain ⟨h0', h9'⟩ := hdig (by omega)
    exact ih (i + 1) c' (by omega) (by omega) (by omega) h0' h9' hmem'
      (fun j hj hjk => hused j (by omega) hjk)

/-- C9: digit-run rule of `findNewName`.  For a string `s`, a digit `d` in `'0'..'8'` and a set
`names` that contains `s + d`, let `k` in `1..9` be the smallest number for which `s + k` is not
in `names`; then `findNewName (s + d, names)` is `s + k`. -/
theorem findNewName_digit_run (s : String) (d : Char) (names : Finset String) (k : Nat)
    (hd : '0' ≤ d ∧ d ≤ '8') (hmem : s.push d ∈ names)
    (hk : 1 ≤ k ∧ k ≤ 9) (hfree : s ++ toString k ∉ names)
    (hleast : ∀ j, 1 ≤ j → j < k → s ++ toString j ∈ names) :
    findNewName (s.push d) names = s ++ toString k := by
  have h0 : charGe (some d) '0' = true := by simpa [charGe] using hd.1
  have h9 : charLt (some d) '9' = true := by
    have h8 : d.val.toNat ≤ 56 := hd.2
    have : d.val.toNat < 57 := by omega
    have h : d < '9' := this
    simpa [charLt] using h
  exact findNewNameLoop_digit_run names s k hk.2 hfree (k - 1) 1 d rfl (Nat.le_refl _) hk.1
    h0 h9 hmem hleast

/-- Witness for C9 -/
theorem findNewName_digit_run_witness :
    findNewName "sprite1" {"sprite1"} = "sprite2" :=
  findNewName_digit_run "sprite" '1' {"sprite1"} 2 (by decide) (by decide) (by decide) (by decide)
    (by
      intro j h1 h2
      have : j = 1 := by omega
      subst this
      decide)

theorem charLt_nine_iff_le_eight (c : Char) : charLt (some c) '9' = true ↔ c ≤ '8' := by
  have h1 : c < '9' ↔ c.val.toNat < 57 := Iff.rfl
  have h2 : c ≤ '8' ↔ c.val.toNat ≤ 56 := Iff.rfl
  simp only [charLt, decide_eq_true_eq, h1, h2]
  omega

theorem char_eq_nine (c : Char) (_h0 : '0' ≤ c) (h9 : c ≤ '9') (h8 : ¬ c ≤ '8') : c = '9' := by
  have h1 : c.val.toNat ≤ 57 := h9
  have h2 : ¬ c.val.toNat ≤ 56 := h8
  have h3 : c.val.toNat = 57 := by omega
  apply Char.ext
  apply UInt32.ext
  exact h3

theorem findNewNameBody_suffix (name : String) (i : Nat)
    (hlast : ∀ c, name.data.getLast? = some c → ¬ ('0' ≤ c ∧ c ≤ '8')) :
    findNewNameBody name i =
      (name ++ (if name.data.getLast? = some '9' then "0" else " 1"), 1) := by
  cases hl : name.data.getLast? with
  | none =>
    simp only [findNewNameBody, hl, charGe, charLt, charLe]
    rfl
  | some c =>
    have hnot := hlast c hl
    have hcond : (charGe (some c) '0' && charLt (some c) '9' && decide (i < 10)) = false := by
      cases h0 : charGe (some c) '0'
      · rfl
      · cases h9 : charLt (some c) '9'
        · rfl
        · exact absurd ⟨by simpa [charGe] using h0, (charLt_nine_iff_le_eight c).1 h9⟩ hnot
    simp only [findNewNameBody, hl, hcond]
    by_cases hc9 : c = '9'
    · subst hc9
      rfl
    · have hn : (charGe (some c) '0' && charLe (some c) '9') = false := by
        cases h0 : charGe (some c) '0'
        · rfl
        · cases h9 : charLe (some c) '9'
          · rfl
          · have h0' : '0' ≤ c := by simpa [charGe] using h0
            have h9' : c ≤ '9' := by simpa [charLe] using h9
            exact absurd (char_eq_nine c h0' h9' (fun h8 => hnot ⟨h0', h8⟩)) hc9
      have hne : ¬ (some c = some '9') := fun h => hc9 (Option.some.inj h)
      simp only [hn, if_neg hne]
      rfl

/-- C10: suffix rule of `findNewName`.  For a `name` in `names` whose last character is not a
digit in `'0'..'8'` (an empty `name` has none), the next candidate of the loop is `name + "0"`
when the last character is `'9'` and `name + " 1"` otherwise, and `findNewName` returns
it whenever it is not in `names`. -/
theorem findNewName_suffix (name : String) (names : Finset String) (hmem : name ∈ names)
    (hlast : ∀ c, name.data.getLast? = some c → ¬ ('0' ≤ c ∧ c ≤ '8')) :
    (findNewNameBody name 1).1 = name ++ (if name.data.getLast? = some '9' then "0" else " 1") ∧
    (name ++ (if name.data.getLast? = some '9' then "0" else " 1") ∉ names →
      findNewName name names = name ++ (if name.data.getLast? = some '9' then "0" else " 1")) := by
  have hbody := findNewNameBody_suffix name 1 hlast
  refine ⟨by rw [hbody], fun hfree => ?_⟩
  unfold findNewName
  rw [findNewNameLoop_of_mem names name 1 hmem, hbody]
  exact findNewNameLoop_of_not_mem names _ _ hfree

/-- Witness for C10: `findNewName ("sprite9", {"sprite9"})` is `"sprite90"` and
`findNewName ("cat", {"cat"})` is `"cat 1"`. -/
theorem findNewName_suffix_witness :
    findNewName "sprite9" {"sprite9"} = "sprite90" ∧ findNewName "cat" {"cat"} = "cat 1" :=
  ⟨(findNewName_suffix "sprite9" {"sprite9"} (by decide) (by decide)).2 (by decide),
   (findNewName_suffix "cat" {"cat"} (by decide) (by decide)).2 (by decide)⟩

/-! ## Viewport model: properties -/

theorem zoom_blocked (viz : Viz) (factor : ℚ) (p : Point)
    (hz : viz.zoom > MIN_ZOOM) (hf : factor > 1) : zoom viz factor p = viz := by
  unfold zoom
  rw [if_pos ⟨hz, hf⟩]

theorem zoom_applied (viz : Viz) (factor : ℚ) (p : Point)
    (h : ¬ (viz.zoom > MIN_ZOOM ∧ factor > 1)) :
    zoom viz factor p =
      { viz with
        zoom := viz.zoom * factor
        viewBox :=
          { x := (viz.viewBox.x * factor) + (p.x - (p.x * factor))
            y := (viz.viewBox.y * factor) + (p.y - (p.y * factor))
            width := viz.viewBox.width * factor
            height := viz.viewBox.height * factor } } := by
  unfold zoom
  rw [if_neg h]

/-- C6: zoom clamp.  When `viz.zoom` exceeds `MIN_ZOOM = 2` and `factor > 1` (in particular
`1.05`), `zoom (factor, p)` leaves the whole state unchanged for any `p`; when `factor ≤ 1`
(in particular `0.95`) the zoom is applied whatever the current zoom is: the new zoom is the
old zoom times `factor`. -/
theorem zoom_clamp (viz : Viz) (p : Point) :
    MIN_ZOOM = 2 ∧
    (∀ factor : ℚ, viz.zoom > MIN_ZOOM → factor > 1 → zoom viz factor p = viz) ∧
    (viz.zoom > MIN_ZOOM → zoom viz (105 / 100) p = viz) ∧
    (∀ factor : ℚ, factor ≤ 1 → (zoom viz factor p).zoom = viz.zoom * factor) ∧
    (zoom viz (95 / 100) p).zoom = viz.zoom * (95 / 100) := by
  have happly : ∀ factor : ℚ, factor ≤ 1 → (zoom viz factor p).zoom = viz.zoom * factor := by
    intro factor hf
    rw [zoom_applied viz factor p (fun h => absurd h.2 (not_lt.mpr hf))]
  exact ⟨rfl, fun factor hz hf => zoom_blocked viz factor p hz hf,
    fun hz => zoom_blocked viz _ p hz (by norm_num), happly, happly _ (by norm_num)⟩

/-- Witness for C6: a state with zoom `2.1`. -/
theorem zoom_clamp_witness :
    zoom { calcViz 1000 800 400 with zoom := 21 / 10 } (105 / 100) ⟨3, 4⟩
        = { calcViz 1000 800 400 with zoom := 21 / 10 } ∧
    (zoom { calcViz 1000 800 400 with zoom := 21 / 10 } (95 / 100) ⟨3, 4⟩).zoom
        = 21 / 10 * (95 / 100) :=
  ⟨(zoom_clamp { calcViz 1000 800 400 with zoom := 21 / 10 } ⟨3, 4⟩).2.1 (105 / 100)
      (by norm_num [MIN_ZOOM]) (by norm_num),
   (zoom_clamp { calcViz 1000 800 400 with zoom := 21 / 10 } ⟨3, 4⟩).2.2.2.1 (95 / 100)
      (by norm_num)⟩

/-- C8, amended: in exact arithmetic zoom keeps the anchor point stationary.  Whenever
`zoom (factor, p)` is applied (not blocked by the clamp), the new viewBox computed without
rounding satisfies `p.x - new.x = factor * (p.x - old.x)` and
`p.y - new.y = factor * (p.y - old.y)`, and width and height are multiplied by `factor`.  So
the position of `p` relative to the viewBox is kept: `(p - new origin)` is to the new size as
`(p - old origin)` is to the old size, and for `factor ≠ 0` the quotients
`(p - origin) / size` are equal. -/
theorem zoom_anchor (viz : Viz) (factor : ℚ) (p : Point)
    (happlied : ¬ (viz.zoom > MIN_ZOOM ∧ factor > 1)) :
    p.x - (zoom viz factor p).viewBox.x = factor * (p.x - viz.viewBox.x) ∧
    p.y - (zoom viz factor p).viewBox.y = factor * (p.y - viz.viewBox.y) ∧
    (zoom viz factor p).viewBox.width = viz.viewBox.width * factor ∧
    (zoom viz factor p).viewBox.height = viz.viewBox.height * factor ∧
    (p.x - (zoom viz factor p).viewBox.x) * viz.viewBox.width
      = (p.x - viz.viewBox.x) * (zoom viz factor p).viewBox.width ∧
    (p.y - (zoom viz factor p).viewBox.y) * viz.viewBox.height
      = (p.y - viz.viewBox.y) * (zoom viz factor p).viewBox.height ∧
    (factor ≠ 0 →
      (p.x - (zoom viz factor p).viewBox.x) / (zoom viz factor p).viewBox.width
        = (p.x - viz.viewBox.x) / viz.viewBox.width ∧
      (p.y - (zoom viz factor p).viewBox.y) / (zoom viz factor p).viewBox.height
        = (p.y - viz.viewBox.y) / viz.viewBox.height) := by
  rw [zoom_applied viz factor p happlied]
  refine ⟨by ring, by ring, rfl, rfl, by ring, by ring, fun hf => ⟨?_, ?_⟩⟩
  · show (p.x - (viz.viewBox.x * factor + (p.x - p.x * factor))) / (viz.viewBox.width * factor)
      = (p.x - viz.viewBox.x) / viz.viewBox.width
    rw [← mul_div_mul_right (p.x - viz.viewBox.x) viz.viewBox.width hf]
    congr 1
    ring
  · show (p.y - (viz.viewBox.y * factor + (p.y - p.y * factor))) / (viz.viewBox.height * factor)
      = (p.y - viz.viewBox.y) / viz.viewBox.height
    rw [← mul_div_mul_right (p.y - viz.viewBox.y) viz.viewBox.height hf]
    congr 1
    ring

/-- Witness for C8: zooming the initial state by `0.95` around the point `(30, 40)`. -/
theorem zoom_anchor_witness :
    (30 : ℚ) - (zoom (calcViz 1000 800 400) (95 / 100) ⟨30, 40⟩).viewBox.x
      = 95 / 100 * (30 - (calcViz 1000 800 400).viewBox.x) ∧
    ((30 : ℚ) - (zoom (calcViz 1000 800 400) (95 / 100) ⟨30, 40⟩).viewBox.x)
        / (zoom (calcViz 1000 800 400) (95 / 100) ⟨30, 40⟩).viewBox.width
      = (30 - (calcViz 1000 800 400).viewBox.x) / (calcViz 1000 800 400).viewBox.width :=
  ⟨(zoom_anchor (calcViz 1000 800 400) (95 / 100) ⟨30, 40⟩ (by norm_num)).1,
   ((zoom_anchor (calcViz 1000 800 400) (95 / 100) ⟨30, 40⟩ (by norm_num)).2.2.2.2.2.2
      (by norm_num)).1⟩

/-! ## Layout engine: absent and empty lists -/

theorem calcLayout_nil (fuel : Nat) (viz : Viz) :
    calcLayout (fuel + 1) viz (some []) = .ok (some (Layout.empty.set "parent_0" (rootNode viz))) := by
  have hroot : ∀ n, (Layout.empty.set "parent_0" n).deref "parent_0" = n := by
    intro n
    simp [Layout.deref, Layout.set]
  have hstep : traversalStep (Traversal.start (Layout.empty.set "parent_0" (rootNode viz)))
      "parent_0" [] =
      { layout := Layout.empty.set "parent_0" (rootNode viz), queue := [],
        genNum := some 0, generation := [["parent_0"]], generations := [[["parent_0"]]],
        curParentId := some "" } := by
    simp [traversalStep, Traversal.start, hroot, rootNode, visitChildren, numGt, pushToLastGroup]
  have htraverse : ∃ t, traverse (fuel + 1)
      (Traversal.start (Layout.empty.set "parent_0" (rootNode viz))) = some t ∧
      t.layout = Layout.empty.set "parent_0" (rootNode viz) ∧
      t.generations = [[["parent_0"]]] := by
    refine ⟨traversalStep (Traversal.start (Layout.empty.set "parent_0" (rootNode viz)))
      "parent_0" [], ?_, by rw [hstep], by rw [hstep]⟩
    show traverse fuel (traversalStep (Traversal.start (Layout.empty.set "parent_0" (rootNode viz)))
      "parent_0" []) = _
    rw [hstep]
    cases fuel <;> simp [traverse]
  obtain ⟨t, ht, hl, hg⟩ := htraverse
  simp only [calcLayout, addLibSprites, ht, hl, hg, layoutGenerations, updateFrontierLayout,
    if_true, bind, Except.bind]

/-- C4: `calcLayout` returns the no-layout value exactly when the sprite list is absent.  For
the empty list (and a traversal allowed at least one iteration) it returns a layout whose only
key is `'parent_0'`, whose node has generation 0, `visible = false`, no children, `x = 0` and
`y = viewport.height + nodeh / 2`. -/
theorem calcLayout_absent_empty (fuel : Nat) (viz : Viz) :
    (∀ libSprites, calcLayout fuel viz libSprites = .ok none ↔ libSprites = none) ∧
    ∃ layout p0, calcLayout (fuel + 1) viz (some []) = .ok (some layout) ∧
      (∀ key, layout key ≠ none ↔ key = "parent_0") ∧
      layout "parent_0" = some p0 ∧
      p0.generation = some 0 ∧ p0.visible = some false ∧ p0.children = [] ∧
      p0.x = some 0 ∧ p0.y = some (viz.viewport.height + viz.measures.nodeh / 2) := by
  constructor
  · intro libSprites
    cases libSprites with
    | none => simp [calcLayout]
    | some l =>
      simp only [calcLayout, reduceCtorEq, iff_false]
      split
      · simp
      · split
        · simp
        · split <;> simp
  · refine ⟨_, rootNode viz, calcLayout_nil fuel viz, ?_, ?_, rfl, rfl, rfl, rfl, rfl⟩
    · intro key
      by_cases h : key = "parent_0" <;> simp [Layout.set, Layout.empty, h]
    · simp [Layout.set]

/-! ## The layout as a heap -/

theorem Layout.set_apply (layout : Layout) (key : String) (node : LayoutNode) (k : String) :
    layout.set key node k = if k = key then some node else layout k := rfl

theorem Layout.modify_apply (layout : Layout) (ref : String) (f : LayoutNode → LayoutNode)
    (k : String) : layout.modify ref f k = if k = ref then (layout k).map f else layout k := rfl

theorem Layout.modify_of_ne (layout : Layout) (ref : String) (f : LayoutNode → LayoutNode)
    (k : String) (h : k ≠ ref) : layout.modify ref f k = layout k := by
  rw [Layout.modify_apply, if_neg h]

theorem Layout.modify_self (layout : Layout) (ref : String) (f : LayoutNode → LayoutNode) :
    layout.modify ref f ref = (layout ref).map f := by
  rw [Layout.modify_apply, if_pos rfl]

theorem Layout.deref_of_eq_some (layout : Layout) (k : String) (n : LayoutNode)
    (h : layout k = some n) : layout.deref k = n := by
  simp [Layout.deref, h]

theorem Layout.deref_congr (l1 l2 : Layout) (k : String) (h : l1 k = l2 k) :
    l1.deref k = l2.deref k := by
  simp [Layout.deref, h]

theorem Layout.ensure_apply (layout : Layout) (key k : String) :
    layout.ensure key k = if k = key then some (layout.deref key) else layout k := by
  unfold Layout.ensure
  cases h : layout key with
  | none =>
    simp only [Option.isSome_none, Bool.false_eq_true, if_false, Layout.set_apply, Layout.deref, h,
      Option.getD_none]
  | some n =>
    simp only [Option.isSome_some, if_true, Layout.deref, h, Option.getD_some]
    by_cases hk : k = key
    · rw [if_pos hk, hk, h]
    · rw [if_neg hk]

theorem addLibSprite_apply (layout : Layout) (s : LibSprite) (k : String) :
    addLibSprite layout s k =
      if k = s.layParentId then
        some (pushChild s (if s.layParentId = s.md5 then copySprite s (layout.deref s.md5)
          else layout.deref s.layParentId))
      else if k = s.md5 then some (copySprite s (layout.deref s.md5))
      else layout k := by
  unfold addLibSprite
  simp only [Layout.modify_apply, Layout.ensure_apply, Layout.deref]
  by_cases h1 : k = s.layParentId
  · subst h1
    by_cases h2 : s.layParentId = s.md5
    · simp [h2, pushChild, copySprite]
    · simp [h2, pushChild, copySprite]
  · by_cases h2 : k = s.md5
    · subst h2
      simp [h1, pushChild, copySprite]
    · simp [h1, h2]

/-! ## Building the forest -/

theorem addLibSprite_deref (layout : Layout) (s : LibSprite) (k : String) :
    (addLibSprite layout s).deref k =
      if k = s.layParentId then
        pushChild s (if s.layParentId = s.md5 then copySprite s (layout.deref s.md5)
          else layout.deref s.layParentId)
      else if k = s.md5 then copySprite s (layout.deref s.md5)
      else layout.deref k := by
  show (addLibSprite layout s k).getD {} = _
  rw [addLibSprite_apply]
  split_ifs <;> rfl

theorem addLibSprite_children (layout : Layout) (s : LibSprite) (k : String) :
    ((addLibSprite layout s).deref k).children =
      (if k = s.md5 ∧ s.emptyChildren = true then [] else (layout.deref k).children) ++
        (if k = s.layParentId then [s.md5] else []) := by
  rw [addLibSprite_deref]
  by_cases h1 : k = s.layParentId
  · subst h1
    by_cases h2 : s.layParentId = s.md5
    · cases he : s.emptyChildren <;> simp [h2, he, pushChild, copySprite]
    · simp [h2, pushChild]
  · by_cases h2 : k = s.md5
    · subst h2
      cases he : s.emptyChildren <;> simp [h1, he, copySprite]
    · simp [h1, h2]

theorem addLibSprite_children_mem (layout : Layout) (s : LibSprite) (k c : String)
    (h : c ∈ ((addLibSprite layout s).deref k).children) :
    c ∈ (layout.deref k).children ∨ (k = s.layParentId ∧ c = s.md5) := by
  rw [addLibSprite_children, List.mem_append] at h
  rcases h with h | h
  · left
    split at h
    · simp at h
    · exact h
  · right
    split at h
    · rename_i hk
      exact ⟨hk, List.mem_singleton.1 h⟩
    · simp at h

theorem addLibSprite_children_keep (layout : Layout) (s : LibSprite) (k : String)
    (he : s.emptyChildren = false) :
    ((addLibSprite layout s).deref k).children =
      if k = s.layParentId then (layout.deref k).children ++ [s.md5]
      else (layout.deref k).children := by
  rw [addLibSprite_children]
  simp only [he, Bool.false_eq_true, and_false, if_false]
  split <;> simp

theorem addLibSprite_parentId (layout : Layout) (s : LibSprite) (k : String) :
    ((addLibSprite layout s).deref k).parentId =
      if k = s.md5 then some s.layParentId else (layout.deref k).parentId := by
  rw [addLibSprite_deref]
  by_cases h1 : k = s.layParentId
  · subst h1
    by_cases h2 : s.layParentId = s.md5
    · simp [h2, pushChild, copySprite]
    · simp [h2, pushChild]
  · by_cases h2 : k = s.md5
    · subst h2
      simp [h1, copySprite]
    · simp [h1, h2]

theorem addLibSprite_fields (layout : Layout) (s : LibSprite) (k : String) :
    ((addLibSprite layout s).deref k).generation = (layout.deref k).generation ∧
    ((addLibSprite layout s).deref k).visible = (layout.deref k).visible ∧
    ((addLibSprite layout s).deref k).x = (layout.deref k).x ∧
    ((addLibSprite layout s).deref k).y = (layout.deref k).y ∧
    ((addLibSprite layout s).deref k).xoff = (layout.deref k).xoff ∧
    ((addLibSprite layout s).deref k).yoff = (layout.deref k).yoff := by
  rw [addLibSprite_deref]
  by_cases h1 : k = s.layParentId
  · subst h1
    by_cases h2 : s.layParentId = s.md5
    · simp [h2, pushChild, copySprite]
    · simp [h2, pushChild]
  · by_cases h2 : k = s.md5
    · subst h2
      simp [h1, copySprite]
    · simp [h1, h2]

theorem addLibSprite_isSome (layout : Layout) (s : LibSprite) (k : String) :
    addLibSprite layout s k ≠ none ↔ (layout k ≠ none ∨ k = s.layParentId ∨ k = s.md5) := by
  rw [addLibSprite_apply]
  by_cases h1 : k = s.layParentId
  · simp [h1]
  · by_cases h2 : k = s.md5
    · rw [if_neg h1, if_pos h2]
      simp [h2]
    · simp [h1, h2]

theorem deref_parentId_of_eq_some (layout : Layout) (k : String) (n : LayoutNode)
    (h : layout k = some n) : (layout.deref k).parentId = n.parentId := by
  rw [Layout.deref_of_eq_some layout k n h]

theorem eq_some_deref (layout : Layout) (k : String) (h : layout k ≠ none) :
    layout k = some (layout.deref k) := by
  cases hk : layout k with
  | none => exact absurd hk h
  | some n => simp [Layout.deref, hk]

theorem Forest.of_root (viz : Viz) : Forest viz [] (Layout.empty.set "parent_0" (rootNode viz)) := by
  have hderef : ∀ k, (Layout.empty.set "parent_0" (rootNode viz)).deref k =
      if k = "parent_0" then rootNode viz else {} := by
    intro k
    by_cases h : k = "parent_0" <;> simp [Layout.deref, Layout.set, Layout.empty, h]
  refine ⟨⟨rootNode viz, by simp [Layout.set], rfl, rfl, rfl, rfl, rfl⟩, ?_, ?_, ?_, ?_, ?_, ?_⟩
  · intro k hk
    by_cases h : k = "parent_0"
    · exact Or.inl h
    · simp [Layout.set, Layout.empty, h] at hk
  · intro k c hc
    rw [hderef] at hc
    by_cases h : k = "parent_0" <;> simp [h, rootNode] at hc
  · intro k c hc
    rw [hderef] at hc
    by_cases h : k = "parent_0" <;> simp [h, rootNode] at hc
  · intro k
    rw [hderef]
    by_cases h : k = "parent_0" <;> simp [h, rootNode]
  · intro k hk
    rw [hderef]
    simp [hk]
  · intro _ s hs
    simp at hs

theorem Forest.add (viz : Viz) (sprites : List LibSprite) (layout : Layout) (s : LibSprite)
    (hf : Forest viz sprites layout) (hnew : s.md5 ∉ sprites.map LibSprite.md5)
    (hroot : s.md5 ≠ "parent_0") : Forest viz (sprites ++ [s]) (addLibSprite layout s) := by
  have hsome : ∀ k, addLibSprite layout s k ≠ none →
      addLibSprite layout s k = some ((addLibSprite layout s).deref k) :=
    fun k hk => eq_some_deref _ k hk
  refine ⟨?_, ?_, ?_, ?_, ?_, ?_, ?_⟩
  · obtain ⟨r, hr, hgen, hvis, hx, hy, hpar⟩ := hf.root
    have hne : addLibSprite layout s "parent_0" ≠ none :=
      (addLibSprite_isSome layout s "parent_0").2 (Or.inl (by simp [hr]))
    have hd : layout.deref "parent_0" = r := Layout.deref_of_eq_some _ _ _ hr
    obtain ⟨h1, h2, h3, h4, _, _⟩ := addLibSprite_fields layout s "parent_0"
    refine ⟨_, hsome _ hne, ?_, ?_, ?_, ?_, ?_⟩
    · rw [h1, hd, hgen]
    · rw [h2, hd, hvis]
    · rw [h3, hd, hx]
    · rw [h4, hd, hy]
    · rw [addLibSprite_parentId, if_neg (Ne.symm hroot), hd, hpar]
  · intro k hk
    rcases (addLibSprite_isSome layout s k).1 hk with h | h | h
    · rcases hf.keys k h with h' | h' | h'
      · exact Or.inl h'
      · exact Or.inr (Or.inl (by simp only [List.map_append, List.mem_append]; exact Or.inl h'))
      · exact Or.inr (Or.inr (by simp only [List.map_append, List.mem_append]; exact Or.inl h'))
    · exact Or.inr (Or.inr (by simp [h]))
    · exact Or.inr (Or.inl (by simp [h]))
  · intro k c hc
    simp only [List.map_append, List.mem_append, List.map_cons, List.map_nil, List.mem_singleton]
    exact (addLibSprite_children_mem layout s k c hc).imp (hf.child_mem k c) (fun h => h.2)
  · intro k c hc
    have hc := addLibSprite_children_mem layout s k c hc
    have hold : c ∈ (layout.deref k).children →
        ∃ cn, addLibSprite layout s c = some cn ∧ cn.parentId = some k := by
      intro hc'
      obtain ⟨cn, hcn, hpar⟩ := hf.child_node k c hc'
      have hcne : c ≠ s.md5 := fun h => hnew (h ▸ hf.child_mem k c hc')
      have hne : addLibSprite layout s c ≠ none :=
        (addLibSprite_isSome layout s c).2 (Or.inl (by simp [hcn]))
      refine ⟨_, hsome c hne, ?_⟩
      rw [addLibSprite_parentId, if_neg hcne, Layout.deref_of_eq_some _ _ _ hcn, hpar]
    rcases hc with hc | ⟨h1, hc⟩
    · exact hold hc
    · have hne : addLibSprite layout s c ≠ none :=
        (addLibSprite_isSome layout s c).2 (Or.inr (Or.inr hc))
      refine ⟨_, hsome c hne, ?_⟩
      rw [addLibSprite_parentId, if_pos hc, h1]
  · intro k
    rw [addLibSprite_children]
    have hbase : ∀ c, c ∈ (if k = s.md5 ∧ s.emptyChildren = true then []
        else (layout.deref k).children) → c ∈ (layout.deref k).children := by
      intro c hc
      split at hc
      · simp at hc
      · exact hc
    have hbnodup : (if k = s.md5 ∧ s.emptyChildren = true then []
        else (layout.deref k).children).Nodup := by
      split
      · exact List.nodup_nil
      · exact hf.children_nodup k
    refine List.Nodup.append hbnodup ?_ ?_
    · split
      · exact List.nodup_singleton _
      · exact List.nodup_nil
    · intro c hc hc'
      split at hc'
      · rw [List.mem_singleton] at hc'
        exact hnew (hc' ▸ hf.child_mem k c (hbase c hc))
      · simp at hc'
  · intro k hk
    obtain ⟨h1, h2, h3, h4, h5, h6⟩ := addLibSprite_fields layout s k
    rw [h1, h2, h3, h4, h5, h6]
    exact hf.unvisited k hk
  · intro hkeep s' hs'
    have hkeep_s : s.emptyChildren = false := hkeep s (by simp)
    rw [List.mem_append, List.mem_singleton] at hs'
    rcases hs' with hs' | hs'
    · obtain ⟨n, hn, hmem⟩ := hf.sprite_node
        (fun s'' hs'' => hkeep s'' (List.mem_append_left _ hs'')) s' hs'
      have hne : addLibSprite layout s s'.md5 ≠ none :=
        (addLibSprite_isSome layout s s'.md5).2 (Or.inl (by simp [hn]))
      refine ⟨_, hsome _ hne, ?_⟩
      rw [addLibSprite_children_keep layout s _ hkeep_s]
      split
      · exact List.mem_append_left _ hmem
      · exact hmem
    · subst hs'
      have hne : addLibSprite layout s' s'.md5 ≠ none :=
        (addLibSprite_isSome layout s' s'.md5).2 (Or.inr (Or.inr rfl))
      refine ⟨_, hsome _ hne, ?_⟩
      rw [addLibSprite_children_keep layout s' _ hkeep_s, if_pos rfl]
      simp

theorem Forest.build (viz : Viz) (todo : List LibSprite) :
    ∀ (done : List LibSprite) (layout : Layout), Forest viz done layout →
      ((done ++ todo).map LibSprite.md5).Nodup →
      "parent_0" ∉ (done ++ todo).map LibSprite.md5 →
      Forest viz (done ++ todo) (todo.foldl addLibSprite layout) := by
  induction todo with
  | nil =>
    intro done layout hf _ _
    simpa using hf
  | cons s rest ih =>
    intro done layout hf hnodup hroot
    have hsplit : done ++ s :: rest = (done ++ [s]) ++ rest := by simp
    rw [hsplit] at hnodup hroot ⊢
    rw [List.foldl_cons]
    refine ih (done ++ [s]) (addLibSprite layout s) (Forest.add viz done layout s hf ?_ ?_)
      hnodup hroot
    · intro hmem
      simp only [List.map_append, List.map_cons, List.map_nil] at hnodup
      have := (List.nodup_append.1 (List.nodup_append.1 hnodup).1).2.2
      exact this hmem (List.mem_singleton_self _)
    · intro h
      apply hroot
      simp [← h]

/-! ## The loop over the descriptors -/

theorem addLibSpriteChecked_of_plain (layout : Layout) (s : LibSprite)
    (h : inheritedKey s.md5 = false ∧ inheritedKey s.layParentId = false ∧
      ∀ k ∈ s.others, maintainedKey k = false) :
    addLibSpriteChecked layout s = .ok (addLibSprite layout s) := by
  obtain ⟨hmd5, hpar, hothers⟩ := h
  have hproto : s.md5 ≠ "__proto__" := by
    intro heq
    rw [heq] at hmd5
    exact absurd hmd5 (by decide)
  have hany : s.others.any maintainedKey = false := by
    rw [List.any_eq_false]
    intro k hk
    rw [hothers k hk]
    exact Bool.false_ne_true
  simp [addLibSpriteChecked, hproto, hmd5, hpar, hany]

theorem addLibSpriteChecked_ok (layout layout' : Layout) (s : LibSprite)
    (h : addLibSpriteChecked layout s = .ok layout') :
    layout' = addLibSprite layout s ∧ inheritedKey s.md5 = false ∧
      inheritedKey s.layParentId = false ∧ ∀ k ∈ s.others, maintainedKey k = false := by
  unfold addLibSpriteChecked at h
  split at h
  · simp at h
  · split at h
    · simp at h
    · split at h
      · simp at h
      · split at h
        · simp at h
        · rename_i hmd5 hany hpar
          simp only [Except.ok.injEq] at h
          refine ⟨h.symm, by simpa using hmd5, by simpa using hpar, ?_⟩
          intro k hk
          have hall := List.any_eq_false.1 (by simpa using hany) k hk
          simpa using hall

theorem addLibSprites_of_plain (sprites : List LibSprite) :
    ∀ (layout : Layout),
      (∀ s ∈ sprites, inheritedKey s.md5 = false ∧ inheritedKey s.layParentId = false ∧
        ∀ k ∈ s.others, maintainedKey k = false) →
      addLibSprites layout sprites = .ok (sprites.foldl addLibSprite layout) := by
  induction sprites with
  | nil => intro layout _; rfl
  | cons s rest ih =>
    intro layout h
    rw [addLibSprites, addLibSpriteChecked_of_plain layout s (h s (List.mem_cons_self _ _))]
    exact ih _ (fun s' hs' => h s' (List.mem_cons_of_mem _ hs'))

theorem addLibSprites_ok (sprites : List LibSprite) :
    ∀ (layout layout' : Layout), addLibSprites layout sprites = .ok layout' →
      layout' = sprites.foldl addLibSprite layout ∧
      ∀ s ∈ sprites, inheritedKey s.md5 = false ∧ inheritedKey s.layParentId = false ∧
        ∀ k ∈ s.others, maintainedKey k = false := by
  induction sprites with
  | nil =>
    intro layout layout' h
    simp only [addLibSprites, Except.ok.injEq] at h
    exact ⟨h.symm, by simp⟩
  | cons s rest ih =>
    intro layout layout' h
    rw [addLibSprites] at h
    cases hstep : addLibSpriteChecked layout s with
    | error e =>
      rw [hstep] at h
      simp at h
    | ok layout1 =>
      rw [hstep] at h
      obtain ⟨h1, hplain⟩ := addLibSpriteChecked_ok layout layout1 s hstep
      obtain ⟨h2, hrest⟩ := ih layout1 layout' h
      refine ⟨by rw [h2, h1]; rfl, ?_⟩
      intro s' hs'
      rcases List.mem_cons.1 hs' with rfl | hs'
      · exact hplain
      · exact hrest s' hs'

/-- The loop over the descriptors throws a `TypeError` for an `md5` or a `parentId` that the
layout inherits from `Object.prototype`: no layout is returned for the one descriptor
`constructor`, nor for the one descriptor `c` with the parent `toString`. -/
theorem calcLayout_inherited_key (fuel : Nat) (viz : Viz) :
    calcLayout fuel viz (some inheritedIdentity) = .error .typeError ∧
    calcLayout fuel viz (some inheritedParent) = .error .typeError := by
  constructor <;> rfl

/-! ## The traversal -/

theorem visitChildren_apply (node : String) (children : List String) :
    ∀ (layout : Layout), node ∉ children → ∀ k,
      visitChildren node layout children k =
        if k ∈ children then (layout k).map (markChild (layout.deref node).generation)
        else layout k := by
  induction children with
  | nil => intro layout _ k; simp [visitChildren]
  | cons c rest ih =>
    intro layout hnode k
    have hne : node ≠ c := fun h => hnode (h ▸ List.mem_cons_self _ _)
    have hrest : node ∉ rest := fun h => hnode (List.mem_cons_of_mem _ h)
    have hderef : (layout.modify c (markChild (layout.deref node).generation)).deref node
        = layout.deref node :=
      Layout.deref_congr _ _ _ (Layout.modify_of_ne _ _ _ _ hne)
    rw [visitChildren, ih _ hrest k, hderef]
    by_cases hkc : k = c
    · subst hkc
      rw [Layout.modify_self, if_pos (List.mem_cons_self _ _)]
      split
      · cases layout k <;> simp [markChild]
      · rfl
    · rw [Layout.modify_of_ne _ _ _ _ hkc]
      simp [hkc]

theorem deref_map_eq (l1 l2 : Layout) (f : LayoutNode → LayoutNode) (k : String)
    (h : (l1 k).map f = (l2 k).map f) : f (l1.deref k) = f (l2.deref k) := by
  unfold Layout.deref
  cases h1 : l1 k <;> cases h2 : l2 k <;> simp [h1, h2] at h ⊢
  exact h

theorem isSome_of_map_eq (l1 l2 : Layout) (f : LayoutNode → LayoutNode) (k : String)
    (h : (l1 k).map f = (l2 k).map f) : l1 k ≠ none ↔ l2 k ≠ none := by
  cases h1 : l1 k <;> cases h2 : l2 k <;> simp [h1, h2] at h ⊢

theorem eraseVisit_fields (n1 n2 : LayoutNode) (h : n1.eraseVisit = n2.eraseVisit) :
    n1.children = n2.children ∧ n1.parentId = n2.parentId ∧ n1.x = n2.x ∧ n1.y = n2.y ∧
    n1.xoff = n2.xoff ∧ n1.yoff = n2.yoff := by
  cases n1
  cases n2
  simp only [LayoutNode.eraseVisit, LayoutNode.mk.injEq] at h
  simp only
  tauto

theorem traversalStep_pending (t : Traversal) (node : String) (rest : List String) :
    (traversalStep t node rest).pending =
      (if numGt ((traversalStep t node rest).layout.deref node).generation t.genNum
        then t.generations ++ [t.generation] else t.generations) ++
      [(traversalStep t node rest).generation] := by
  unfold Traversal.pending
  simp only [traversalStep]
  split <;> rfl

theorem flatten_pushToLastGroup (generation : List (List String)) (node : String)
    (h : generation ≠ []) :
    (pushToLastGroup generation node).flatten = generation.flatten ++ [node] := by
  unfold pushToLastGroup
  rw [List.getLast?_eq_getLast _ h]
  conv_rhs => rw [← List.dropLast_append_getLast h]
  simp

theorem pushToLastGroup_nonempty (generation : List (List String)) (node : String)
    (h : ∀ group ∈ generation, group ≠ []) :
    ∀ group ∈ pushToLastGroup generation node, group ≠ [] := by
  intro group hg
  unfold pushToLastGroup at hg
  rw [List.mem_append, List.mem_singleton] at hg
  rcases hg with hg | hg
  · exact h group (List.dropLast_subset _ hg)
  · rw [hg]
    simp

theorem getElem?_append_singleton_some {α : Type} (l : List α) (a b : α) (i : Nat)
    (h : (l ++ [a])[i]? = some b) : l[i]? = some b ∨ (i = l.length ∧ b = a) := by
  rw [List.getElem?_append] at h
  split at h
  · exact Or.inl h
  · right
    rename_i hlt
    have hi : i - l.length = 0 := by
      by_contra hne
      obtain ⟨j, hj⟩ := Nat.exists_eq_succ_of_ne_zero hne
      rw [hj] at h
      simp at h
    rw [hi] at h
    simp at h
    exact ⟨by omega, h.symm⟩

theorem getElem?_append_singleton_of_some {α : Type} (l : List α) (a b : α) (i : Nat)
    (h : l[i]? = some b) : (l ++ [a])[i]? = some b := by
  obtain ⟨hlt, _⟩ := List.getElem?_eq_some.1 h
  rw [List.getElem?_append_left hlt, h]

theorem Visited.start (viz : Viz) (sprites : List LibSprite) (layout0 : Layout)
    (hf : Forest viz sprites layout0) : Visited layout0 (Traversal.start layout0) [] := by
  obtain ⟨r, hr, hgen, -⟩ := hf.root
  have hrootgen : (layout0.deref "parent_0").generation = some 0 := by
    rw [Layout.deref_of_eq_some _ _ _ hr, hgen]
  refine ⟨fun _ => rfl, by simp [Traversal.start], by simp [Traversal.start], hrootgen, ?_, ?_, ?_,
    fun _ _ => rfl, by simp [Traversal.pending, Traversal.start], ?_, ⟨0, rfl, rfl⟩, ?_, ?_,
    by simp [Traversal.start]⟩
  · intro c hc hne
    simp [Traversal.start] at hc
    exact absurd hc hne
  · intro p hp
    simp at hp
  · intro p hp
    simp at hp
  · intro i gen hi n hn
    have hpend : (Traversal.start layout0).pending = [[[]]] := rfl
    rw [hpend] at hi
    cases i with
    | zero =>
      simp at hi
      subst hi
      simp at hn
    | succ j => simp at hi
  · refine ⟨["parent_0"], [], rfl, ?_, by simp⟩
    intro n hn
    rw [List.mem_singleton] at hn
    subst hn
    exact hrootgen
  · intro i gen hi h1
    have hpend : (Traversal.start layout0).pending = [[[]]] := rfl
    rw [hpend] at hi
    cases i with
    | zero => omega
    | succ j => simp at hi

theorem Visited.step (viz : Viz) (sprites : List LibSprite) (layout0 : Layout) (t : Traversal)
    (visited : List String) (node : String) (rest : List String)
    (hf : Forest viz sprites layout0) (hroot : "parent_0" ∉ sprites.map LibSprite.md5)
    (hv : Visited layout0 t visited) (hq : t.queue = node :: rest) :
    Visited layout0 (traversalStep t node rest) (visited ++ [node]) := by
  -- the structure of the layout is the one of `layout0`
  have hsame : ∀ k, (t.layout.deref k).eraseVisit = (layout0.deref k).eraseVisit :=
    fun k => deref_map_eq _ _ _ k (hv.same k)
  have hchildren : ∀ k, (t.layout.deref k).children = (layout0.deref k).children :=
    fun k => (eraseVisit_fields _ _ (hsame k)).1
  have hnodup : (visited ++ node :: rest).Nodup := hq ▸ hv.nodup
  have hnode_new : node ∉ visited := by
    intro h
    exact (List.nodup_append.1 hnodup).2.2 h (List.mem_cons_self _ _)
  -- the children of `node` have not been seen before
  have hfresh : ∀ c ∈ (layout0.deref node).children, c ∉ visited ++ node :: rest := by
    intro c hc hmem
    have hcroot : c ≠ "parent_0" := fun h => hroot (h ▸ hf.child_mem node c hc)
    obtain ⟨p, hp, hcp⟩ := hv.parent_visited c (hq ▸ hmem) hcroot
    obtain ⟨cn, hcn, hpar⟩ := hf.child_node node c hc
    obtain ⟨cn', hcn', hpar'⟩ := hf.child_node p c hcp
    rw [hcn] at hcn'
    cases hcn'
    rw [hpar] at hpar'
    exact hnode_new ((Option.some.inj hpar') ▸ hp)
  have hnode_child : node ∉ (layout0.deref node).children :=
    fun h => hfresh node h (List.mem_append_right _ (List.mem_cons_self _ _))
  -- the layout after the children are marked
  have hlayout : ∀ k, (traversalStep t node rest).layout k =
      if k ∈ (layout0.deref node).children then
        (t.layout k).map (markChild (t.layout.deref node).generation)
      else t.layout k := by
    intro k
    show visitChildren node t.layout (t.layout.deref node).children k = _
    rw [hchildren]
    exact visitChildren_apply node _ t.layout hnode_child k
  have hold : ∀ k, k ∉ (layout0.deref node).children →
      (traversalStep t node rest).layout.deref k = t.layout.deref k := by
    intro k hk
    exact Layout.deref_congr _ _ _ (by rw [hlayout, if_neg hk])
  have hnew : ∀ k, k ∈ (layout0.deref node).children →
      (traversalStep t node rest).layout.deref k =
        markChild (t.layout.deref node).generation (t.layout.deref k) := by
    intro k hk
    obtain ⟨cn, hcn, -⟩ := hf.child_node node k hk
    have hne : t.layout k ≠ none :=
      (isSome_of_map_eq _ _ _ k (hv.same k)).2 (by simp [hcn])
    cases hk' : t.layout k with
    | none => exact absurd hk' hne
    | some n =>
      rw [Layout.deref_of_eq_some _ _ _ hk']
      apply Layout.deref_of_eq_some
      rw [hlayout, if_pos hk, hk']
      rfl
  have hseen : ∀ k, k ∈ visited ++ node :: rest →
      (traversalStep t node rest).layout.deref k = t.layout.deref k :=
    fun k hk => hold k (fun hc => hfresh k hc hk)
  have hqueue : (traversalStep t node rest).queue = rest ++ (layout0.deref node).children := by
    show rest ++ (t.layout.deref node).children = _
    rw [hchildren]
  have hnodeq : node ∈ visited ++ node :: rest := List.mem_append_right _ (List.mem_cons_self _ _)
  have hgenNum : (traversalStep t node rest).genNum = (t.layout.deref node).generation := by
    show ((traversalStep t node rest).layout.deref node).generation = _
    rw [hseen node hnodeq]
  -- the generation of `node`
  obtain ⟨g, hg, hlen⟩ := hv.genNum
  obtain ⟨q1, q2, hq12, hq1, hq2⟩ := hv.queue_gens
  have hpend : t.pending = t.generations ++ [t.generation] := by
    unfold Traversal.pending
    rw [hq]
    rfl
  have hglen : t.generations.length = g := by
    rw [hpend] at hlen
    simp at hlen
    exact hlen
  have hvisited_of_pending : ∀ (i : Nat) (gen : List (List String)),
      t.pending[i]? = some gen → ∀ n ∈ gen.flatten,
      n ∈ visited := by
    intro i gen hi n hn
    rw [← hv.flat]
    obtain ⟨group, hgroup, hmem⟩ := List.mem_flatten.1 hn
    exact List.mem_flatten.2 ⟨group,
      List.mem_flatten.2 ⟨gen, List.getElem?_mem hi, hgroup⟩, hmem⟩
  have hlist : (visited ++ [node]) ++ (traversalStep t node rest).queue =
      (visited ++ node :: rest) ++ (layout0.deref node).children := by
    rw [hqueue]
    simp
  have hgeneration : (traversalStep t node rest).generation =
      if numGt (t.layout.deref node).generation t.genNum then [[node]]
      else if (t.layout.deref node).parentId = t.curParentId then
        pushToLastGroup t.generation node
      else t.generation ++ [[node]] := by
    show (if numGt ((traversalStep t node rest).layout.deref node).generation t.genNum then _
      else if ((traversalStep t node rest).layout.deref node).parentId = t.curParentId then _
      else _) = _
    rw [hseen node hnodeq]
  have hpending : (traversalStep t node rest).pending =
      (if numGt (t.layout.deref node).generation t.genNum
        then t.generations ++ [t.generation] else t.generations) ++
      [(traversalStep t node rest).generation] := by
    rw [traversalStep_pending, hseen node hnodeq]
  have hnodegen : ∃ gn, (t.layout.deref node).generation = some gn := by
    have hmem : node ∈ q1 ++ q2 := by rw [← hq12, hq]; exact List.mem_cons_self _ _
    rcases List.mem_append.1 hmem with h | h
    · exact ⟨g, by rw [hq1 node h, hg]⟩
    · exact ⟨g + 1, by rw [hq2 node h, hg]; rfl⟩
  obtain ⟨gn, hgn⟩ := hnodegen
  -- the part of the invariant that depends on whether a new generation starts
  have hcase : (traversalStep t node rest).pending.flatten.flatten = visited ++ [node] ∧
      (∀ (i : Nat) (gen : List (List String)), (traversalStep t node rest).pending[i]? = some gen →
        ∀ n ∈ gen.flatten, ((traversalStep t node rest).layout.deref n).generation = some i) ∧
      (∃ g', (traversalStep t node rest).genNum = some g' ∧
        (traversalStep t node rest).pending.length = g' + 1) ∧
      (∃ q1' q2', (traversalStep t node rest).queue = q1' ++ q2' ∧
        (∀ n ∈ q1', ((traversalStep t node rest).layout.deref n).generation =
          (traversalStep t node rest).genNum) ∧
        ∀ n ∈ q2', ((traversalStep t node rest).layout.deref n).generation =
          (traversalStep t node rest).genNum.map (· + 1)) ∧
      (∀ (i : Nat) (gen : List (List String)), (traversalStep t node rest).pending[i]? = some gen →
        1 ≤ i → gen ≠ [] ∧ ∀ group ∈ gen, group ≠ []) := by
    have hchild_gen : ∀ n ∈ (layout0.deref node).children,
        ((traversalStep t node rest).layout.deref n).generation = some (gn + 1) := by
      intro n hn
      rw [hnew n hn, hgn]
      rfl
    have hold_index : ∀ (i : Nat) (gen : List (List String)), t.pending[i]? = some gen →
        ∀ n ∈ gen.flatten, ((traversalStep t node rest).layout.deref n).generation = some i := by
      intro i gen hi n hn
      rw [hseen n (List.mem_append_left _ (hvisited_of_pending i gen hi n hn))]
      exact hv.index i gen hi n hn
    have hqueue_old : ∀ n ∈ rest, ((traversalStep t node rest).layout.deref n).generation =
        (t.layout.deref n).generation := by
      intro n hn
      rw [hseen n (List.mem_append_right _ (List.mem_cons_of_mem _ hn))]
    rw [hq] at hq12
    cases q1 with
    | cons a q1' =>
      -- `node` belongs to the generation in progress
      simp only [List.cons_append, List.cons.injEq] at hq12
      obtain ⟨ha, hrest⟩ := hq12
      subst ha
      have hgng : gn = g := by
        have h := hq1 node (List.mem_cons_self _ _)
        rw [hgn, hg] at h
        exact Option.some.inj h
      subst hgng
      have hnum : numGt (t.layout.deref node).generation t.genNum = false := by
        rw [hgn, hg]
        simp [numGt]
      rw [hnum] at hpending hgeneration
      simp only [Bool.false_eq_true, if_false] at hpending hgeneration
      have hflat : (traversalStep t node rest).generation.flatten
          = t.generation.flatten ++ [node] := by
        rw [hgeneration]
        split
        · exact flatten_pushToLastGroup _ _ hv.generation_ne
        · simp
      have hcur : t.pending[t.generations.length]? = some t.generation := by
        rw [hpend]
        simp
      refine ⟨?_, ?_, ?_, ?_, ?_⟩
      · rw [hpending, ← hv.flat, hpend]
        simp only [List.flatten_append, List.flatten_cons, List.flatten_nil, List.append_nil, hflat,
          List.append_assoc]
      · intro i gen hi n hn
        rw [hpending] at hi
        rcases getElem?_append_singleton_some _ _ _ _ hi with h | ⟨hi', hgen⟩
        · exact hold_index i gen (hpend ▸ getElem?_append_singleton_of_some _ _ _ _ h) n hn
        · subst hgen
          rw [hflat, List.mem_append, List.mem_singleton] at hn
          rcases hn with hn | hn
          · rw [hi']
            exact hold_index _ _ hcur n hn
          · rw [hn, hseen node hnodeq, hgn, hi', hglen]
      · refine ⟨gn, by rw [hgenNum, hgn], ?_⟩
        rw [hpending]
        simp [hglen]
      · refine ⟨q1', q2 ++ (layout0.deref node).children, by rw [hqueue, hrest]; simp, ?_, ?_⟩
        · intro n hn
          rw [hqueue_old n (hrest ▸ List.mem_append_left _ hn), hgenNum, hgn,
            hq1 n (List.mem_cons_of_mem _ hn), hg]
        · intro n hn
          rw [hgenNum, hgn]
          rcases List.mem_append.1 hn with hn | hn
          · rw [hqueue_old n (hrest ▸ List.mem_append_right _ hn), hq2 n hn, hg]
          · exact hchild_gen n hn
      · intro i gen hi h1
        rw [hpending] at hi
        rcases getElem?_append_singleton_some _ _ _ _ hi with h | ⟨hi', hgen⟩
        · exact hv.groups i gen (hpend ▸ getElem?_append_singleton_of_some _ _ _ _ h) h1
        · subst hgen
          have hgroups := (hv.groups _ _ hcur (hi' ▸ h1)).2
          rw [hgeneration]
          split
          · refine ⟨by simp [pushToLastGroup], pushToLastGroup_nonempty _ _ hgroups⟩
          · refine ⟨by simp, ?_⟩
            intro group hgroup
            rw [List.mem_append, List.mem_singleton] at hgroup
            rcases hgroup with hgroup | hgroup
            · exact hgroups group hgroup
            · rw [hgroup]
              simp
    | nil =>
      -- `node` starts a new generation
      simp only [List.nil_append] at hq12
      have hgng : gn = g + 1 := by
        have h := hq2 node (hq12 ▸ List.mem_cons_self _ _)
        rw [hgn, hg] at h
        exact Option.some.inj h
      subst hgng
      have hnum : numGt (t.layout.deref node).generation t.genNum = true := by
        rw [hgn, hg]
        simp [numGt]
      rw [hnum] at hpending hgeneration
      simp only [if_true] at hpending hgeneration
      rw [hgeneration, ← hpend] at hpending
      refine ⟨?_, ?_, ?_, ?_, ?_⟩
      · rw [hpending, ← hv.flat]
        simp
      · intro i gen hi n hn
        rw [hpending] at hi
        rcases getElem?_append_singleton_some _ _ _ _ hi with h | ⟨hi', hgen⟩
        · exact hold_index i gen h n hn
        · subst hgen
          simp only [List.flatten_cons, List.flatten_nil, List.append_nil,
            List.mem_singleton] at hn
          rw [hn, hseen node hnodeq, hgn, hi', hlen]
      · refine ⟨g + 1, by rw [hgenNum, hgn], ?_⟩
        rw [hpending]
        simp [hlen]
      · refine ⟨rest, (layout0.deref node).children, hqueue, ?_, ?_⟩
        · intro n hn
          have hn2 : n ∈ q2 := by rw [← hq12]; exact List.mem_cons_of_mem _ hn
          rw [hqueue_old n hn, hgenNum, hgn, hq2 n hn2, hg]
          rfl
        · intro n hn
          rw [hgenNum, hgn]
          exact hchild_gen n hn
      · intro i gen hi h1
        rw [hpending] at hi
        rcases getElem?_append_singleton_some _ _ _ _ hi with h | ⟨hi', hgen⟩
        · exact hv.groups i gen h h1
        · subst hgen
          simp
  obtain ⟨hflat', hindex', hgenNum', hqueue', hgroups'⟩ := hcase
  have hmem_iff : ∀ c, c ∈ (visited ++ [node]) ++ (traversalStep t node rest).queue ↔
      (c ∈ visited ++ node :: rest ∨ c ∈ (layout0.deref node).children) := by
    intro c
    rw [hlist, List.mem_append]
  refine ⟨?_, ?_, ?_, ?_, ?_, ?_, ?_, ?_, hflat', hindex', hgenNum', hqueue', hgroups', ?_⟩
  · intro k
    rw [hlayout, ← hv.same k]
    split
    · cases t.layout k <;> simp [markChild, LayoutNode.eraseVisit]
    · rfl
  · rw [hlist]
    refine List.nodup_append.2 ⟨hnodup, hf.children_nodup node, ?_⟩
    intro c hc hc'
    exact hfresh c hc' hc
  · exact (hmem_iff _).2 (Or.inl (hq ▸ hv.root_mem))
  · rw [hseen _ (hq ▸ hv.root_mem)]
    exact hv.root_gen
  · intro c hc hne
    rcases (hmem_iff c).1 hc with h | h
    · obtain ⟨p, hp, hcp⟩ := hv.parent_visited c (hq ▸ h) hne
      exact ⟨p, List.mem_append_left _ hp, hcp⟩
    · exact ⟨node, List.mem_append_right _ (List.mem_singleton_self _), h⟩
  · intro p hp c hc
    rw [List.mem_append, List.mem_singleton] at hp
    rcases hp with hp | hp
    · exact (hmem_iff c).2 (Or.inl (hq ▸ hv.closed p hp c hc))
    · exact (hmem_iff c).2 (Or.inr (hp ▸ hc))
  · intro p hp c hc
    rw [List.mem_append, List.mem_singleton] at hp
    rcases hp with hp | hp
    · rw [hseen c (hq ▸ hv.closed p hp c hc), hseen p (List.mem_append_left _ hp)]
      exact hv.edge p hp c hc
    · subst hp
      rw [hnew c hc, hseen p hnodeq, hgn]
      exact ⟨rfl, gn, rfl, rfl⟩
  · intro k hk
    rw [hmem_iff] at hk
    rw [hlayout, if_neg (fun h => hk (Or.inr h))]
    exact hv.untouched k (fun h => hk (Or.inl (hq ▸ h)))
  · rw [hgeneration]
    split
    · simp
    · split
      · simp [pushToLastGroup]
      · simp

theorem Visited.length_le (viz : Viz) (sprites : List LibSprite) (layout0 : Layout)
    (t : Traversal) (visited : List String) (hf : Forest viz sprites layout0)
    (hv : Visited layout0 t visited) : (visited ++ t.queue).length ≤ sprites.length + 1 := by
  have hsub : visited ++ t.queue ⊆ "parent_0" :: sprites.map LibSprite.md5 := by
    intro c hc
    by_cases hroot : c = "parent_0"
    · rw [hroot]
      exact List.mem_cons_self _ _
    · obtain ⟨p, _, hcp⟩ := hv.parent_visited c hc hroot
      exact List.mem_cons_of_mem _ (hf.child_mem p c hcp)
  have h := (hv.nodup.subperm hsub).length_le
  simpa using h

theorem Visited.traverse_finishes (viz : Viz) (sprites : List LibSprite) (layout0 : Layout)
    (hf : Forest viz sprites layout0) (hroot : "parent_0" ∉ sprites.map LibSprite.md5) :
    ∀ (fuel : Nat) (t : Traversal) (visited : List String), Visited layout0 t visited →
      sprites.length + 1 ≤ visited.length + fuel →
      ∃ t' visited', traverse fuel t = some t' ∧ Visited layout0 t' visited' ∧ t'.queue = [] := by
  intro fuel
  induction fuel with
  | zero =>
    intro t visited hv hfuel
    have hlen := Visited.length_le viz sprites layout0 t visited hf hv
    rw [List.length_append] at hlen
    have hq : t.queue = [] := List.length_eq_zero.1 (by omega)
    refine ⟨t, visited, ?_, hv, hq⟩
    unfold traverse
    simp [hq]
  | succ fuel ih =>
    intro t visited hv hfuel
    cases hq : t.queue with
    | nil =>
      refine ⟨t, visited, ?_, hv, hq⟩
      unfold traverse
      simp [hq]
    | cons node rest =>
      have hstep := Visited.step viz sprites layout0 t visited node rest hf hroot hv hq
      obtain ⟨t', visited', ht', hv', hq'⟩ := ih (traversalStep t node rest) (visited ++ [node])
        hstep (by rw [List.length_append]; simp; omega)
      refine ⟨t', visited', ?_, hv', hq'⟩
      unfold traverse
      simp only [hq]
      exact ht'

/-! ## The frontier layout -/

theorem placeNodes_placed (m : Measures) (x : Nat → ℚ) (y : ℚ) (group : List String) :
    ∀ (layout : Layout) (i : Nat), group.Nodup →
      Placed m y group (fun k => x (i + group.indexOf k)) layout
        (placeNodes m x y layout i group) := by
  induction group with
  | nil => intro layout i _ k; simp [placeNodes]
  | cons c rest ih =>
    intro layout i hnodup k
    obtain ⟨hc, hrest⟩ := List.nodup_cons.1 hnodup
    rw [placeNodes, ih _ (i + 1) hrest k]
    by_cases hkc : k = c
    · subst hkc
      rw [if_neg hc, if_pos (List.mem_cons_self _ _), Layout.modify_self]
      simp
    · rw [Layout.modify_of_ne _ _ _ _ hkc]
      have hidx : List.indexOf k (c :: rest) = List.indexOf k rest + 1 :=
        List.indexOf_cons_ne _ (Ne.symm hkc)
      simp only [List.mem_cons, hkc, false_or, hidx]
      have : i + 1 + List.indexOf k rest = i + (List.indexOf k rest + 1) := by omega
      rw [this]

theorem Placed.refl (m : Measures) (y : ℚ) (pos : String → ℚ) (layout : Layout) :
    Placed m y [] pos layout layout := by
  intro k
  simp

theorem Placed.of_mem_iff (m : Measures) (y : ℚ) (nodes nodes' : List String) (pos : String → ℚ)
    (layout layout' : Layout) (h : Placed m y nodes pos layout layout')
    (hmem : ∀ k, k ∈ nodes ↔ k ∈ nodes') : Placed m y nodes' pos layout layout' := by
  intro k
  rw [h k]
  by_cases hk : k ∈ nodes
  · rw [if_pos hk, if_pos ((hmem k).1 hk)]
  · rw [if_neg hk, if_neg (fun h' => hk ((hmem k).2 h'))]

theorem Placed.append (m : Measures) (y : ℚ) (s1 s2 : List String) (pos1 pos2 : String → ℚ)
    (l0 l1 l2 : Layout) (h1 : Placed m y s1 pos1 l0 l1) (h2 : Placed m y s2 pos2 l1 l2)
    (hdisj : ∀ k, k ∈ s1 → k ∉ s2) :
    Placed m y (s1 ++ s2) (fun k => if k ∈ s1 then pos1 k else pos2 k) l0 l2 := by
  intro k
  rw [h2 k, h1 k]
  by_cases hk1 : k ∈ s1
  · have hk2 : k ∉ s2 := hdisj k hk1
    simp [hk1, hk2]
  · by_cases hk2 : k ∈ s2
    · simp [hk1, hk2]
    · simp [hk1, hk2]

theorem Placed.deref (m : Measures) (y : ℚ) (nodes : List String) (pos : String → ℚ)
    (layout layout' : Layout) (h : Placed m y nodes pos layout layout') (k : String) :
    (layout'.deref k).erasePos = (layout.deref k).erasePos := by
  unfold Layout.deref
  rw [h k]
  split
  · cases layout k <;> simp [setPos, LayoutNode.erasePos]
  · rfl

theorem erasePos_fields (n1 n2 : LayoutNode) (h : n1.erasePos = n2.erasePos) :
    n1.children = n2.children ∧ n1.parentId = n2.parentId ∧ n1.generation = n2.generation ∧
    n1.visible = n2.visible := by
  cases n1
  cases n2
  simp only [LayoutNode.erasePos, LayoutNode.mk.injEq] at h
  simp only
  tauto

theorem Placed.ready (m : Measures) (y : ℚ) (placed nodes : List String) (pos : String → ℚ)
    (layout layout' : Layout) (py : ℚ) (groups : List (List String))
    (h : Placed m y placed pos layout layout') (hsub : ∀ k, k ∈ placed → k ∈ nodes)
    (hr : Ready layout nodes py groups) : Ready layout' nodes py groups := by
  intro group hgroup
  obtain ⟨node, parentId, parent, px, hhead, hpar, hparent, hx, hy, hnot⟩ := hr group hgroup
  refine ⟨node, parentId, parent, px, hhead, ?_, ?_, hx, hy, hnot⟩
  · rw [(erasePos_fields _ _ (h.deref m y placed pos layout layout' node)).2.1, hpar]
  · rw [h parentId, if_neg (fun hmem => hnot (hsub _ hmem)), hparent]

theorem Ready.groupParent_ok (layout : Layout) (nodes : List String) (py : ℚ)
    (groups : List (List String)) (hr : Ready layout nodes py groups) (group : List String)
    (hgroup : group ∈ groups) :
    group ≠ [] ∧ ∃ parent px, groupParent layout group = .ok parent ∧ parent.x = some px ∧
      parent.y = some py := by
  obtain ⟨node, parentId, parent, px, hhead, hpar, hparent, hx, hy, -⟩ := hr group hgroup
  refine ⟨?_, parent, px, ?_, hx, hy⟩
  · intro h
    rw [h] at hhead
    simp at hhead
  · simp [groupParent, hhead, hpar, hparent]

theorem Ready.of_subset (layout : Layout) (nodes : List String) (py : ℚ)
    (groups groups' : List (List String)) (hr : Ready layout nodes py groups)
    (hsub : ∀ g, g ∈ groups' → g ∈ groups) : Ready layout nodes py groups' :=
  fun group hgroup => hr group (hsub group hgroup)

theorem indexOf_pairwise (group : List String) (h : group.Nodup) :
    group.Pairwise (fun a b => group.indexOf a < group.indexOf b) := by
  induction group with
  | nil => exact List.Pairwise.nil
  | cons c rest ih =>
    obtain ⟨hc, hrest⟩ := List.nodup_cons.1 h
    rw [List.pairwise_cons]
    constructor
    · intro b hb
      have hne : c ≠ b := fun hcb => hc (hcb ▸ hb)
      rw [List.indexOf_cons_self, List.indexOf_cons_ne _ hne]
      omega
    · refine (ih hrest).imp_of_mem ?_
      intro a b ha hb hab
      have hnea : c ≠ a := fun hca => hc (hca ▸ ha)
      have hneb : c ≠ b := fun hcb => hc (hcb ▸ hb)
      rw [List.indexOf_cons_ne _ hnea, List.indexOf_cons_ne _ hneb]
      omega

theorem layoutRight_cons (m : Measures) (midY : ℚ) (layout : Layout) (leftLimit : ℚ)
    (group : List String) (rest : List (List String)) (parent : LayoutNode) (px : ℚ)
    (hgp : groupParent layout group = .ok parent) (hx : parent.x = some px) :
    layoutRight m midY layout leftLimit (group :: rest) =
      layoutRight m midY
        (placeNodes m
          (fun i => max leftLimit (px - (calcGroupWidth group m / 2)) + (m.nodew / 2)
            + ((m.nodew + (m.deltaw * 2)) * i))
          (midY - m.levh) layout 0 group)
        (max leftLimit (px - (calcGroupWidth group m / 2)) + calcGroupWidth group m
          + (2 * m.deltaw)) rest := by
  rw [layoutRight]
  simp only [hgp, hx, coordinate, bind, Except.bind]
  rfl

theorem layoutLeft_cons (m : Measures) (midY : ℚ) (layout : Layout) (rightLimit : ℚ)
    (group : List String) (rest : List (List String)) (parent : LayoutNode) (px : ℚ)
    (hgp : groupParent layout group = .ok parent) (hx : parent.x = some px) :
    layoutLeft m midY layout rightLimit (group :: rest) =
      layoutLeft m midY
        (placeNodes m
          (fun i => min rightLimit (px + (calcGroupWidth group m / 2)) - calcGroupWidth group m
            + (m.nodew / 2) + ((m.nodew + (m.deltaw * 2)) * i))
          (midY - m.levh) layout 0 group)
        (min rightLimit (px + (calcGroupWidth group m / 2)) - calcGroupWidth group m
          - (2 * m.deltaw)) rest := by
  rw [layoutLeft]
  simp only [hgp, hx, coordinate, bind, Except.bind]

theorem mem_flatten_of_mem {group : List String} {groups : List (List String)} {k : String}
    (hg : group ∈ groups) (hk : k ∈ group) : k ∈ groups.flatten :=
  List.mem_flatten.2 ⟨group, hg, hk⟩

/-- The abscissas inside one group of `n` nodes: rank below `n`, as a rational. -/
theorem indexOf_cast_le (group : List String) (k : String) (hk : k ∈ group) :
    ((group.indexOf k : Nat) : ℚ) + 1 ≤ (group.length : ℚ) := by
  have h : group.indexOf k + 1 ≤ group.length := List.indexOf_lt_length.2 hk
  exact_mod_cast h

theorem group_pairwise (group : List String) (hnodup : group.Nodup) (x0 d w : ℚ) (hw : 0 ≤ w)
    (hd : w < d) :
    group.Pairwise (fun a b => x0 + d * ((0 + group.indexOf a : Nat) : ℚ) + w
      < x0 + d * ((0 + group.indexOf b : Nat) : ℚ)) := by
  refine (indexOf_pairwise group hnodup).imp ?_
  intro a b hab
  have h : ((group.indexOf a : Nat) : ℚ) + 1 ≤ ((group.indexOf b : Nat) : ℚ) := by
    exact_mod_cast hab
  simp only [Nat.zero_add]
  have hmul : d * (((group.indexOf a : Nat) : ℚ) + 1) ≤ d * ((group.indexOf b : Nat) : ℚ) :=
    mul_le_mul_of_nonneg_left h (by linarith)
  linarith

theorem calcGroupWidth_calcViz (m : Measures) (hm : CalcVizMeasures m) (group : List String) :
    calcGroupWidth group m = 180 * (group.length : ℚ) - 30 := by
  obtain ⟨hdh, -, hnh, -⟩ := hm
  unfold calcGroupWidth
  rw [hdh, hnh]
  ring

theorem length_cast_pos (group : List String) (h : group ≠ []) : (1 : ℚ) ≤ (group.length : ℚ) := by
  have : 1 ≤ group.length := List.length_pos.2 h
  exact_mod_cast this

theorem layoutRight_spec (m : Measures) (midY py : ℚ) (nodes : List String) :
    ∀ (groups : List (List String)) (layout : Layout) (leftLimit : ℚ),
      groups.flatten.Nodup → (∀ k, k ∈ groups.flatten → k ∈ nodes) →
      Ready layout nodes py groups →
      ∃ layout' pos, layoutRight m midY layout leftLimit groups = .ok layout' ∧
        Placed m (midY - m.levh) groups.flatten pos layout layout' ∧
        (CalcVizMeasures m →
          (∀ k ∈ groups.flatten, leftLimit + 50 ≤ pos k) ∧
          groups.flatten.Pairwise (fun a b => pos a + 100 < pos b)) := by
  intro groups
  induction groups with
  | nil =>
    intro layout leftLimit _ _ _
    exact ⟨layout, fun _ => 0, rfl, Placed.refl _ _ _ _, fun _ => ⟨by simp, by simp⟩⟩
  | cons group rest ih =>
    intro layout leftLimit hnodup hsub hr
    rw [List.flatten_cons] at hnodup hsub
    obtain ⟨hgnodup, hrnodup, hdisj⟩ := List.nodup_append.1 hnodup
    obtain ⟨hne, parent, px, hgp, hx, -⟩ :=
      hr.groupParent_ok layout nodes py _ group (List.mem_cons_self _ _)
    have hplaced1 := placeNodes_placed m
      (fun i => max leftLimit (px - (calcGroupWidth group m / 2)) + (m.nodew / 2)
        + ((m.nodew + (m.deltaw * 2)) * i))
      (midY - m.levh) group layout 0 hgnodup
    have hr1 := Placed.ready m _ group nodes _ layout _ py rest hplaced1
      (fun k hk => hsub k (List.mem_append_left _ hk))
      (hr.of_subset layout nodes py _ rest (fun g hg => List.mem_cons_of_mem _ hg))
    obtain ⟨layout', pos2, hok, hplaced2, hmeas⟩ := ih _
      (max leftLimit (px - (calcGroupWidth group m / 2)) + calcGroupWidth group m
        + (2 * m.deltaw)) hrnodup (fun k hk => hsub k (List.mem_append_right _ hk)) hr1
    refine ⟨layout', fun k => if k ∈ group then
        max leftLimit (px - (calcGroupWidth group m / 2)) + (m.nodew / 2)
          + ((m.nodew + (m.deltaw * 2)) * ((0 + group.indexOf k : Nat) : ℚ))
      else pos2 k, ?_, ?_, ?_⟩
    · rw [layoutRight_cons m midY layout leftLimit group rest parent px hgp hx]
      exact hok
    · rw [List.flatten_cons]
      exact Placed.append m _ group rest.flatten _ pos2 layout _ layout' hplaced1 hplaced2
        (fun k hk => hdisj hk)
    · intro hm
      obtain ⟨hbound2, hpair2⟩ := hmeas hm
      have hgw := calcGroupWidth_calcViz m hm group
      have hn := length_cast_pos group hne
      obtain ⟨-, hdw, -, hnw⟩ := hm
      have hlim : leftLimit ≤ max leftLimit (px - (calcGroupWidth group m / 2)) :=
        le_max_left _ _
      rw [hgw, hdw] at hbound2
      simp only [hnw, hdw, hgw] at hlim ⊢
      constructor
      · intro k hk
        rw [List.flatten_cons, List.mem_append] at hk
        by_cases hkg : k ∈ group
        · rw [if_pos hkg]
          have hidx : (0 : ℚ) ≤ ((0 + group.indexOf k : Nat) : ℚ) := Nat.cast_nonneg _
          linarith
        · rw [if_neg hkg]
          have := hbound2 k (hk.resolve_left hkg)
          linarith
      · rw [List.flatten_cons, List.pairwise_append]
        refine ⟨?_, ?_, ?_⟩
        · refine (group_pairwise group hgnodup
            (max leftLimit (px - (180 * (group.length : ℚ) - 30) / 2) + 100 / 2) (100 + 25 * 2)
            100 (by norm_num) (by norm_num)).imp_of_mem ?_
          intro a b ha hb hab
          rw [if_pos ha, if_pos hb]
          linarith
        · refine hpair2.imp_of_mem ?_
          intro a b ha hb hab
          rw [if_neg (fun h => hdisj h ha), if_neg (fun h => hdisj h hb)]
          exact hab
        · intro a ha b hb
          rw [if_pos ha, if_neg (fun h => hdisj h hb)]
          have hidx := indexOf_cast_le group a ha
          have hb2 := hbound2 b hb
          simp only [Nat.zero_add]
          linarith

theorem mem_flatten_reverse (groups : List (List String)) (k : String) :
    k ∈ groups.reverse.flatten ↔ k ∈ groups.flatten := by
  simp only [List.mem_flatten, List.mem_reverse]

theorem layoutLeft_spec (m : Measures) (midY py : ℚ) (nodes : List String) :
    ∀ (groups : List (List String)) (layout : Layout) (rightLimit : ℚ),
      groups.flatten.Nodup → (∀ k, k ∈ groups.flatten → k ∈ nodes) →
      Ready layout nodes py groups →
      ∃ layout' pos, layoutLeft m midY layout rightLimit groups = .ok layout' ∧
        Placed m (midY - m.levh) groups.flatten pos layout layout' ∧
        (CalcVizMeasures m →
          (∀ k ∈ groups.flatten, pos k + 50 ≤ rightLimit) ∧
          groups.reverse.flatten.Pairwise (fun a b => pos a + 100 < pos b)) := by
  intro groups
  induction groups with
  | nil =>
    intro layout rightLimit _ _ _
    exact ⟨layout, fun _ => 0, rfl, Placed.refl _ _ _ _, fun _ => ⟨by simp, by simp⟩⟩
  | cons group rest ih =>
    intro layout rightLimit hnodup hsub hr
    rw [List.flatten_cons] at hnodup hsub
    obtain ⟨hgnodup, hrnodup, hdisj⟩ := List.nodup_append.1 hnodup
    obtain ⟨hne, parent, px, hgp, hx, -⟩ :=
      hr.groupParent_ok layout nodes py _ group (List.mem_cons_self _ _)
    have hplaced1 := placeNodes_placed m
      (fun i => min rightLimit (px + (calcGroupWidth group m / 2)) - calcGroupWidth group m
        + (m.nodew / 2) + ((m.nodew + (m.deltaw * 2)) * i))
      (midY - m.levh) group layout 0 hgnodup
    have hr1 := Placed.ready m _ group nodes _ layout _ py rest hplaced1
      (fun k hk => hsub k (List.mem_append_left _ hk))
      (hr.of_subset layout nodes py _ rest (fun g hg => List.mem_cons_of_mem _ hg))
    obtain ⟨layout', pos2, hok, hplaced2, hmeas⟩ := ih _
      (min rightLimit (px + (calcGroupWidth group m / 2)) - calcGroupWidth group m
        - (2 * m.deltaw)) hrnodup (fun k hk => hsub k (List.mem_append_right _ hk)) hr1
    refine ⟨layout', fun k => if k ∈ group then
        min rightLimit (px + (calcGroupWidth group m / 2)) - calcGroupWidth group m
          + (m.nodew / 2) + ((m.nodew + (m.deltaw * 2)) * ((0 + group.indexOf k : Nat) : ℚ))
      else pos2 k, ?_, ?_, ?_⟩
    · rw [layoutLeft_cons m midY layout rightLimit group rest parent px hgp hx]
      exact hok
    · rw [List.flatten_cons]
      exact Placed.append m _ group rest.flatten _ pos2 layout _ layout' hplaced1 hplaced2
        (fun k hk => hdisj hk)
    · intro hm
      obtain ⟨hbound2, hpair2⟩ := hmeas hm
      have hgw := calcGroupWidth_calcViz m hm group
      have hn := length_cast_pos group hne
      obtain ⟨-, hdw, -, hnw⟩ := hm
      have hlim : min rightLimit (px + (calcGroupWidth group m / 2)) ≤ rightLimit :=
        min_le_left _ _
      rw [hgw, hdw] at hbound2
      simp only [hnw, hdw, hgw] at hlim ⊢
      constructor
      · intro k hk
        rw [List.flatten_cons, List.mem_append] at hk
        by_cases hkg : k ∈ group
        · rw [if_pos hkg]
          have hidx := indexOf_cast_le group k hkg
          simp only [Nat.zero_add]
          linarith
        · rw [if_neg hkg]
          have := hbound2 k (hk.resolve_left hkg)
          linarith
      · rw [List.reverse_cons, List.flatten_append, List.flatten_cons, List.flatten_nil,
          List.append_nil, List.pairwise_append]
        refine ⟨?_, ?_, ?_⟩
        · refine hpair2.imp_of_mem ?_
          intro a b ha hb hab
          rw [mem_flatten_reverse] at ha hb
          rw [if_neg (fun h => hdisj h ha), if_neg (fun h => hdisj h hb)]
          exact hab
        · refine (group_pairwise group hgnodup
            (min rightLimit (px + (180 * (group.length : ℚ) - 30) / 2)
              - (180 * (group.length : ℚ) - 30) + 100 / 2) (100 + 25 * 2)
            100 (by norm_num) (by norm_num)).imp_of_mem ?_
          intro a b ha hb hab
          rw [if_pos ha, if_pos hb]
          linarith
        · intro a ha b hb
          rw [mem_flatten_reverse] at ha
          rw [if_neg (fun h => hdisj h ha), if_pos hb]
          have hidx : (0 : ℚ) ≤ ((0 + group.indexOf b : Nat) : ℚ) := Nat.cast_nonneg _
          have ha2 := hbound2 a ha
          linarith

theorem updateFrontierLayout_spec (viz : Viz) (layout : Layout)
    (generation : List (List String)) (i : Nat) (py : ℚ)
    (hne : generation ≠ []) (hnodup : generation.flatten.Nodup)
    (hr : Ready layout generation.flatten py generation) :
    ∃ layout' pos, updateFrontierLayout viz layout generation (i + 1) = .ok layout' ∧
      Placed viz.measures (py - viz.measures.levh) generation.flatten pos layout layout' ∧
      (CalcVizMeasures viz.measures →
        generation.flatten.Pairwise (fun a b => pos a + 100 < pos b)) := by
  have hlen : generation.length / 2 < generation.length :=
    Nat.div_lt_self (List.length_pos.2 hne) (by norm_num)
  have hget : generation[generation.length / 2]? = some generation[generation.length / 2] :=
    List.getElem?_eq_getElem hlen
  obtain ⟨-, parent, px, hgp, hx, hy⟩ := hr.groupParent_ok layout _ py generation
    generation[generation.length / 2] (List.getElem_mem hlen)
  have hsplit : (generation.take (generation.length / 2)).flatten
      ++ (generation.drop (generation.length / 2)).flatten = generation.flatten := by
    rw [← List.flatten_append, List.take_append_drop]
  rw [← hsplit] at hnodup
  obtain ⟨hlnodup, hrnodup, hdisj⟩ := List.nodup_append.1 hnodup
  have hlsub : ∀ k, k ∈ (generation.take (generation.length / 2)).reverse.flatten →
      k ∈ generation.flatten := by
    intro k hk
    rw [← hsplit]
    exact List.mem_append_left _ ((mem_flatten_reverse _ k).1 hk)
  have hrsub : ∀ k, k ∈ (generation.drop (generation.length / 2)).flatten →
      k ∈ generation.flatten := by
    intro k hk
    rw [← hsplit]
    exact List.mem_append_right _ hk
  -- the left side
  obtain ⟨layout1, pos1, hok1, hplaced1, hmeas1⟩ := layoutLeft_spec viz.measures py py
    generation.flatten (generation.take (generation.length / 2)).reverse layout
    (px - (calcGroupWidth generation[generation.length / 2] viz.measures / 2)
      - viz.measures.deltaw)
    ((List.reverse_perm _).flatten.nodup_iff.2 hlnodup) hlsub
    (hr.of_subset layout _ py generation _
      (fun g hg => List.take_subset _ _ (List.mem_reverse.1 hg)))
  -- the right side
  obtain ⟨layout2, pos2, hok2, hplaced2, hmeas2⟩ := layoutRight_spec viz.measures py py
    generation.flatten (generation.drop (generation.length / 2)) layout1
    (px - (calcGroupWidth generation[generation.length / 2] viz.measures / 2)
      + viz.measures.deltaw)
    hrnodup hrsub
    (Placed.ready viz.measures _ _ generation.flatten pos1 layout layout1 py _ hplaced1 hlsub
      (hr.of_subset layout _ py generation _ (fun g hg => List.drop_subset _ _ hg)))
  refine ⟨layout2, fun k => if k ∈ (generation.take (generation.length / 2)).reverse.flatten
    then pos1 k else pos2 k, ?_, ?_, ?_⟩
  · unfold updateFrontierLayout
    simp only [Nat.add_one_ne_zero, if_false, hget, hgp, hx, hy, coordinate, bind, Except.bind,
      hok1, hok2]
  · refine Placed.of_mem_iff viz.measures _ _ _ _ layout layout2
      (Placed.append viz.measures _ _ _ pos1 pos2 layout layout1 layout2 hplaced1 hplaced2
        (fun k hk => hdisj ((mem_flatten_reverse _ k).1 hk))) ?_
    intro k
    rw [← hsplit, List.mem_append, List.mem_append, mem_flatten_reverse]
  · intro hm
    obtain ⟨hbound1, hpair1⟩ := hmeas1 hm
    obtain ⟨hbound2, hpair2⟩ := hmeas2 hm
    rw [List.reverse_reverse] at hpair1
    obtain ⟨-, hdw, -, -⟩ := hm
    rw [hdw] at hbound1 hbound2
    rw [← hsplit, List.pairwise_append]
    refine ⟨?_, ?_, ?_⟩
    · refine hpair1.imp_of_mem ?_
      intro a b ha hb hab
      beta_reduce
      rw [if_pos ((mem_flatten_reverse _ a).2 ha), if_pos ((mem_flatten_reverse _ b).2 hb)]
      exact hab
    · refine hpair2.imp_of_mem ?_
      intro a b ha hb hab
      beta_reduce
      rw [if_neg (fun h => hdisj ((mem_flatten_reverse _ a).1 h) ha),
        if_neg (fun h => hdisj ((mem_flatten_reverse _ b).1 h) hb)]
      exact hab
    · intro a ha b hb
      beta_reduce
      rw [if_pos ((mem_flatten_reverse _ a).2 ha),
        if_neg (fun h => hdisj ((mem_flatten_reverse _ b).1 h) hb)]
      have h1 := hbound1 a ((mem_flatten_reverse _ a).2 ha)
      have h2 := hbound2 b hb
      linarith

theorem Linked.of_parentId_eq (layout layout' : Layout)
    (h : ∀ k, (layout'.deref k).parentId = (layout.deref k).parentId) :
    ∀ (gens : List (List (List String))) (prev : List String),
      Linked layout prev gens → Linked layout' prev gens := by
  intro gens
  induction gens with
  | nil => intro prev _; trivial
  | cons gen rest ih =>
    intro prev hl
    obtain ⟨hne, hgroups, hrest⟩ := hl
    refine ⟨hne, ?_, ih _ hrest⟩
    intro group hgroup
    obtain ⟨node, parentId, hhead, hpar, hmem⟩ := hgroups group hgroup
    exact ⟨node, parentId, hhead, by rw [h, hpar], hmem⟩

theorem Placed.deref_of_mem (m : Measures) (y : ℚ) (nodes : List String) (pos : String → ℚ)
    (layout layout' : Layout) (h : Placed m y nodes pos layout layout') (k : String)
    (hk : k ∈ nodes) (hsome : layout k ≠ none) :
    layout'.deref k = setPos m (pos k) y (layout.deref k) := by
  cases hk' : layout k with
  | none => exact absurd hk' hsome
  | some n =>
    rw [Layout.deref_of_eq_some _ _ _ hk']
    apply Layout.deref_of_eq_some
    rw [h k, if_pos hk, hk']
    rfl

theorem Placed.map_erasePos (m : Measures) (y : ℚ) (nodes : List String) (pos : String → ℚ)
    (layout layout' : Layout) (h : Placed m y nodes pos layout layout') (k : String) :
    (layout' k).map LayoutNode.erasePos = (layout k).map LayoutNode.erasePos := by
  rw [h k]
  split
  · cases layout k <;> simp [setPos, LayoutNode.erasePos]
  · rfl

theorem layoutGenerations_spec (viz : Viz) (rootY : ℚ) :
    ∀ (todo : List (List (List String))) (layout : Layout) (i : Nat) (prev : List String),
      Linked layout prev todo → (prev ++ todo.flatten.flatten).Nodup →
      (∀ k ∈ prev ++ todo.flatten.flatten, layout k ≠ none) →
      (∀ p ∈ prev, (layout.deref p).x ≠ none ∧
        (layout.deref p).y = some (rootY - (i : ℚ) * viz.measures.levh)) →
      ∃ layout', layoutGenerations viz layout (i + 1) todo = .ok layout' ∧
        (∀ k, (layout' k).map LayoutNode.erasePos = (layout k).map LayoutNode.erasePos) ∧
        (∀ k, k ∉ todo.flatten.flatten → layout' k = layout k) ∧
        (∀ (j : Nat) (gen : List (List String)), todo[j]? = some gen →
          (∀ n ∈ gen.flatten,
            (layout'.deref n).y = some (rootY - ((i + 1 + j : Nat) : ℚ) * viz.measures.levh)) ∧
          (CalcVizMeasures viz.measures →
            gen.flatten.Pairwise (fun a b => ∃ xa xb, (layout'.deref a).xoff = some xa ∧
              (layout'.deref b).xoff = some xb ∧ xa + viz.measures.nodew < xb))) := by
  intro todo
  induction todo with
  | nil =>
    intro layout i prev _ _ _ _
    exact ⟨layout, rfl, fun _ => rfl, fun _ _ => rfl, fun j gen h => by simp at h⟩
  | cons gen rest ih =>
    intro layout i prev hlinked hnodup hsome hprev
    obtain ⟨hne, hgroups, hrest⟩ := hlinked
    rw [List.flatten_cons, List.flatten_append] at hnodup hsome
    obtain ⟨hpnodup, htnodup, hpdisj⟩ := List.nodup_append.1 hnodup
    obtain ⟨hgnodup, hrnodup, hgdisj⟩ := List.nodup_append.1 htnodup
    -- the parents of this generation are placed
    have hready : Ready layout gen.flatten (rootY - (i : ℚ) * viz.measures.levh) gen := by
      intro group hgroup
      obtain ⟨node, parentId, hhead, hpar, hmem⟩ := hgroups group hgroup
      obtain ⟨hx, hy⟩ := hprev parentId hmem
      have hex := eq_some_deref layout parentId (hsome parentId (List.mem_append_left _ hmem))
      cases hpx : (layout.deref parentId).x with
      | none => exact absurd hpx hx
      | some px =>
        exact ⟨node, parentId, layout.deref parentId, px, hhead, hpar, hex, hpx, hy,
          fun h => hpdisj hmem (List.mem_append_left _ h)⟩
    obtain ⟨layout1, pos, hok1, hplaced, hmeas⟩ := updateFrontierLayout_spec viz layout gen i
      (rootY - (i : ℚ) * viz.measures.levh) hne hgnodup hready
    have hpar1 : ∀ k, (layout1.deref k).parentId = (layout.deref k).parentId :=
      fun k => (erasePos_fields _ _ (hplaced.deref _ _ _ _ _ _ k)).2.1
    have hsome1 : ∀ k, layout k ≠ none → layout1 k ≠ none := by
      intro k hk
      exact (isSome_of_map_eq _ _ _ k (hplaced.map_erasePos _ _ _ _ _ _ k)).2 hk
    have hgen1 : ∀ n ∈ gen.flatten, layout1.deref n =
        setPos viz.measures (pos n) (rootY - (i : ℚ) * viz.measures.levh - viz.measures.levh)
          (layout.deref n) := by
      intro n hn
      exact hplaced.deref_of_mem _ _ _ _ _ _ n hn
        (hsome n (List.mem_append_right _ (List.mem_append_left _ hn)))
    have hlevel : rootY - (i : ℚ) * viz.measures.levh - viz.measures.levh
        = rootY - ((i + 1 : Nat) : ℚ) * viz.measures.levh := by
      push_cast
      ring
    obtain ⟨layout', hok, hshape, hout, hlev⟩ := ih layout1 (i + 1) gen.flatten
      (Linked.of_parentId_eq layout layout1 hpar1 rest _ hrest) htnodup
      (fun k hk => hsome1 k (hsome k (List.mem_append_right _ (by
        rw [List.mem_append] at hk ⊢
        exact hk))))
      (fun p hp => by
        rw [hgen1 p hp, ← hlevel]
        exact ⟨by simp [setPos], rfl⟩)
    refine ⟨layout', ?_, ?_, ?_, ?_⟩
    · rw [layoutGenerations]
      simp only [hok1, bind, Except.bind]
      exact hok
    · intro k
      rw [hshape k, hplaced.map_erasePos _ _ _ _ _ _ k]
    · intro k hk
      rw [List.flatten_cons, List.flatten_append, List.mem_append] at hk
      rw [hout k (fun h => hk (Or.inr h)), hplaced k, if_neg (fun h => hk (Or.inl h))]
    · intro j gen' hj
      cases j with
      | zero =>
        simp only [List.getElem?_cons_zero, Option.some.injEq] at hj
        subst hj
        have hkeep : ∀ n ∈ gen.flatten, layout'.deref n = layout1.deref n := by
          intro n hn
          exact Layout.deref_congr _ _ _ (hout n (fun h => hgdisj hn h))
        constructor
        · intro n hn
          rw [hkeep n hn, hgen1 n hn, hlevel]
          rfl
        · intro hm
          refine (hmeas hm).imp_of_mem ?_
          intro a b ha hb hab
          refine ⟨pos a - viz.measures.nodew / 2, pos b - viz.measures.nodew / 2, ?_, ?_, ?_⟩
          · rw [hkeep a ha, hgen1 a ha]
            rfl
          · rw [hkeep b hb, hgen1 b hb]
            rfl
          · obtain ⟨-, -, -, hnw⟩ := hm
            rw [hnw]
            linarith
      | succ j =>
        rw [List.getElem?_cons_succ] at hj
        have h := hlev j gen' hj
        have hidx : i + 1 + 1 + j = i + 1 + (j + 1) := by omega
        rw [hidx] at h
        exact h

/-! ## The run of `calcLayout` -/

theorem Visited.node_exists (viz : Viz) (sprites : List LibSprite) (layout0 : Layout)
    (t : Traversal) (visited : List String) (hf : Forest viz sprites layout0)
    (hv : Visited layout0 t visited) : ∀ k ∈ visited ++ t.queue, t.layout k ≠ none := by
  intro k hk
  refine (isSome_of_map_eq _ _ _ k (hv.same k)).2 ?_
  by_cases hroot : k = "parent_0"
  · obtain ⟨r, hr, -⟩ := hf.root
    rw [hroot, hr]
    simp
  · obtain ⟨p, _, hkp⟩ := hv.parent_visited k hk hroot
    obtain ⟨cn, hcn, -⟩ := hf.child_node p k hkp
    rw [hcn]
    simp

theorem Visited.parent_gen (viz : Viz) (sprites : List LibSprite) (layout0 : Layout)
    (t : Traversal) (visited : List String) (hf : Forest viz sprites layout0)
    (hv : Visited layout0 t visited) :
    ∀ k ∈ visited ++ t.queue, k ≠ "parent_0" → ∃ p g, p ∈ visited ∧
      (t.layout.deref k).parentId = some p ∧ k ∈ (layout0.deref p).children ∧
      (t.layout.deref p).generation = some g ∧ (t.layout.deref k).generation = some (g + 1) := by
  intro k hk hroot
  obtain ⟨p, hp, hkp⟩ := hv.parent_visited k hk hroot
  obtain ⟨cn, hcn, hpar⟩ := hf.child_node p k hkp
  obtain ⟨-, g, hg, hg'⟩ := hv.edge p hp k hkp
  refine ⟨p, g, hp, ?_, hkp, hg, hg'⟩
  rw [(eraseVisit_fields _ _ (deref_map_eq _ _ _ k (hv.same k))).2.1,
    Layout.deref_of_eq_some _ _ _ hcn, hpar]

theorem Visited.mem_generations (layout0 : Layout) (t : Traversal) (visited : List String)
    (hv : Visited layout0 t visited) (hq : t.queue = []) (k : String) (i : Nat)
    (hk : k ∈ visited) (hgen : (t.layout.deref k).generation = some i) :
    ∃ gen, t.generations[i]? = some gen ∧ k ∈ gen.flatten := by
  have hpend : t.pending = t.generations := by
    unfold Traversal.pending
    rw [hq]
    rfl
  rw [← hv.flat, hpend] at hk
  obtain ⟨group, hgroup, hkg⟩ := List.mem_flatten.1 hk
  obtain ⟨gen, hgen', hgg⟩ := List.mem_flatten.1 hgroup
  obtain ⟨j, hj⟩ := List.mem_iff_getElem?.1 hgen'
  have hkgen : k ∈ gen.flatten := List.mem_flatten.2 ⟨group, hgg, hkg⟩
  have h := hv.index j gen (hpend ▸ hj) k hkgen
  rw [hgen] at h
  rw [Option.some.inj h]
  exact ⟨gen, hj, hkgen⟩

theorem Linked.of_index (layout : Layout) :
    ∀ (gens : List (List (List String))) (first : List (List String)),
      (∀ (j : Nat) (gen : List (List String)), gens[j]? = some gen → gen ≠ [] ∧
        ∀ group ∈ gen, ∃ node parentId, group.head? = some node ∧
          (layout.deref node).parentId = some parentId ∧
          ∃ before, (first :: gens)[j]? = some before ∧ parentId ∈ before.flatten) →
      Linked layout first.flatten gens := by
  intro gens
  induction gens with
  | nil => intro first _; trivial
  | cons gen rest ih =>
    intro first h
    obtain ⟨hne, hgroups⟩ := h 0 gen (by simp)
    refine ⟨hne, ?_, ih gen ?_⟩
    · intro group hgroup
      obtain ⟨node, parentId, hhead, hpar, before, hbefore, hmem⟩ := hgroups group hgroup
      simp only [List.getElem?_cons_zero, Option.some.injEq] at hbefore
      subst hbefore
      exact ⟨node, parentId, hhead, hpar, hmem⟩
    · intro j gen' hj
      obtain ⟨hne', hgroups'⟩ := h (j + 1) gen' (by rw [List.getElem?_cons_succ]; exact hj)
      refine ⟨hne', ?_⟩
      intro group hgroup
      obtain ⟨node, parentId, hhead, hpar, before, hbefore, hmem⟩ := hgroups' group hgroup
      rw [List.getElem?_cons_succ] at hbefore
      exact ⟨node, parentId, hhead, hpar, before, hbefore, hmem⟩

theorem Visited.frontier_ready (viz : Viz) (sprites : List LibSprite) (layout0 : Layout)
    (t : Traversal) (visited : List String) (hf : Forest viz sprites layout0)
    (hv : Visited layout0 t visited) (hq : t.queue = []) (first : List (List String))
    (rest : List (List (List String))) (hgens : t.generations = first :: rest) :
    (∀ (j : Nat) (gen : List (List String)), rest[j]? = some gen → gen ≠ [] ∧
      ∀ group ∈ gen, ∃ node parentId, group.head? = some node ∧
        (t.layout.deref node).parentId = some parentId ∧
        ∃ before, (first :: rest)[j]? = some before ∧ parentId ∈ before.flatten) ∧
    (first.flatten ++ rest.flatten.flatten).Nodup ∧
    (∀ k ∈ first.flatten ++ rest.flatten.flatten, t.layout k ≠ none) ∧
    (∀ p ∈ first.flatten, p = "parent_0") ∧
    ((t.layout.deref "parent_0").x = some 0 ∧
      (t.layout.deref "parent_0").y = some (viz.viewport.height + (viz.measures.nodeh / 2))) ∧
    "parent_0" ∉ rest.flatten.flatten ∧
    ∀ k, (t.layout.deref k).y ≠ none → (t.layout.deref k).x ≠ none := by
  have hpend : t.pending = t.generations := by
    unfold Traversal.pending
    rw [hq]
    rfl
  have hvnodup : visited.Nodup := by
    have h := hv.nodup
    rw [hq, List.append_nil] at h
    exact h
  have hmemq : ∀ k, k ∈ visited → k ∈ visited ++ t.queue := fun k hk => List.mem_append_left _ hk
  have hflat : first.flatten ++ rest.flatten.flatten = visited := by
    rw [← hv.flat, hpend, hgens, List.flatten_cons, List.flatten_append]
  have hindex : ∀ (i : Nat) (gen : List (List String)), (first :: rest)[i]? = some gen →
      ∀ n ∈ gen.flatten, (t.layout.deref n).generation = some i := by
    intro i gen hi
    exact hv.index i gen (by rw [hpend, hgens]; exact hi)
  have hfields : ∀ k, (t.layout.deref k).x = (layout0.deref k).x ∧
      (t.layout.deref k).y = (layout0.deref k).y := by
    intro k
    obtain ⟨-, -, hx, hy, -⟩ := eraseVisit_fields _ _ (deref_map_eq _ _ _ k (hv.same k))
    exact ⟨hx, hy⟩
  have hrootpos : (t.layout.deref "parent_0").x = some 0 ∧
      (t.layout.deref "parent_0").y = some (viz.viewport.height + (viz.measures.nodeh / 2)) := by
    obtain ⟨r, hr, -, -, hx, hy, -⟩ := hf.root
    rw [(hfields "parent_0").1, (hfields "parent_0").2, Layout.deref_of_eq_some _ _ _ hr]
    exact ⟨hx, hy⟩
  refine ⟨?_, by rw [hflat]; exact hvnodup, ?_, ?_, hrootpos, ?_, ?_⟩
  · intro j gen hj
    have hj' : (first :: rest)[j + 1]? = some gen := by
      rw [List.getElem?_cons_succ]
      exact hj
    obtain ⟨hne, hgroups⟩ := hv.groups (j + 1) gen (by rw [hpend, hgens]; exact hj') (by omega)
    refine ⟨hne, ?_⟩
    intro group hgroup
    have hgne := hgroups group hgroup
    have hhead : group.head hgne ∈ gen.flatten :=
      List.mem_flatten.2 ⟨group, hgroup, List.head_mem hgne⟩
    have hgenhead := hindex (j + 1) gen hj' _ hhead
    have hv_head : group.head hgne ∈ visited :=
      (hv.flat ▸ hpend ▸ hgens ▸ List.mem_flatten.2 ⟨group,
        List.mem_flatten.2 ⟨gen, List.getElem?_mem hj', hgroup⟩, List.head_mem hgne⟩)
    have hne_root : group.head hgne ≠ "parent_0" := by
      intro h
      rw [h, hv.root_gen] at hgenhead
      simp at hgenhead
    obtain ⟨p, g', hp, hpar, -, hpg, hkg⟩ := Visited.parent_gen viz sprites _ t visited hf hv
      _ (hmemq _ hv_head) hne_root
    rw [hgenhead] at hkg
    have hg' : g' = j := by
      have := Option.some.inj hkg
      omega
    subst hg'
    obtain ⟨before, hbefore, hmem⟩ := Visited.mem_generations _ t visited hv hq p g' hp hpg
    exact ⟨_, p, List.head?_eq_head hgne, hpar, before, hgens ▸ hbefore, hmem⟩
  · intro k hk
    exact Visited.node_exists viz sprites _ t visited hf hv k (hmemq k (hflat ▸ hk))
  · intro p hp
    by_contra hne
    have hpv : p ∈ visited := by rw [← hflat]; exact List.mem_append_left _ hp
    obtain ⟨q, g', -, -, -, -, hgen⟩ := Visited.parent_gen viz sprites _ t visited hf hv p
      (hmemq p hpv) hne
    have h0 := hindex 0 first (by simp) p hp
    rw [h0] at hgen
    simp at hgen
  · intro h
    obtain ⟨group, hgroup, hmem⟩ := List.mem_flatten.1 h
    obtain ⟨gen, hgen, hgg⟩ := List.mem_flatten.1 hgroup
    obtain ⟨j, hj⟩ := List.mem_iff_getElem?.1 hgen
    have h1 := hindex (j + 1) gen (by rw [List.getElem?_cons_succ]; exact hj) "parent_0"
      (List.mem_flatten.2 ⟨group, hgg, hmem⟩)
    rw [hv.root_gen] at h1
    simp at h1
  · intro k hy
    by_cases hk : k = "parent_0"
    · rw [hk, hrootpos.1]
      simp
    · rw [(hfields k).2, (hf.unvisited k hk).2.2.2.1] at hy
      exact absurd rfl hy

theorem layoutGenerations_zero_cons (viz : Viz) (layout : Layout) (first : List (List String))
    (rest : List (List (List String))) :
    layoutGenerations viz layout 0 (first :: rest) = layoutGenerations viz layout (0 + 1) rest := by
  simp only [layoutGenerations, updateFrontierLayout, if_true, bind, Except.bind]

theorem calcLayout_run (fuel : Nat) (viz : Viz) (sprites : List LibSprite)
    (hkeys : ∀ s ∈ sprites, inheritedKey s.md5 = false ∧ inheritedKey s.layParentId = false ∧
      ∀ k ∈ s.others, maintainedKey k = false)
    (hnodup : (sprites.map LibSprite.md5).Nodup)
    (hroot : "parent_0" ∉ sprites.map LibSprite.md5) (hfuel : sprites.length + 1 ≤ fuel) :
    ∃ t visited layout,
      traverse fuel (Traversal.start (sprites.foldl addLibSprite
        (Layout.empty.set "parent_0" (rootNode viz)))) = some t ∧
      layoutGenerations viz t.layout 0 t.generations = .ok layout ∧
      calcLayout fuel viz (some sprites) = .ok (some layout) ∧
      Outcome viz sprites (sprites.foldl addLibSprite
        (Layout.empty.set "parent_0" (rootNode viz))) t visited layout := by
  have hf : Forest viz sprites
      (sprites.foldl addLibSprite (Layout.empty.set "parent_0" (rootNode viz))) := by
    have h := Forest.build viz sprites [] _ (Forest.of_root viz) (by simpa using hnodup)
      (by simpa using hroot)
    simpa using h
  obtain ⟨t, visited, htrav, hv, hq⟩ := Visited.traverse_finishes viz sprites _ hf hroot fuel _ []
    (Visited.start viz sprites _ hf) (by simpa using hfuel)
  have hpend : t.pending = t.generations := by
    unfold Traversal.pending
    rw [hq]
    rfl
  obtain ⟨g, hg, hlen⟩ := hv.genNum
  rw [hpend] at hlen
  cases hgens : t.generations with
  | nil =>
    rw [hgens] at hlen
    simp at hlen
  | cons first rest =>
    obtain ⟨hraw, hnd, hsome, hfirst, hrootpos, hroot_rest, -⟩ :=
      Visited.frontier_ready viz sprites _ t visited hf hv hq first rest hgens
    obtain ⟨layout, hok, hshape, hout, hlev⟩ := layoutGenerations_spec viz
      (viz.viewport.height + (viz.measures.nodeh / 2)) rest t.layout 0 first.flatten
      (Linked.of_index t.layout rest first hraw) hnd hsome
      (fun p hp => by
        rw [hfirst p hp, hrootpos.1, hrootpos.2]
        simp)
    have hall : layoutGenerations viz t.layout 0 t.generations = .ok layout := by
      rw [hgens, layoutGenerations_zero_cons, hok]
    refine ⟨t, visited, layout, htrav, hall, ?_, hf, hv, hq, hshape, ?_, ?_, ?_⟩
    · simp only [calcLayout, addLibSprites_of_plain sprites _ hkeys, htrav]
      rw [hall]
    · rw [Layout.deref_congr _ _ _ (hout "parent_0" hroot_rest)]
      exact hrootpos
    · intro i gen hi h1
      obtain ⟨j, rfl⟩ : ∃ j, i = j + 1 := ⟨i - 1, by omega⟩
      rw [hgens, List.getElem?_cons_succ] at hi
      have h := (hlev j gen hi).1
      have hidx : 0 + 1 + j = j + 1 := by omega
      rw [hidx] at h
      exact h
    · intro hm i gen hi h1
      obtain ⟨j, rfl⟩ : ∃ j, i = j + 1 := ⟨i - 1, by omega⟩
      rw [hgens, List.getElem?_cons_succ] at hi
      exact (hlev j gen hi).2 hm

theorem calcLayout_outcome (fuel : Nat) (viz : Viz) (sprites : List LibSprite)
    (hkeys : ∀ s ∈ sprites, inheritedKey s.md5 = false ∧ inheritedKey s.layParentId = false ∧
      ∀ k ∈ s.others, maintainedKey k = false)
    (hnodup : (sprites.map LibSprite.md5).Nodup)
    (hroot : "parent_0" ∉ sprites.map LibSprite.md5) (hfuel : sprites.length + 1 ≤ fuel) :
    ∃ layout0 t visited layout, calcLayout fuel viz (some sprites) = .ok (some layout) ∧
      Outcome viz sprites layout0 t visited layout := by
  obtain ⟨t, visited, layout, -, -, hok, ho⟩ :=
    calcLayout_run fuel viz sprites hkeys hnodup hroot hfuel
  exact ⟨_, t, visited, layout, hok, ho⟩

theorem traverse_mono :
    ∀ (fuel k : Nat) (t t' : Traversal), traverse fuel t = some t' →
      traverse (fuel + k) t = some t' := by
  intro fuel
  induction fuel with
  | zero =>
    intro k t t' h
    unfold traverse at h
    split at h
    · rename_i hq
      cases k with
      | zero => simp [traverse, hq, h]
      | succ k =>
        have hq' : t.queue = [] := by simpa using hq
        rw [Nat.zero_add]
        unfold traverse
        simp only [hq']
        exact h
    · simp at h
  | succ fuel ih =>
    intro k t t' h
    have hsucc : fuel + 1 + k = (fuel + k) + 1 := by omega
    rw [hsucc]
    cases hq : t.queue with
    | nil =>
      simp only [traverse, hq] at h ⊢
      exact h
    | cons node rest =>
      simp only [traverse, hq] at h ⊢
      exact ih k _ t' h

/-- A layout that `calcLayout` returns after `fuel` iterations is the one it returns with
more iterations allowed, and the loop over the descriptors has not thrown. -/
theorem calcLayout_returned (fuel : Nat) (viz : Viz) (sprites : List LibSprite)
    (layout : Layout) (hok : calcLayout fuel viz (some sprites) = .ok (some layout)) :
    (∀ s ∈ sprites, inheritedKey s.md5 = false ∧ inheritedKey s.layParentId = false ∧
      ∀ k ∈ s.others, maintainedKey k = false) ∧
    addLibSprites (Layout.empty.set "parent_0" (rootNode viz)) sprites =
      .ok (sprites.foldl addLibSprite (Layout.empty.set "parent_0" (rootNode viz))) ∧
    (∃ t, traverse fuel (Traversal.start (sprites.foldl addLibSprite
        (Layout.empty.set "parent_0" (rootNode viz)))) = some t ∧
      layoutGenerations viz t.layout 0 t.generations = .ok layout) ∧
    ∀ k, calcLayout (fuel + k) viz (some sprites) = .ok (some layout) := by
  unfold calcLayout at hok
  simp only at hok
  split at hok
  · simp at hok
  · rename_i layout0 hbuild
    obtain ⟨h0, hkeys⟩ := addLibSprites_ok sprites _ _ hbuild
    rw [h0] at hok hbuild
    split at hok
    · simp at hok
    · rename_i t ht
      split at hok
      · simp at hok
      · rename_i layout1 hl
        simp only [Except.ok.injEq, Option.some.injEq] at hok
        refine ⟨hkeys, hbuild, ⟨t, ht, by rw [hl, hok]⟩, ?_⟩
        intro k
        simp only [calcLayout, hbuild, traverse_mono fuel k _ t ht, hl, hok]

/-- A property of the layout that `calcLayout` returns, shown for the lists on which the
loop over the descriptors does not throw, holds of every layout that is returned. -/
theorem calcLayout_of_plain (viz : Viz) (sprites : List LibSprite) (P : Layout → Prop)
    (h : (∀ s ∈ sprites, inheritedKey s.md5 = false ∧ inheritedKey s.layParentId = false ∧
        ∀ k ∈ s.others, maintainedKey k = false) →
      ∀ fuel, sprites.length + 1 ≤ fuel →
        ∃ layout, calcLayout fuel viz (some sprites) = .ok (some layout) ∧ P layout) :
    (∀ fuel layout, calcLayout fuel viz (some sprites) = .ok (some layout) → P layout) ∧
    ((∀ s ∈ sprites, inheritedKey s.md5 = false ∧ inheritedKey s.layParentId = false ∧
        ∀ k ∈ s.others, maintainedKey k = false) →
      ∀ fuel, sprites.length + 1 ≤ fuel →
        ∃ layout, calcLayout fuel viz (some sprites) = .ok (some layout)) := by
  constructor
  · intro fuel layout hok
    obtain ⟨hkeys, -, -, hmono⟩ := calcLayout_returned fuel viz sprites layout hok
    obtain ⟨layout', hok', hP⟩ := h hkeys (fuel + (sprites.length + 1)) (by omega)
    rw [hmono] at hok'
    simp only [Except.ok.injEq, Option.some.injEq] at hok'
    rw [hok']
    exact hP
  · intro hkeys fuel hfuel
    obtain ⟨layout, hok, -⟩ := h hkeys fuel hfuel
    exact ⟨layout, hok⟩

theorem Outcome.fields (viz : Viz) (sprites : List LibSprite) (layout0 : Layout)
    (t : Traversal) (visited : List String) (layout : Layout)
    (ho : Outcome viz sprites layout0 t visited layout) (k : String) :
    (layout.deref k).children = (layout0.deref k).children ∧
    (layout.deref k).parentId = (t.layout.deref k).parentId ∧
    (layout.deref k).generation = (t.layout.deref k).generation ∧
    (layout.deref k).visible = (t.layout.deref k).visible := by
  obtain ⟨h1, h2, h3, h4⟩ := erasePos_fields _ _ (deref_map_eq _ _ _ k (ho.shape k))
  refine ⟨?_, h2, h3, h4⟩
  rw [h1, (eraseVisit_fields _ _ (deref_map_eq _ _ _ k (ho.traversed.same k))).1]

theorem Outcome.isSome_iff (viz : Viz) (sprites : List LibSprite) (layout0 : Layout)
    (t : Traversal) (visited : List String) (layout : Layout)
    (ho : Outcome viz sprites layout0 t visited layout) (k : String) :
    layout k ≠ none ↔ layout0 k ≠ none :=
  (isSome_of_map_eq _ _ _ k (ho.shape k)).trans (isSome_of_map_eq _ _ _ k (ho.traversed.same k))

theorem Outcome.mem_visited (viz : Viz) (sprites : List LibSprite) (layout0 : Layout)
    (t : Traversal) (visited : List String) (layout : Layout)
    (ho : Outcome viz sprites layout0 t visited layout) (k : String) :
    k ∈ visited ↔ k ∈ visited ++ t.queue := by
  rw [ho.finished, List.append_nil]

theorem Outcome.visited_of_generation (viz : Viz) (sprites : List LibSprite) (layout0 : Layout)
    (t : Traversal) (visited : List String) (layout : Layout)
    (ho : Outcome viz sprites layout0 t visited layout) (k : String) (g : Nat)
    (hg : (layout.deref k).generation = some g) : k ∈ visited := by
  by_contra hk
  have hne : k ≠ "parent_0" := by
    intro h
    apply hk
    rw [h, ho.mem_visited]
    exact ho.traversed.root_mem
  have hsame := ho.traversed.untouched k (fun h => hk ((ho.mem_visited _ _ _ _ _ _ k).2 h))
  rw [(ho.fields _ _ _ _ _ _ k).2.2.1, Layout.deref_congr _ _ _ hsame,
    (ho.forest.unvisited k hne).1] at hg
  simp at hg

theorem Outcome.root_of_generation_zero (viz : Viz) (sprites : List LibSprite)
    (layout0 : Layout) (t : Traversal) (visited : List String) (layout : Layout)
    (ho : Outcome viz sprites layout0 t visited layout) (k : String)
    (hg : (layout.deref k).generation = some 0) : k = "parent_0" := by
  by_contra hne
  have hk := ho.visited_of_generation _ _ _ _ _ _ k 0 hg
  obtain ⟨p, g', -, -, -, -, hgen⟩ := Visited.parent_gen viz sprites _ t visited ho.forest
    ho.traversed k ((ho.mem_visited _ _ _ _ _ _ k).1 hk) hne
  rw [(ho.fields _ _ _ _ _ _ k).2.2.1, hgen] at hg
  simp at hg

theorem Outcome.mem_generation (viz : Viz) (sprites : List LibSprite) (layout0 : Layout)
    (t : Traversal) (visited : List String) (layout : Layout)
    (ho : Outcome viz sprites layout0 t visited layout) (k : String) (g : Nat)
    (hg : (layout.deref k).generation = some g) :
    ∃ gen, t.generations[g]? = some gen ∧ k ∈ gen.flatten :=
  Visited.mem_generations _ t visited ho.traversed ho.finished k g
    (ho.visited_of_generation _ _ _ _ _ _ k g hg) ((ho.fields _ _ _ _ _ _ k).2.2.1 ▸ hg)

theorem Outcome.y_of_generation (viz : Viz) (sprites : List LibSprite) (layout0 : Layout)
    (t : Traversal) (visited : List String) (layout : Layout)
    (ho : Outcome viz sprites layout0 t visited layout) (k : String) (g : Nat)
    (hg : (layout.deref k).generation = some g) :
    (layout.deref k).y =
      some (viz.viewport.height + (viz.measures.nodeh / 2) - (g : ℚ) * viz.measures.levh) := by
  cases g with
  | zero =>
    rw [ho.root_of_generation_zero _ _ _ _ _ _ k hg, ho.root_pos.2]
    simp
  | succ g =>
    obtain ⟨gen, hgen, hk⟩ := ho.mem_generation _ _ _ _ _ _ k (g + 1) hg
    exact ho.level (g + 1) gen hgen (by omega) k hk

theorem Outcome.parent (viz : Viz) (sprites : List LibSprite) (layout0 : Layout)
    (t : Traversal) (visited : List String) (layout : Layout)
    (ho : Outcome viz sprites layout0 t visited layout) (k : String) (g : Nat)
    (hg : (layout.deref k).generation = some (g + 1)) :
    ∃ p, (layout.deref k).parentId = some p ∧ layout p ≠ none ∧
      k ∈ (layout.deref p).children ∧ (layout.deref p).generation = some g := by
  have hk := ho.visited_of_generation _ _ _ _ _ _ k _ hg
  have hne : k ≠ "parent_0" := by
    intro h
    have h0 := ho.traversed.root_gen
    rw [h, (ho.fields _ _ _ _ _ _ _).2.2.1, h0] at hg
    simp at hg
  obtain ⟨p, g', hp, hpar, hchild, hpg, hkg⟩ := Visited.parent_gen viz sprites _ t visited
    ho.forest ho.traversed k ((ho.mem_visited _ _ _ _ _ _ k).1 hk) hne
  rw [(ho.fields _ _ _ _ _ _ k).2.2.1, hkg] at hg
  have hgg : g' = g := by
    have := Option.some.inj hg
    omega
  subst hgg
  refine ⟨p, by rw [(ho.fields _ _ _ _ _ _ k).2.1, hpar], ?_, ?_, ?_⟩
  · exact (isSome_of_map_eq _ _ _ p (ho.shape p)).2
      (Visited.node_exists viz sprites _ t visited ho.forest ho.traversed p
        ((ho.mem_visited _ _ _ _ _ _ p).1 hp))
  · rw [(ho.fields _ _ _ _ _ _ p).1]
    exact hchild
  · rw [(ho.fields _ _ _ _ _ _ p).2.2.1, hpg]

/-! ## Layout engine: properties of the result -/

theorem generation_y_of_plain (fuel : Nat) (viz : Viz) (sprites : List LibSprite)
    (hkeys : ∀ s ∈ sprites, inheritedKey s.md5 = false ∧ inheritedKey s.layParentId = false ∧
      ∀ k ∈ s.others, maintainedKey k = false)
    (hnodup : (sprites.map LibSprite.md5).Nodup)
    (hroot : "parent_0" ∉ sprites.map LibSprite.md5) (hfuel : sprites.length + 1 ≤ fuel) :
    ∃ layout, calcLayout fuel viz (some sprites) = .ok (some layout) ∧
      (∀ (k : String) (node : LayoutNode) (g : Nat), layout k = some node →
        node.generation = some g → 1 ≤ g →
        (∃ parentId parent py, node.parentId = some parentId ∧ layout parentId = some parent ∧
          parent.y = some py ∧ node.y = some (py - viz.measures.levh)) ∧
        node.y = some (viz.viewport.height + viz.measures.nodeh / 2
          - (g : ℚ) * viz.measures.levh)) ∧
      (∀ (k1 k2 : String) (n1 n2 : LayoutNode) (g : Nat), layout k1 = some n1 →
        layout k2 = some n2 → n1.generation = some g → n2.generation = some g →
        n1.y = n2.y) := by
  obtain ⟨layout0, t, visited, layout, hok, ho⟩ :=
    calcLayout_outcome fuel viz sprites hkeys hnodup hroot hfuel
  have hy : ∀ (k : String) (node : LayoutNode) (g : Nat), layout k = some node →
      node.generation = some g →
      node.y = some (viz.viewport.height + viz.measures.nodeh / 2
        - (g : ℚ) * viz.measures.levh) := by
    intro k node g hk hg
    have hd := Layout.deref_of_eq_some _ _ _ hk
    have h := ho.y_of_generation _ _ _ _ _ _ k g (by rw [hd]; exact hg)
    rw [hd] at h
    exact h
  refine ⟨layout, hok, ?_, ?_⟩
  · intro k node g hk hg h1
    refine ⟨?_, hy k node g hk hg⟩
    obtain ⟨g', rfl⟩ : ∃ g', g = g' + 1 := ⟨g - 1, by omega⟩
    have hd := Layout.deref_of_eq_some _ _ _ hk
    obtain ⟨p, hpar, hpsome, -, hpg⟩ := ho.parent _ _ _ _ _ _ k g' (by rw [hd]; exact hg)
    rw [hd] at hpar
    have hp := eq_some_deref layout p hpsome
    refine ⟨p, layout.deref p, _, hpar, hp, hy p _ g' hp hpg, ?_⟩
    rw [hy k node (g' + 1) hk hg]
    congr 1
    push_cast
    ring
  · intro k1 k2 n1 n2 g h1 h2 hg1 hg2
    rw [hy k1 n1 g h1 hg1, hy k2 n2 g h2 hg2]

/-- C7: for a descriptor list with pairwise distinct identities, none `'parent_0'`
(acyclicity of the parent references is not needed), in every layout that `calcLayout`
returns every node of generation `g ≥ 1` has `y = (y of its own parent) - levh` and
`y = root.y - g * levh`, where `root.y = viewport.height + nodeh / 2`; so all nodes of one
generation share the same `y`.  A layout is returned, within `length + 1` iterations of the
traversal, when the loop over the descriptors does not throw: no `md5` or `parentId` is a
property of `Object.prototype` and no other key of a descriptor is a field of a node. -/
theorem calcLayout_generation_y (viz : Viz) (sprites : List LibSprite)
    (hnodup : (sprites.map LibSprite.md5).Nodup)
    (hroot : "parent_0" ∉ sprites.map LibSprite.md5) :
    (∀ fuel layout, calcLayout fuel viz (some sprites) = .ok (some layout) →
      (∀ (k : String) (node : LayoutNode) (g : Nat), layout k = some node →
        node.generation = some g → 1 ≤ g →
        (∃ parentId parent py, node.parentId = some parentId ∧ layout parentId = some parent ∧
          parent.y = some py ∧ node.y = some (py - viz.measures.levh)) ∧
        node.y = some (viz.viewport.height + viz.measures.nodeh / 2
          - (g : ℚ) * viz.measures.levh)) ∧
      (∀ (k1 k2 : String) (n1 n2 : LayoutNode) (g : Nat), layout k1 = some n1 →
        layout k2 = some n2 → n1.generation = some g → n2.generation = some g →
        n1.y = n2.y)) ∧
    ((∀ s ∈ sprites, inheritedKey s.md5 = false ∧ inheritedKey s.layParentId = false ∧
        ∀ k ∈ s.others, maintainedKey k = false) →
      ∀ fuel, sprites.length + 1 ≤ fuel →
        ∃ layout, calcLayout fuel viz (some sprites) = .ok (some layout)) :=
  calcLayout_of_plain viz sprites _ (fun hkeys fuel hfuel =>
    generation_y_of_plain fuel viz sprites hkeys hnodup hroot hfuel)

/-- Witness for C7: the example descriptors `a`, `b`, `c`. -/
theorem calcLayout_generation_y_witness :
    ∃ layout, calcLayout 4 (calcViz 1000 800 400) (some exampleSprites) = .ok (some layout) ∧
      (∀ (k : String) (node : LayoutNode) (g : Nat), layout k = some node →
        node.generation = some g → 1 ≤ g →
        (∃ parentId parent py, node.parentId = some parentId ∧ layout parentId = some parent ∧
          parent.y = some py ∧ node.y = some (py - (calcViz 1000 800 400).measures.levh)) ∧
        node.y = some ((calcViz 1000 800 400).viewport.height
          + (calcViz 1000 800 400).measures.nodeh / 2
          - (g : ℚ) * (calcViz 1000 800 400).measures.levh)) ∧
      (∀ (k1 k2 : String) (n1 n2 : LayoutNode) (g : Nat), layout k1 = some n1 →
        layout k2 = some n2 → n1.generation = some g → n2.generation = some g →
        n1.y = n2.y) := by
  have h := calcLayout_generation_y (calcViz 1000 800 400) exampleSprites (by decide)
    (by decide)
  obtain ⟨layout, hok⟩ := h.2 (by decide) 4 (by decide)
  exact ⟨layout, hok, h.1 4 layout hok⟩

theorem no_overlap_of_plain (fuel : Nat) (viz : Viz) (innerWidth innerHeight stageWidth : ℚ)
    (sprites : List LibSprite)
    (hm : viz.measures = (calcViz innerWidth innerHeight stageWidth).measures)
    (hkeys : ∀ s ∈ sprites, inheritedKey s.md5 = false ∧ inheritedKey s.layParentId = false ∧
      ∀ k ∈ s.others, maintainedKey k = false)
    (hnodup : (sprites.map LibSprite.md5).Nodup)
    (hroot : "parent_0" ∉ sprites.map LibSprite.md5) (hfuel : sprites.length + 1 ≤ fuel) :
    ∃ layout, calcLayout fuel viz (some sprites) = .ok (some layout) ∧
      ∀ (k1 k2 : String) (n1 n2 : LayoutNode) (g : Nat), k1 ≠ k2 → layout k1 = some n1 →
        layout k2 = some n2 → n1.generation = some g → n2.generation = some g →
        ∃ x1 x2, n1.xoff = some x1 ∧ n2.xoff = some x2 ∧
          (x1 + viz.measures.nodew < x2 ∨ x2 + viz.measures.nodew < x1) := by
  obtain ⟨layout0, t, visited, layout, hok, ho⟩ :=
    calcLayout_outcome fuel viz sprites hkeys hnodup hroot hfuel
  have hcv : CalcVizMeasures viz.measures := by
    rw [hm]
    exact ⟨rfl, rfl, rfl, rfl⟩
  refine ⟨layout, hok, ?_⟩
  intro k1 k2 n1 n2 g hne h1 h2 hg1 hg2
  have hd1 := Layout.deref_of_eq_some _ _ _ h1
  have hd2 := Layout.deref_of_eq_some _ _ _ h2
  have hg1' : (layout.deref k1).generation = some g := by rw [hd1]; exact hg1
  have hg2' : (layout.deref k2).generation = some g := by rw [hd2]; exact hg2
  cases g with
  | zero =>
    exact absurd ((ho.root_of_generation_zero _ _ _ _ _ _ k1 hg1').trans
      (ho.root_of_generation_zero _ _ _ _ _ _ k2 hg2').symm) hne
  | succ g =>
    obtain ⟨gen, hgen, hk1⟩ := ho.mem_generation _ _ _ _ _ _ k1 (g + 1) hg1'
    obtain ⟨gen', hgen', hk2⟩ := ho.mem_generation _ _ _ _ _ _ k2 (g + 1) hg2'
    rw [hgen] at hgen'
    cases hgen'
    have hpair := ho.spaced hcv (g + 1) gen hgen (by omega)
    have hsym : gen.flatten.Pairwise (fun a b => ∃ xa xb, (layout.deref a).xoff = some xa ∧
        (layout.deref b).xoff = some xb ∧
        (xa + viz.measures.nodew < xb ∨ xb + viz.measures.nodew < xa)) :=
      hpair.imp (fun ⟨xa, xb, ha, hb, hab⟩ => ⟨xa, xb, ha, hb, Or.inl hab⟩)
    have h := hsym.forall (fun a b ⟨xa, xb, ha, hb, hab⟩ => ⟨xb, xa, hb, ha, hab.symm⟩)
      hk1 hk2 hne
    rw [hd1, hd2] at h
    exact h

/-- C2: with the measures of `calcViz` (`nodew = 100`, `nodeh = 150`, `deltaw = 25`,
`deltah = 15`), for a descriptor list with pairwise distinct identities, none `'parent_0'`
(acyclicity of the parent references is not needed), in every layout that `calcLayout`
returns any two distinct nodes with the same generation (the nodes reached by the traversal
are those with a generation) have horizontal intervals `[xoff, xoff + nodew]` that do not
overlap.  A layout is returned, within `length + 1` iterations of the traversal, when the
loop over the descriptors does not throw: no `md5` or `parentId` is a property of
`Object.prototype` and no other key of a descriptor is a field of a node. -/
theorem calcLayout_no_overlap (viz : Viz) (innerWidth innerHeight stageWidth : ℚ)
    (sprites : List LibSprite)
    (hm : viz.measures = (calcViz innerWidth innerHeight stageWidth).measures)
    (hnodup : (sprites.map LibSprite.md5).Nodup)
    (hroot : "parent_0" ∉ sprites.map LibSprite.md5) :
    (∀ fuel layout, calcLayout fuel viz (some sprites) = .ok (some layout) →
      ∀ (k1 k2 : String) (n1 n2 : LayoutNode) (g : Nat), k1 ≠ k2 → layout k1 = some n1 →
        layout k2 = some n2 → n1.generation = some g → n2.generation = some g →
        ∃ x1 x2, n1.xoff = some x1 ∧ n2.xoff = some x2 ∧
          (x1 + viz.measures.nodew < x2 ∨ x2 + viz.measures.nodew < x1)) ∧
    ((∀ s ∈ sprites, inheritedKey s.md5 = false ∧ inheritedKey s.layParentId = false ∧
        ∀ k ∈ s.others, maintainedKey k = false) →
      ∀ fuel, sprites.length + 1 ≤ fuel →
        ∃ layout, calcLayout fuel viz (some sprites) = .ok (some layout)) :=
  calcLayout_of_plain viz sprites _ (fun hkeys fuel hfuel =>
    no_overlap_of_plain fuel viz innerWidth innerHeight stageWidth sprites hm hkeys hnodup
      hroot hfuel)

/-- Witness for C2: the example descriptors `a`, `b`, `c`. -/
theorem calcLayout_no_overlap_witness :
    ∃ layout, calcLayout 4 (calcViz 1000 800 400) (some exampleSprites) = .ok (some layout) ∧
      ∀ (k1 k2 : String) (n1 n2 : LayoutNode) (g : Nat), k1 ≠ k2 → layout k1 = some n1 →
        layout k2 = some n2 → n1.generation = some g → n2.generation = some g →
        ∃ x1 x2, n1.xoff = some x1 ∧ n2.xoff = some x2 ∧
          (x1 + (calcViz 1000 800 400).measures.nodew < x2 ∨
            x2 + (calcViz 1000 800 400).measures.nodew < x1) := by
  have h := calcLayout_no_overlap (calcViz 1000 800 400) 1000 800 400 exampleSprites rfl
    (by decide) (by decide)
  obtain ⟨layout, hok⟩ := h.2 (by decide) 4 (by decide)
  exact ⟨layout, hok, h.1 4 layout hok⟩

theorem layParentId_cases (s : LibSprite) :
    s.layParentId = "parent_0" ∨ s.parentId = some s.layParentId := by
  unfold LibSprite.layParentId
  cases h : s.parentId with
  | none => exact Or.inl rfl
  | some p =>
    by_cases hp : p = ""
    · simp [hp]
    · simp [hp]

theorem Outcome.sprite_visited (viz : Viz) (sprites : List LibSprite) (layout0 : Layout)
    (t : Traversal) (visited : List String) (layout : Layout)
    (ho : Outcome viz sprites layout0 t visited layout)
    (hkeep : ∀ s ∈ sprites, s.emptyChildren = false)
    (hresolved : ∀ s ∈ sprites, ∀ p, s.parentId = some p → p ∈ sprites.map LibSprite.md5)
    (rank : String → Nat)
    (hrank : ∀ s ∈ sprites, ∀ p, s.parentId = some p → rank p < rank s.md5) :
    ∀ (r : Nat), ∀ s ∈ sprites, rank s.md5 ≤ r → s.md5 ∈ visited := by
  intro r
  induction r with
  | zero =>
    intro s hs hr
    obtain ⟨n, -, hchild⟩ := ho.forest.sprite_node hkeep s hs
    rcases layParentId_cases s with h | h
    · rw [h] at hchild
      exact (ho.mem_visited _ _ _ _ _ _ _).2 (ho.traversed.closed "parent_0"
        ((ho.mem_visited _ _ _ _ _ _ _).2 ho.traversed.root_mem) s.md5 hchild)
    · have := hrank s hs _ h
      omega
  | succ r ih =>
    intro s hs hr
    obtain ⟨n, -, hchild⟩ := ho.forest.sprite_node hkeep s hs
    rcases layParentId_cases s with h | h
    · rw [h] at hchild
      exact (ho.mem_visited _ _ _ _ _ _ _).2 (ho.traversed.closed "parent_0"
        ((ho.mem_visited _ _ _ _ _ _ _).2 ho.traversed.root_mem) s.md5 hchild)
    · have hlt := hrank s hs _ h
      obtain ⟨s', hs', hmd5⟩ := List.mem_map.1 (hresolved s hs _ h)
      have hp : s.layParentId ∈ visited := by
        rw [← hmd5]
        exact ih s' hs' (by rw [hmd5]; omega)
      exact (ho.mem_visited _ _ _ _ _ _ _).2 (ho.traversed.closed _ hp s.md5 hchild)

theorem generations_of_plain (fuel : Nat) (viz : Viz) (sprites : List LibSprite)
    (rank : String → Nat)
    (hkeys : ∀ s ∈ sprites, inheritedKey s.md5 = false ∧ inheritedKey s.layParentId = false ∧
      ∀ k ∈ s.others, maintainedKey k = false)
    (hkeep : ∀ s ∈ sprites, s.emptyChildren = false)
    (hnodup : (sprites.map LibSprite.md5).Nodup)
    (hroot : "parent_0" ∉ sprites.map LibSprite.md5)
    (hresolved : ∀ s ∈ sprites, ∀ p, s.parentId = some p → p ∈ sprites.map LibSprite.md5)
    (hacyclic : ∀ s ∈ sprites, ∀ p, s.parentId = some p → rank p < rank s.md5)
    (hfuel : sprites.length + 1 ≤ fuel) :
    ∃ layout, calcLayout fuel viz (some sprites) = .ok (some layout) ∧
      (∀ (k : String) (n : LayoutNode) (c : String), layout k = some n → c ∈ n.children →
        ∃ cn g, layout c = some cn ∧ n.generation = some g ∧ cn.generation = some (g + 1)) ∧
      (∃ p0, layout "parent_0" = some p0 ∧ p0.generation = some 0) ∧
      (∀ s ∈ sprites, ∃ n, layout s.md5 = some n ∧ n.visible = some true) := by
  obtain ⟨layout0, t, visited, layout, hok, ho⟩ :=
    calcLayout_outcome fuel viz sprites hkeys hnodup hroot hfuel
  have hsprite : ∀ s ∈ sprites, s.md5 ∈ visited := fun s hs =>
    ho.sprite_visited _ _ _ _ _ _ hkeep hresolved rank hacyclic (rank s.md5) s hs
      (Nat.le_refl _)
  have hrootv : "parent_0" ∈ visited :=
    (ho.mem_visited _ _ _ _ _ _ _).2 ho.traversed.root_mem
  have hexists : ∀ k ∈ visited, layout k ≠ none := fun k hk =>
    (isSome_of_map_eq _ _ _ k (ho.shape k)).2
      (Visited.node_exists viz sprites _ t visited ho.forest ho.traversed k
        ((ho.mem_visited _ _ _ _ _ _ k).1 hk))
  -- every key of the layout has been visited
  have hkeys : ∀ k, layout k ≠ none → k ∈ visited := by
    intro k hk
    rcases ho.forest.keys k ((ho.isSome_iff _ _ _ _ _ _ k).1 hk) with h | h | h
    · rw [h]
      exact hrootv
    · obtain ⟨s, hs, hmd5⟩ := List.mem_map.1 h
      rw [← hmd5]
      exact hsprite s hs
    · obtain ⟨s, hs, hpar⟩ := List.mem_map.1 h
      rcases layParentId_cases s with h' | h'
      · rw [← hpar, h']
        exact hrootv
      · obtain ⟨s', hs', hmd5⟩ := List.mem_map.1 (hresolved s hs _ h')
        rw [← hpar, ← hmd5]
        exact hsprite s' hs'
  refine ⟨layout, hok, ?_, ?_, ?_⟩
  · intro k n c hk hc
    have hd := Layout.deref_of_eq_some _ _ _ hk
    have hkv := hkeys k (by rw [hk]; simp)
    have hc0 : c ∈ (layout0.deref k).children := by
      rw [← (ho.fields _ _ _ _ _ _ k).1, hd]
      exact hc
    obtain ⟨-, g, hg, hcg⟩ := ho.traversed.edge k hkv c hc0
    have hcv := (ho.mem_visited _ _ _ _ _ _ c).2 (ho.traversed.closed k hkv c hc0)
    refine ⟨layout.deref c, g, eq_some_deref layout c (hexists c hcv), ?_, ?_⟩
    · rw [← hd, (ho.fields _ _ _ _ _ _ k).2.2.1, hg]
    · rw [(ho.fields _ _ _ _ _ _ c).2.2.1, hcg]
  · refine ⟨layout.deref "parent_0", eq_some_deref layout _ (hexists _ hrootv), ?_⟩
    rw [(ho.fields _ _ _ _ _ _ _).2.2.1, ho.traversed.root_gen]
  · intro s hs
    have hsv := hsprite s hs
    have hne : s.md5 ≠ "parent_0" := fun h => hroot (h ▸ List.mem_map_of_mem _ hs)
    obtain ⟨p, hp, hchild⟩ := ho.traversed.parent_visited s.md5
      ((ho.mem_visited _ _ _ _ _ _ _).1 hsv) hne
    refine ⟨layout.deref s.md5, eq_some_deref layout _ (hexists _ hsv), ?_⟩
    rw [(ho.fields _ _ _ _ _ _ _).2.2.2, (ho.traversed.edge p hp s.md5 hchild).1]

set_option maxRecDepth 100000 in
theorem shadowed_child :
    (match calcLayout 3 (calcViz 1000 800 400) (some shadowedSprites) with
      | .ok (some layout) =>
        [layout "a", layout "b"].map (fun n => n.map (fun n => (n.visible, n.generation)))
      | _ => []) =
    [some (some true, some 1), some (none, none)] := by
  with_unfolding_all rfl

/-- C3, counterexample: the descriptors `b` (parent `a`) and `a`, in this order, where `a`
has a key `children` holding an empty array, have distinct identities, none `'parent_0'`,
every `parentId` is the identity of a descriptor and the parent relation is acyclic.  The
copy of `a` replaces the children that its node got from `b`, so the traversal never reaches
`b`: in the layout returned the node of `b` is not visible and has no generation. -/
theorem calcLayout_generations_counterexample :
    (shadowedSprites.map LibSprite.md5).Nodup ∧
    "parent_0" ∉ shadowedSprites.map LibSprite.md5 ∧
    (∀ s ∈ shadowedSprites, ∀ p, s.parentId = some p →
      p ∈ shadowedSprites.map LibSprite.md5) ∧
    (∀ s ∈ shadowedSprites, ∀ p, s.parentId = some p →
      (if p = "a" then 0 else 1) < (if s.md5 = "a" then 0 else 1)) ∧
    ∃ layout b, calcLayout 3 (calcViz 1000 800 400) (some shadowedSprites) = .ok (some layout) ∧
      layout "b" = some b ∧ b.visible = none ∧ b.generation = none ∧
      ¬ (∀ s ∈ shadowedSprites, ∃ n, layout s.md5 = some n ∧ n.visible = some true) := by
  refine ⟨by decide, by decide, by decide, by decide, ?_⟩
  have h := shadowed_child
  cases hc : calcLayout 3 (calcViz 1000 800 400) (some shadowedSprites) with
  | error e =>
    rw [hc] at h
    simp at h
  | ok result =>
    cases result with
    | none =>
      rw [hc] at h
      simp at h
    | some layout =>
      rw [hc] at h
      simp only [List.map_cons, List.map_nil, List.cons.injEq, and_true] at h
      obtain ⟨-, hb⟩ := h
      cases hlb : layout "b" with
      | none => rw [hlb] at hb; simp at hb
      | some b =>
        rw [hlb] at hb
        simp only [Option.map_some', Option.some.injEq, Prod.mk.injEq] at hb
        refine ⟨layout, b, rfl, hlb, hb.1, hb.2, ?_⟩
        intro hall
        obtain ⟨n, hn, hvis⟩ := hall ⟨"b", some "a", "b", ⟨"b", "b"⟩, false, []⟩ (by decide)
        rw [hlb] at hn
        rw [← Option.some.inj hn, hb.1] at hvis
        simp at hvis

/-- C3, amended: for a descriptor list with pairwise distinct identities, none `'parent_0'`,
in which every present `parentId` is the identity of a descriptor of the list, the parent
relation is acyclic (some rank decreases from each descriptor to its parent) and no
descriptor has a key `children`, in every layout that `calcLayout` returns every node `n` and
every child `c` in `n.children` satisfy `c.generation = n.generation + 1`, the root
`'parent_0'` has generation 0, and the node of every descriptor is visible.  A layout is
returned, within `length + 1` iterations of the traversal, when the loop over the
descriptors does not throw: no `md5` or `parentId` is a property of `Object.prototype` and
no other key of a descriptor is a field of a node. -/
theorem calcLayout_generations (viz : Viz) (sprites : List LibSprite)
    (rank : String → Nat)
    (hnodup : (sprites.map LibSprite.md5).Nodup)
    (hroot : "parent_0" ∉ sprites.map LibSprite.md5)
    (hresolved : ∀ s ∈ sprites, ∀ p, s.parentId = some p → p ∈ sprites.map LibSprite.md5)
    (hacyclic : ∀ s ∈ sprites, ∀ p, s.parentId = some p → rank p < rank s.md5)
    (hkeep : ∀ s ∈ sprites, s.emptyChildren = false ∧ "children" ∉ s.others) :
    (∀ fuel layout, calcLayout fuel viz (some sprites) = .ok (some layout) →
      (∀ (k : String) (n : LayoutNode) (c : String), layout k = some n → c ∈ n.children →
        ∃ cn g, layout c = some cn ∧ n.generation = some g ∧ cn.generation = some (g + 1)) ∧
      (∃ p0, layout "parent_0" = some p0 ∧ p0.generation = some 0) ∧
      (∀ s ∈ sprites, ∃ n, layout s.md5 = some n ∧ n.visible = some true)) ∧
    ((∀ s ∈ sprites, inheritedKey s.md5 = false ∧ inheritedKey s.layParentId = false ∧
        ∀ k ∈ s.others, maintainedKey k = false) →
      ∀ fuel, sprites.length + 1 ≤ fuel →
        ∃ layout, calcLayout fuel viz (some sprites) = .ok (some layout)) :=
  calcLayout_of_plain viz sprites _ (fun hkeys fuel hfuel =>
    generations_of_plain fuel viz sprites rank hkeys (fun s hs => (hkeep s hs).1) hnodup hroot
      hresolved hacyclic hfuel)

/-- Witness for C3: the example descriptors `a`, `b`, `c`, with rank 0 for `a`. -/
theorem calcLayout_generations_witness :
    ∃ layout, calcLayout 4 (calcViz 1000 800 400) (some exampleSprites) = .ok (some layout) ∧
      (∀ (k : String) (n : LayoutNode) (c : String), layout k = some n → c ∈ n.children →
        ∃ cn g, layout c = some cn ∧ n.generation = some g ∧ cn.generation = some (g + 1)) ∧
      (∃ p0, layout "parent_0" = some p0 ∧ p0.generation = some 0) ∧
      (∀ s ∈ exampleSprites, ∃ n, layout s.md5 = some n ∧ n.visible = some true) := by
  have h := calcLayout_generations (calcViz 1000 800 400) exampleSprites
    (fun k => if k = "a" then 0 else 1) (by decide) (by decide) (by decide) (by decide)
    (by decide)
  obtain ⟨layout, hok⟩ := h.2 (by decide) 4 (by decide)
  exact ⟨layout, hok, h.1 4 layout hok⟩

/-! ## Viewport model: properties of the handlers -/

theorem zoom_initial_x_changes :
    (zoom (calcViz 1000 800 400) (95 / 100) ⟨0, 0⟩).viewBox.x = -266 ∧
    (calcViz 1000 800 400).viewBox.x = -280 := by
  rw [zoom_applied _ _ _ (by norm_num [calcViz, MIN_ZOOM])]
  norm_num [calcViz]

/-- C13, as stated, fails: on the initial state of a window 1000 wide with a stage 400 wide,
`zoom (0.95, (0, 0))` moves `viewBox.x` from `-280` to `-266`. -/
theorem zoom_initial_counterexample :
    ¬ ((zoom (calcViz 1000 800 400) (95 / 100) ⟨0, 0⟩).viewBox.x
        = (calcViz 1000 800 400).viewBox.x) := by
  rw [zoom_initial_x_changes.1, zoom_initial_x_changes.2]
  norm_num

/-- C13, amended: on the initial state of `calcViz` (zoom 1, viewBox
`(-viewport.width / 2, 0, viewport.width, viewport.height)`), `zoom (0.95, (0, 0))` yields
zoom `0.95`, multiplies `viewBox.width`, `viewBox.height` and `viewBox.x` by `0.95`, and
leaves `viewBox.y = 0` unchanged. -/
theorem zoom_initial (innerWidth innerHeight stageWidth : ℚ) :
    (calcViz innerWidth innerHeight stageWidth).zoom = 1 ∧
    (calcViz innerWidth innerHeight stageWidth).viewBox =
      { x := -(calcViz innerWidth innerHeight stageWidth).viewport.width / 2, y := 0,
        width := (calcViz innerWidth innerHeight stageWidth).viewport.width,
        height := (calcViz innerWidth innerHeight stageWidth).viewport.height } ∧
    (zoom (calcViz innerWidth innerHeight stageWidth) (95 / 100) ⟨0, 0⟩).zoom = 95 / 100 ∧
    (zoom (calcViz innerWidth innerHeight stageWidth) (95 / 100) ⟨0, 0⟩).viewBox.width
      = (calcViz innerWidth innerHeight stageWidth).viewBox.width * (95 / 100) ∧
    (zoom (calcViz innerWidth innerHeight stageWidth) (95 / 100) ⟨0, 0⟩).viewBox.height
      = (calcViz innerWidth innerHeight stageWidth).viewBox.height * (95 / 100) ∧
    (zoom (calcViz innerWidth innerHeight stageWidth) (95 / 100) ⟨0, 0⟩).viewBox.x
      = (calcViz innerWidth innerHeight stageWidth).viewBox.x * (95 / 100) ∧
    (zoom (calcViz innerWidth innerHeight stageWidth) (95 / 100) ⟨0, 0⟩).viewBox.y
      = (calcViz innerWidth innerHeight stageWidth).viewBox.y := by
  rw [zoom_applied _ _ _ (by norm_num [calcViz, MIN_ZOOM])]
  refine ⟨rfl, rfl, ?_, rfl, rfl, ?_, ?_⟩
  · norm_num [calcViz]
  · norm_num [calcViz]
  · norm_num [calcViz]

/-- C15: zoom with factor 1 is the identity.  For every state, whatever its zoom, and every
point `p`, `zoom (1.0, p)` leaves the state unchanged (so `viewBox` and `zoom`), and so does
any number of repetitions, at any points. -/
theorem zoom_one (viz : Viz) :
    (∀ p : Point, zoom viz 1 p = viz) ∧
    ∀ points : List Point, points.foldl (fun v p => zoom v 1 p) viz = viz := by
  have h1 : ∀ (v : Viz) (p : Point), zoom v 1 p = v := by
    intro v p
    rw [zoom_applied v 1 p (fun h => absurd h.2 (lt_irrefl _))]
    cases v with
    | mk viewport viewBox measures isPointerDown pointerOrigin zoom =>
      cases viewBox
      simp
  refine ⟨h1 viz, ?_⟩
  intro points
  induction points with
  | nil => rfl
  | cons p rest ih => rw [List.foldl_cons, h1, ih]

theorem handleTreeDragMove_down (viz : Viz) (p origin : Point)
    (hdown : viz.isPointerDown = true) (horigin : viz.pointerOrigin = some origin) :
    handleTreeDragMove viz p = .ok
      { viz with
        viewBox :=
          { x := viz.viewBox.x - (p.x - origin.x)
            y := viz.viewBox.y - (p.y - origin.y)
            height := viz.viewBox.height
            width := viz.viewBox.width } } := by
  unfold handleTreeDragMove
  rw [if_neg (by simp [hdown])]
  split
  · rename_i h
    rw [horigin] at h
    cases h
  · rename_i o h
    rw [horigin] at h
    cases h
    rfl

/-- C16: pointer move.  If `isPointerDown` is false, `handleTreeDragMove` leaves the state
unchanged.  Otherwise, with the pointer origin set, the new viewBox has
`x = old.x - (p.x - pointerOrigin.x)` and `y = old.y - (p.y - pointerOrigin.y)`, while
`viewBox.width`, `viewBox.height`, `zoom`, `isPointerDown`, `pointerOrigin`, `viewport` and
`measures` are unchanged. -/
theorem handleTreeDragMove_spec (viz : Viz) (p : Point) :
    (viz.isPointerDown = false → handleTreeDragMove viz p = .ok viz) ∧
    (∀ origin, viz.isPointerDown = true → viz.pointerOrigin = some origin →
      ∃ new, handleTreeDragMove viz p = .ok new ∧
        new.viewBox.x = viz.viewBox.x - (p.x - origin.x) ∧
        new.viewBox.y = viz.viewBox.y - (p.y - origin.y) ∧
        new.viewBox.width = viz.viewBox.width ∧ new.viewBox.height = viz.viewBox.height ∧
        new.zoom = viz.zoom ∧ new.isPointerDown = viz.isPointerDown ∧
        new.pointerOrigin = viz.pointerOrigin ∧ new.viewport = viz.viewport ∧
        new.measures = viz.measures) := by
  constructor
  · intro h
    simp [handleTreeDragMove, h]
  · intro origin hdown horigin
    exact ⟨_, handleTreeDragMove_down viz p origin hdown horigin, rfl, rfl, rfl, rfl, rfl, rfl,
      rfl, rfl, rfl⟩

/-- Witness for C16: a press at `(10, 20)` on the initial state, then a move to `(13, 24)`. -/
theorem handleTreeDragMove_spec_witness :
    ∃ new, handleTreeDragMove (handleTreeDragStart (calcViz 1000 800 400) true ⟨10, 20⟩) ⟨13, 24⟩
        = .ok new ∧
      new.viewBox.x = (calcViz 1000 800 400).viewBox.x - (13 - 10) ∧
      new.viewBox.y = (calcViz 1000 800 400).viewBox.y - (24 - 20) ∧
      handleTreeDragMove (calcViz 1000 800 400) ⟨13, 24⟩ = .ok (calcViz 1000 800 400) := by
  obtain ⟨new, hnew, hx, hy, -⟩ :=
    (handleTreeDragMove_spec (handleTreeDragStart (calcViz 1000 800 400) true ⟨10, 20⟩)
      ⟨13, 24⟩).2 ⟨10, 20⟩ rfl rfl
  exact ⟨new, hnew, hx, hy, (handleTreeDragMove_spec (calcViz 1000 800 400) ⟨13, 24⟩).1 rfl⟩

/-- The states that the transitions keep to: the viewBox has the size of the viewport times
the zoom, and a pressed pointer has an origin. -/
theorem transition_sized (viz : Viz) (transition : Transition)
    (hw : viz.viewBox.width = viz.viewport.width * viz.zoom)
    (hh : viz.viewBox.height = viz.viewport.height * viz.zoom)
    (ho : viz.isPointerDown = true → viz.pointerOrigin ≠ none) :
    ∃ new, transition.apply viz = .ok new ∧
      new.viewBox.width = new.viewport.width * new.zoom ∧
      new.viewBox.height = new.viewport.height * new.zoom ∧
      (new.isPointerDown = true → new.pointerOrigin ≠ none) := by
  have hzoom : ∀ (factor : ℚ) (p : Point),
      (zoom viz factor p).viewBox.width = (zoom viz factor p).viewport.width
        * (zoom viz factor p).zoom ∧
      (zoom viz factor p).viewBox.height = (zoom viz factor p).viewport.height
        * (zoom viz factor p).zoom ∧
      ((zoom viz factor p).isPointerDown = true → (zoom viz factor p).pointerOrigin ≠ none) := by
    intro factor p
    by_cases h : viz.zoom > MIN_ZOOM ∧ factor > 1
    · rw [zoom_blocked viz factor p h.1 h.2]
      exact ⟨hw, hh, ho⟩
    · rw [zoom_applied viz factor p h]
      refine ⟨?_, ?_, ho⟩
      · show viz.viewBox.width * factor = viz.viewport.width * (viz.zoom * factor)
        rw [hw]
        ring
      · show viz.viewBox.height * factor = viz.viewport.height * (viz.zoom * factor)
        rw [hh]
        ring
  cases transition with
  | zoom factor p => exact ⟨_, rfl, hzoom factor p⟩
  | wheel deltaY p =>
    refine ⟨_, rfl, ?_⟩
    unfold handleTreeWheel
    split
    · exact hzoom _ p
    · exact hzoom _ p
  | pointerDown onTarget point =>
    refine ⟨_, rfl, ?_⟩
    unfold handleTreeDragStart
    split
    · exact ⟨hw, hh, ho⟩
    · exact ⟨hw, hh, fun _ => by simp⟩
  | pointerMove pointerPosition =>
    show ∃ new, handleTreeDragMove viz pointerPosition = .ok new ∧ _
    cases hdown : viz.isPointerDown with
    | false => exact ⟨viz, by simp [handleTreeDragMove, hdown], hw, hh, ho⟩
    | true =>
      cases horigin : viz.pointerOrigin with
      | none => exact absurd horigin (ho hdown)
      | some origin =>
        refine ⟨_, handleTreeDragMove_down viz pointerPosition origin hdown horigin, hw, hh, ?_⟩
        intro _
        show viz.pointerOrigin ≠ none
        rw [horigin]
        simp
  | pointerUp =>
    refine ⟨_, rfl, ?_⟩
    unfold handleTreeDragStop
    split
    · exact ⟨hw, hh, ho⟩
    · exact ⟨hw, hh, fun h => by simp at h⟩
  | resize innerWidth innerHeight stageWidth =>
    exact ⟨_, rfl, rfl, rfl, ho⟩

theorem runTransitions_sized (transitions : List Transition) :
    ∀ viz : Viz, viz.viewBox.width = viz.viewport.width * viz.zoom →
      viz.viewBox.height = viz.viewport.height * viz.zoom →
      (viz.isPointerDown = true → viz.pointerOrigin ≠ none) →
      ∃ new, runTransitions viz transitions = .ok new ∧
        new.viewBox.width = new.viewport.width * new.zoom ∧
        new.viewBox.height = new.viewport.height * new.zoom := by
  induction transitions with
  | nil => intro viz hw hh _; exact ⟨viz, rfl, hw, hh⟩
  | cons transition rest ih =>
    intro viz hw hh ho
    obtain ⟨mid, hmid, hw', hh', ho'⟩ := transition_sized viz transition hw hh ho
    obtain ⟨new, hnew, hsize⟩ := ih mid hw' hh' ho'
    exact ⟨new, by simp only [runTransitions, hmid]; exact hnew, hsize⟩

/-- C19: viewport-size invariant.  Starting from `calcViz`, every sequence of `zoom`, wheel,
pointer-down, pointer-move, pointer-up and resize transitions runs to a state (no handler
throws), and in it `viewBox.width = viewport.width * zoom` and
`viewBox.height = viewport.height * zoom`. -/
theorem viewBox_size_invariant (innerWidth innerHeight stageWidth : ℚ)
    (transitions : List Transition) :
    ∃ viz, runTransitions (calcViz innerWidth innerHeight stageWidth) transitions = .ok viz ∧
      viz.viewBox.width = viz.viewport.width * viz.zoom ∧
      viz.viewBox.height = viz.viewport.height * viz.zoom :=
  runTransitions_sized transitions (calcViz innerWidth innerHeight stageWidth)
    (by simp [calcViz]) (by simp [calcViz]) (by simp [calcViz])

theorem wheel_zoom_bound (viz : Viz) (factor : ℚ) (p : Point)
    (hfactor : factor = 105 / 100 ∨ factor = 95 / 100)
    (hpos : 0 < viz.zoom) (hle : viz.zoom ≤ MIN_ZOOM * (105 / 100)) :
    0 < (zoom viz factor p).zoom ∧ (zoom viz factor p).zoom ≤ MIN_ZOOM * (105 / 100) ∧
    (zoom viz factor p).isPointerDown = viz.isPointerDown ∧
    (zoom viz factor p).pointerOrigin = viz.pointerOrigin := by
  by_cases h : viz.zoom > MIN_ZOOM ∧ factor > 1
  · rw [zoom_blocked viz factor p h.1 h.2]
    exact ⟨hpos, hle, rfl, rfl⟩
  · rw [zoom_applied viz factor p h]
    refine ⟨?_, ?_, rfl, rfl⟩
    · show 0 < viz.zoom * factor
      rcases hfactor with hf | hf <;> rw [hf] <;> linarith
    · show viz.zoom * factor ≤ MIN_ZOOM * (105 / 100)
      unfold MIN_ZOOM at h hle ⊢
      rcases hfactor with hf | hf
      · rw [hf] at h ⊢
        have hz : viz.zoom ≤ 2 := by
          by_contra hgt
          exact h ⟨lt_of_not_le hgt, by norm_num⟩
        linarith
      · rw [hf]
        linarith

theorem transition_zoom_bound (viz : Viz) (transition : Transition)
    (hevent : transition.isZoomCall = false)
    (hpos : 0 < viz.zoom) (hle : viz.zoom ≤ MIN_ZOOM * (105 / 100))
    (ho : viz.isPointerDown = true → viz.pointerOrigin ≠ none) :
    ∃ new, transition.apply viz = .ok new ∧ 0 < new.zoom ∧
      new.zoom ≤ MIN_ZOOM * (105 / 100) ∧
      (new.isPointerDown = true → new.pointerOrigin ≠ none) := by
  cases transition with
  | zoom factor p => simp [Transition.isZoomCall] at hevent
  | wheel deltaY p =>
    refine ⟨_, rfl, ?_⟩
    unfold handleTreeWheel
    split
    · obtain ⟨h1, h2, h3, h4⟩ := wheel_zoom_bound viz _ p (Or.inl rfl) hpos hle
      exact ⟨h1, h2, by rw [h3, h4]; exact ho⟩
    · obtain ⟨h1, h2, h3, h4⟩ := wheel_zoom_bound viz _ p (Or.inr rfl) hpos hle
      exact ⟨h1, h2, by rw [h3, h4]; exact ho⟩
  | pointerDown onTarget point =>
    refine ⟨_, rfl, ?_⟩
    unfold handleTreeDragStart
    split
    · exact ⟨hpos, hle, ho⟩
    · exact ⟨hpos, hle, fun _ => by simp⟩
  | pointerMove pointerPosition =>
    show ∃ new, handleTreeDragMove viz pointerPosition = .ok new ∧ _
    cases hdown : viz.isPointerDown with
    | false => exact ⟨viz, by simp [handleTreeDragMove, hdown], hpos, hle, ho⟩
    | true =>
      cases horigin : viz.pointerOrigin with
      | none => exact absurd horigin (ho hdown)
      | some origin =>
        refine ⟨_, handleTreeDragMove_down viz pointerPosition origin hdown horigin, hpos, hle, ?_⟩
        intro _
        show viz.pointerOrigin ≠ none
        rw [horigin]
        simp
  | pointerUp =>
    refine ⟨_, rfl, ?_⟩
    unfold handleTreeDragStop
    split
    · exact ⟨hpos, hle, ho⟩
    · exact ⟨hpos, hle, fun h => by simp at h⟩
  | resize innerWidth innerHeight stageWidth =>
    exact ⟨_, rfl, hpos, hle, ho⟩

theorem runTransitions_zoom_bound (transitions : List Transition) :
    ∀ viz : Viz, (∀ transition ∈ transitions, transition.isZoomCall = false) →
      0 < viz.zoom → viz.zoom ≤ MIN_ZOOM * (105 / 100) →
      (viz.isPointerDown = true → viz.pointerOrigin ≠ none) →
      ∃ new, runTransitions viz transitions = .ok new ∧ 0 < new.zoom ∧
        new.zoom ≤ MIN_ZOOM * (105 / 100) := by
  induction transitions with
  | nil => intro viz _ hpos hle _; exact ⟨viz, rfl, hpos, hle⟩
  | cons transition rest ih =>
    intro viz hevents hpos hle ho
    obtain ⟨mid, hmid, hpos', hle', ho'⟩ := transition_zoom_bound viz transition
      (hevents transition (List.mem_cons_self _ _)) hpos hle ho
    obtain ⟨new, hnew, hbound⟩ := ih mid
      (fun tr htr => hevents tr (List.mem_cons_of_mem _ htr)) hpos' hle' ho'
    exact ⟨new, by simp only [runTransitions, hmid]; exact hnew, hbound⟩

/-- C20: zoom bound.  Starting from the initial state (zoom 1), every sequence of wheel
events (each a `zoom (1.05, p)` or a `zoom (0.95, p)`), pointer events and resizes, without
other calls of `zoom`, runs to a state whose zoom is strictly positive and at most
`MIN_ZOOM * 1.05 = 2.1`. -/
theorem zoom_bound (innerWidth innerHeight stageWidth : ℚ) (transitions : List Transition)
    (hevents : ∀ transition ∈ transitions, transition.isZoomCall = false) :
    ∃ viz, runTransitions (calcViz innerWidth innerHeight stageWidth) transitions = .ok viz ∧
      0 < viz.zoom ∧ viz.zoom ≤ MIN_ZOOM * (105 / 100) ∧ MIN_ZOOM * (105 / 100) = 21 / 10 := by
  obtain ⟨viz, hrun, hpos, hle⟩ := runTransitions_zoom_bound transitions
    (calcViz innerWidth innerHeight stageWidth) hevents (by norm_num [calcViz])
    (by norm_num [calcViz, MIN_ZOOM]) (by simp [calcViz])
  exact ⟨viz, hrun, hpos, hle, by norm_num [MIN_ZOOM]⟩

/-- Witness for C20: a wheel turn out, a press, a move, a release, a resize and a wheel turn
in. -/
theorem zoom_bound_witness :
    ∃ viz, runTransitions (calcViz 1000 800 400)
        [.wheel 3 ⟨1, 2⟩, .pointerDown true ⟨10, 20⟩, .pointerMove ⟨13, 24⟩, .pointerUp,
          .resize 1200 900 400, .wheel (-3) ⟨1, 2⟩] = .ok viz ∧
      0 < viz.zoom ∧ viz.zoom ≤ MIN_ZOOM * (105 / 100) ∧ MIN_ZOOM * (105 / 100) = 21 / 10 :=
  zoom_bound 1000 800 400 _ (by decide)

/-! ## Name de-duplication: termination and prefixes -/

theorem findNewNameBody_cases (candidate : String) (i : Nat) :
    (i < 10 ∧ (∃ c, candidate.data.getLast? = some c ∧ '0' ≤ c ∧ c ≤ '8') ∧
      findNewNameBody candidate i = (String.mk candidate.data.dropLast ++ toString i, i + 1)) ∨
    findNewNameBody candidate i = (candidate ++ "0", 1) ∨
    findNewNameBody candidate i = (candidate ++ " 1", 1) := by
  cases hc : (charGe candidate.data.getLast? '0' && charLt candidate.data.getLast? '9'
      && decide (i < 10))
  · right
    have hbody : findNewNameBody candidate i =
        (candidate ++ (if charGe candidate.data.getLast? '0' && charLe candidate.data.getLast? '9'
          then "0" else " 1"), 1) := by
      simp only [findNewNameBody, hc]
      rfl
    rw [hbody]
    split
    · exact Or.inl rfl
    · exact Or.inr rfl
  · left
    have hbody : findNewNameBody candidate i =
        (String.mk candidate.data.dropLast ++ toString i, i + 1) := by
      simp only [findNewNameBody, hc, if_true]
    simp only [Bool.and_eq_true, decide_eq_true_eq] at hc
    obtain ⟨⟨h0, h9⟩, hi⟩ := hc
    refine ⟨hi, ?_, hbody⟩
    cases hl : candidate.data.getLast? with
    | none =>
      rw [hl] at h0
      simp [charGe] at h0
    | some c =>
      rw [hl] at h0 h9
      exact ⟨c, rfl, by simpa [charGe] using h0, (charLt_nine_iff_le_eight c).1 h9⟩

theorem toString_length_digit (i : Nat) (h : i < 10) : (toString i).length = 1 := by
  interval_cases i <;> rfl

theorem length_replace_last (candidate : String) (i : Nat) (hi : i < 10)
    (hlast : ∃ c, candidate.data.getLast? = some c) :
    (String.mk candidate.data.dropLast ++ toString i).length = candidate.length := by
  obtain ⟨c, hc⟩ := hlast
  have hne : candidate.data ≠ [] := by
    intro hnil
    rw [hnil] at hc
    simp at hc
  rw [String.length_append, toString_length_digit i hi]
  show candidate.data.dropLast.length + 1 = candidate.data.length
  rw [List.length_dropLast]
  have := List.length_pos.mpr hne
  omega

theorem findNewNameBody_measure (bound : Nat) (candidate : String) (i : Nat)
    (h : candidate.length ≤ bound) :
    (bound + 1 - (findNewNameBody candidate i).1.length) * 11
        + (10 - (findNewNameBody candidate i).2)
      < (bound + 1 - candidate.length) * 11 + (10 - i) := by
  rcases findNewNameBody_cases candidate i with ⟨hi, ⟨c, hc, -⟩, hbody⟩ | hbody | hbody
  · rw [hbody]
    simp only [length_replace_last candidate i hi ⟨c, hc⟩]
    omega
  · rw [hbody]
    have hlen : (candidate ++ "0").length = candidate.length + 1 := by
      rw [String.length_append]
      rfl
    simp only [hlen]
    omega
  · rw [hbody]
    have hlen : (candidate ++ " 1").length = candidate.length + 2 := by
      rw [String.length_append]
      rfl
    simp only [hlen]
    omega

theorem findNewNameFuel_eq (names : Finset String) :
    ∀ (fuel : Nat) (candidate : String) (i : Nat),
      (names.sup String.length + 1 - candidate.length) * 11 + (10 - i) < fuel →
      findNewNameFuel names fuel candidate i = some (findNewNameLoop names candidate i) := by
  intro fuel
  induction fuel with
  | zero => intro candidate i h; omega
  | succ fuel ih =>
    intro candidate i h
    unfold findNewNameFuel
    by_cases hmem : candidate ∈ names
    · rw [if_pos hmem, findNewNameLoop_of_mem names candidate i hmem]
      apply ih
      have := findNewNameBody_measure (names.sup String.length) candidate i
        (Finset.le_sup (f := String.length) hmem)
      omega
    · rw [if_neg hmem, findNewNameLoop_of_not_mem names candidate i hmem]

theorem digit_run_bound :
    ∀ (d : Nat) (candidate : String) (i : Nat), 10 - i ≤ d →
      ∃ k, k ≤ d ∧
        (∀ j, j ≤ k → ((fun s : String × Nat => findNewNameBody s.1 s.2)^[j]
          (candidate, i)).1.length = candidate.length) ∧
        candidate.length < ((fun s : String × Nat => findNewNameBody s.1 s.2)^[k + 1]
          (candidate, i)).1.length := by
  intro d
  induction d with
  | zero =>
    intro candidate i hd
    refine ⟨0, Nat.le_refl _, ?_, ?_⟩
    · intro j hj
      have : j = 0 := by omega
      subst this
      rfl
    · rcases findNewNameBody_cases candidate i with ⟨hi, -, -⟩ | hbody | hbody
      · omega
      · simp only [Function.iterate_succ, Function.iterate_zero, Function.comp_apply, id_eq, hbody]
        rw [String.length_append]
        exact Nat.lt_add_of_pos_right (by decide)
      · simp only [Function.iterate_succ, Function.iterate_zero, Function.comp_apply, id_eq, hbody]
        rw [String.length_append]
        exact Nat.lt_add_of_pos_right (by decide)
  | succ d ih =>
    intro candidate i hd
    rcases findNewNameBody_cases candidate i with ⟨hi, ⟨c, hc, -⟩, hbody⟩ | hbody | hbody
    · obtain ⟨k, hk, hsame, hlonger⟩ := ih (String.mk candidate.data.dropLast ++ toString i)
        (i + 1) (by omega)
      have hlen := length_replace_last candidate i hi ⟨c, hc⟩
      refine ⟨k + 1, by omega, ?_, ?_⟩
      · intro j hj
        cases j with
        | zero => rfl
        | succ j =>
          rw [Function.iterate_succ_apply]
          show ((fun s : String × Nat => findNewNameBody s.1 s.2)^[j]
            (findNewNameBody candidate i)).1.length = _
          rw [hbody, hsame j (by omega), hlen]
      · rw [Function.iterate_succ_apply]
        show _ < ((fun s : String × Nat => findNewNameBody s.1 s.2)^[k + 1]
          (findNewNameBody candidate i)).1.length
        rw [hbody, ← hlen]
        exact hlonger
    · refine ⟨0, Nat.zero_le _, ?_, ?_⟩
      · intro j hj
        have : j = 0 := by omega
        subst this
        rfl
      · simp only [Function.iterate_succ, Function.iterate_zero, Function.comp_apply, id_eq, hbody]
        rw [String.length_append]
        exact Nat.lt_add_of_pos_right (by decide)
    · refine ⟨0, Nat.zero_le _, ?_, ?_⟩
      · intro j hj
        have : j = 0 := by omega
        subst this
        rfl
      · simp only [Function.iterate_succ, Function.iterate_zero, Function.comp_apply, id_eq, hbody]
        rw [String.length_append]
        exact Nat.lt_add_of_pos_right (by decide)

/-- C18: `findNewName` terminates for every `name` and every finite set `names`: the loop
leaves after at most `11 * (longest length in names + 2)` tests of its condition, with the
value of `findNewName`.  The reason: the counter stays at least 1, and from any state with
counter at least 1 the body makes at most 9 replacements of the last character, which keep
the length, before a step that makes the candidate strictly longer. -/
theorem findNewName_terminates (name : String) (names : Finset String) :
    (∀ fuel, 11 * (names.sup String.length + 2) ≤ fuel →
      findNewNameFuel names fuel name 1 = some (findNewName name names)) ∧
    (∀ (candidate : String) (i : Nat), 1 ≤ i →
      1 ≤ (findNewNameBody candidate i).2 ∧
      ∃ k, k ≤ 9 ∧
        (∀ j, j ≤ k → ((fun s : String × Nat => findNewNameBody s.1 s.2)^[j]
          (candidate, i)).1.length = candidate.length) ∧
        candidate.length < ((fun s : String × Nat => findNewNameBody s.1 s.2)^[k + 1]
          (candidate, i)).1.length) := by
  constructor
  · intro fuel hfuel
    apply findNewNameFuel_eq
    have : 11 * (names.sup String.length + 2)
        = (names.sup String.length + 1) * 11 + 11 := by ring
    have hle : (names.sup String.length + 1 - name.length) * 11
        ≤ (names.sup String.length + 1) * 11 :=
      Nat.mul_le_mul_right _ (Nat.sub_le _ _)
    omega
  · intro candidate i hi
    constructor
    · rcases findNewNameBody_cases candidate i with ⟨-, -, hbody⟩ | hbody | hbody <;>
        simp [hbody]
    · obtain ⟨k, hk, h⟩ := digit_run_bound (10 - i) candidate i (Nat.le_refl _)
      exact ⟨k, by omega, h⟩

/-- Witness for C18: `findNewName ("sprite1", {"sprite1"})` with 99 tests allowed, and the
run of the body from `("sprite1", 1)`. -/
theorem findNewName_terminates_witness :
    findNewNameFuel {"sprite1"} 99 "sprite1" 1 = some (findNewName "sprite1" {"sprite1"}) ∧
    ∃ k, k ≤ 9 ∧
      (∀ j, j ≤ k → ((fun s : String × Nat => findNewNameBody s.1 s.2)^[j]
        ("sprite1", 1)).1.length = "sprite1".length) ∧
      "sprite1".length < ((fun s : String × Nat => findNewNameBody s.1 s.2)^[k + 1]
        ("sprite1", 1)).1.length :=
  ⟨(findNewName_terminates "sprite1" {"sprite1"}).1 99 (by decide),
   ((findNewName_terminates "sprite1" {"sprite1"}).2 "sprite1" 1 (by decide)).2⟩

/-- The body of the loop keeps every proper prefix of the candidate. -/
theorem properPrefix_body (stem candidate : String) (i : Nat)
    (h : ∃ suffix : String, suffix ≠ "" ∧ candidate = stem ++ suffix) :
    ∃ suffix : String, suffix ≠ "" ∧ (findNewNameBody candidate i).1 = stem ++ suffix := by
  obtain ⟨suffix, hne, hc⟩ := h
  have hdata : suffix.data ≠ [] := fun hnil => hne (String.ext hnil)
  rcases findNewNameBody_cases candidate i with ⟨hi, -, hbody⟩ | hbody | hbody
  · refine ⟨String.mk suffix.data.dropLast ++ toString i, ?_, ?_⟩
    · intro hempty
      have hlen := congrArg String.length hempty
      rw [String.length_append, toString_length_digit i hi] at hlen
      simp at hlen
    · rw [hbody]
      apply String.ext
      simp only [String.data_append, hc]
      rw [List.dropLast_append_of_ne_nil _ hdata, List.append_assoc]
  · refine ⟨suffix ++ "0", ?_, ?_⟩
    · intro hempty
      have hlen := congrArg String.length hempty
      rw [String.length_append] at hlen
      simp at hlen
      exact absurd hlen.2 (by decide)
    · rw [hbody, hc, String.append_assoc]
  · refine ⟨suffix ++ " 1", ?_, ?_⟩
    · intro hempty
      have hlen := congrArg String.length hempty
      rw [String.length_append] at hlen
      simp at hlen
      exact absurd hlen.2 (by decide)
    · rw [hbody, hc, String.append_assoc]

theorem properPrefix_loop (names : Finset String) (stem : String) (candidate : String) (i : Nat) :
    (∃ suffix : String, suffix ≠ "" ∧ candidate = stem ++ suffix) →
    ∃ suffix : String, suffix ≠ "" ∧ findNewNameLoop names candidate i = stem ++ suffix := by
  induction candidate, i using findNewNameLoop.induct names with
  | case1 c i h ih =>
    intro hp
    rw [findNewNameLoop_of_mem names c i h]
    exact ih (properPrefix_body stem c i hp)
  | case2 c i h =>
    intro hp
    rw [findNewNameLoop_of_not_mem names c i h]
    exact hp

theorem findNewName_sprite1 : findNewName "sprite1" {"sprite1"} = "sprite2" := by
  unfold findNewName
  rw [findNewNameLoop_of_mem _ _ _ (by decide)]
  have h1 : findNewNameBody "sprite1" 1 = ("sprite1", 2) := by decide
  rw [h1, findNewNameLoop_of_mem _ _ _ (by decide)]
  have h2 : findNewNameBody "sprite1" 2 = ("sprite2", 3) := by decide
  rw [h2, findNewNameLoop_of_not_mem _ _ _ (by decide)]

/-- C14, evaluated at the failing input: `"sprite1"` is in `{"sprite1"}` and is not a prefix
of `findNewName ("sprite1", {"sprite1"})`, which is `"sprite2"`: the loop has replaced the
last character, where the docstring of `findNewName` says that numbers are appended. -/
theorem findNewName_extends_counterexample :
    "sprite1" ∈ ({"sprite1"} : Finset String) ∧
    ¬ ∃ suffix : String, findNewName "sprite1" {"sprite1"} = "sprite1" ++ suffix := by
  refine ⟨by decide, ?_⟩
  rintro ⟨suffix, h⟩
  rw [findNewName_sprite1] at h
  have hdata := congrArg String.data h
  rw [String.data_append] at hdata
  simp at hdata

/-- What the loop of `findNewName` appends to, for every `name` in `names`: when the last
character of `name` is not a digit in `'0'..'8'` (an empty `name` has none), `name` is a
proper prefix of `findNewName (name, names)`; when it is, `name` without its last character
is a proper prefix of `findNewName (name, names)`, which differs from `name`. -/
theorem findNewName_extends (name : String) (names : Finset String) (hmem : name ∈ names) :
    ((∀ c, name.data.getLast? = some c → ¬ ('0' ≤ c ∧ c ≤ '8')) →
      ∃ suffix : String, suffix ≠ "" ∧ findNewName name names = name ++ suffix) ∧
    ((∃ c, name.data.getLast? = some c ∧ '0' ≤ c ∧ c ≤ '8') →
      (∃ suffix : String, suffix ≠ "" ∧
        findNewName name names = String.mk name.data.dropLast ++ suffix) ∧
      findNewName name names ≠ name) := by
  have hloop : findNewName name names =
      findNewNameLoop names (findNewNameBody name 1).1 (findNewNameBody name 1).2 :=
    findNewNameLoop_of_mem names name 1 hmem
  constructor
  · intro hlast
    rw [hloop]
    apply properPrefix_loop
    rw [findNewNameBody_suffix name 1 hlast]
    refine ⟨_, ?_, rfl⟩
    split <;> decide
  · rintro ⟨c, hc, h0, h8⟩
    constructor
    · rw [hloop]
      apply properPrefix_loop
      rcases findNewNameBody_cases name 1 with ⟨-, -, hbody⟩ | hbody | hbody
      · rw [hbody]
        exact ⟨toString 1, by decide, rfl⟩
      · exfalso
        have h := findNewNameBody_push_digit (String.mk name.data.dropLast) c 1
          (by simpa [charGe] using h0) ((charLt_nine_iff_le_eight c).2 h8) (by decide)
        have hname : (String.mk name.data.dropLast).push c = name := by
          apply String.ext
          show name.data.dropLast ++ [c] = name.data
          exact List.dropLast_append_getLast? c hc
        rw [hname, hbody] at h
        have hlen := congrArg (fun s : String × Nat => s.2) h
        simp at hlen
      · exfalso
        have h := findNewNameBody_push_digit (String.mk name.data.dropLast) c 1
          (by simpa [charGe] using h0) ((charLt_nine_iff_le_eight c).2 h8) (by decide)
        have hname : (String.mk name.data.dropLast).push c = name := by
          apply String.ext
          show name.data.dropLast ++ [c] = name.data
          exact List.dropLast_append_getLast? c hc
        rw [hname, hbody] at h
        have hlen := congrArg (fun s : String × Nat => s.2) h
        simp at hlen
    · intro heq
      exact findNewNameLoop_not_mem names name 1 (by
        show findNewName name names ∈ names
        rw [heq]
        exact hmem)

/-- The two cases at work: `"cat"` is a proper prefix of `findNewName ("cat", {"cat"})`, and
`"sprite"` one of `findNewName ("sprite1", {"sprite1"})`. -/
theorem findNewName_extends_witness :
    (∃ suffix : String, suffix ≠ "" ∧ findNewName "cat" {"cat"} = "cat" ++ suffix) ∧
    (∃ suffix : String, suffix ≠ "" ∧
      findNewName "sprite1" {"sprite1"} = "sprite" ++ suffix) :=
  ⟨(findNewName_extends "cat" {"cat"} (by decide)).1 (by decide),
   ((findNewName_extends "sprite1" {"sprite1"} (by decide)).2 ⟨'1', by decide⟩).1⟩

/-! ## Layout engine: the example of a single group -/

theorem example_generations :
    (traverse 4 (Traversal.start (exampleSprites.foldl addLibSprite
      (Layout.empty.set "parent_0" (rootNode (calcViz 1000 800 400)))))).map
        (fun t => t.generations) = some [[["parent_0"]], [["a"]], [["b", "c"]]] := by
  decide

set_option maxRecDepth 100000 in
theorem example_nodes :
    (match calcLayout 4 (calcViz 1000 800 400) (some exampleSprites) with
      | .ok (some layout) =>
        [layout "a", layout "b", layout "c"].map
          (fun n => n.map (fun n => (n.generation, n.x)))
      | _ => []) =
    [some (some 1, some 0), some (some 2, some (-90)), some (some 2, some 60)] := by
  with_unfolding_all rfl

/-- C12, evaluated at the example of the claim: with the measures of `calcViz` the layout of
the descriptors `a` (no parent), `b` (parent `a`), `c` (parent `a`) has `a` at generation 1
with `x = 0`, and `b` and `c` at generation 2, in one group, with `x = -90` and `x = 60`.
The midpoint of `b` and `c` is `-15`, which is not `a.x`. -/
theorem calcLayout_example_group :
    ∃ layout a b c,
      calcLayout 4 (calcViz 1000 800 400) (some exampleSprites) = .ok (some layout) ∧
      (traverse 4 (Traversal.start (exampleSprites.foldl addLibSprite
        (Layout.empty.set "parent_0" (rootNode (calcViz 1000 800 400)))))).map
          (fun t => t.generations) = some [[["parent_0"]], [["a"]], [["b", "c"]]] ∧
      layout "a" = some a ∧ layout "b" = some b ∧ layout "c" = some c ∧
      a.generation = some 1 ∧ b.generation = some 2 ∧ c.generation = some 2 ∧
      a.x = some 0 ∧ b.x = some (-90) ∧ c.x = some 60 ∧
      ((-90 : ℚ) + 60) / 2 = -15 ∧ (-15 : ℚ) ≠ 0 := by
  have h := example_nodes
  cases hc : calcLayout 4 (calcViz 1000 800 400) (some exampleSprites) with
  | error e =>
    rw [hc] at h
    simp at h
  | ok result =>
    cases result with
    | none =>
      rw [hc] at h
      simp at h
    | some layout =>
      rw [hc] at h
      simp only [List.map_cons, List.map_nil, List.cons.injEq, and_true] at h
      obtain ⟨ha, hb, hc'⟩ := h
      cases hla : layout "a" with
      | none => rw [hla] at ha; simp at ha
      | some a =>
        cases hlb : layout "b" with
        | none => rw [hlb] at hb; simp at hb
        | some b =>
          cases hlc : layout "c" with
          | none => rw [hlc] at hc'; simp at hc'
          | some c =>
            rw [hla] at ha
            rw [hlb] at hb
            rw [hlc] at hc'
            simp only [Option.map_some', Option.some.injEq, Prod.mk.injEq] at ha hb hc'
            exact ⟨layout, a, b, c, rfl, example_generations, hla, hlb, hlc, ha.1, hb.1, hc'.1,
              ha.2, hb.2, hc'.2, by norm_num, by norm_num⟩

/-! ## Layout engine: what every run keeps -/

theorem Repositioned.of_eq (m : Measures) (layout : Layout) : Repositioned m layout layout :=
  fun _ => Or.inl rfl

theorem Repositioned.trans (m : Measures) (l1 l2 l3 : Layout) (h12 : Repositioned m l1 l2)
    (h23 : Repositioned m l2 l3) : Repositioned m l1 l3 := by
  intro k
  rcases h23 k with h | ⟨x, y, h⟩
  · rw [h]
    exact h12 k
  · right
    refine ⟨x, y, ?_⟩
    rw [h]
    rcases h12 k with h' | ⟨x', y', h'⟩
    · rw [h']
    · rw [h']
      cases l1 k <;> simp [setPos]

theorem Repositioned.modify (m : Measures) (layout : Layout) (node : String) (x y : ℚ) :
    Repositioned m layout (layout.modify node (setPos m x y)) := by
  intro k
  by_cases hk : k = node
  · right
    exact ⟨x, y, by rw [Layout.modify_apply, if_pos hk]⟩
  · left
    exact Layout.modify_of_ne _ _ _ _ hk

theorem placeNodes_repositioned (m : Measures) (x : Nat → ℚ) (y : ℚ) (group : List String) :
    ∀ (layout : Layout) (i : Nat), Repositioned m layout (placeNodes m x y layout i group) := by
  induction group with
  | nil => intro layout i; exact Repositioned.of_eq m layout
  | cons node rest ih =>
    intro layout i
    rw [placeNodes]
    exact Repositioned.trans m _ _ _ (Repositioned.modify m layout node (x i) y) (ih _ (i + 1))

theorem layoutLeft_repositioned (m : Measures) (midY : ℚ) (groups : List (List String)) :
    ∀ (layout : Layout) (rightLimit : ℚ) (layout' : Layout),
      layoutLeft m midY layout rightLimit groups = .ok layout' →
      Repositioned m layout layout' := by
  induction groups with
  | nil =>
    intro layout rightLimit layout' h
    simp only [layoutLeft, Except.ok.injEq] at h
    rw [← h]
    exact Repositioned.of_eq m layout
  | cons group rest ih =>
    intro layout rightLimit layout' h
    cases hgp : groupParent layout group with
    | error e => simp [layoutLeft, hgp, bind, Except.bind] at h
    | ok parent =>
      cases hx : parent.x with
      | none => simp [layoutLeft, hgp, hx, coordinate, bind, Except.bind] at h
      | some px =>
        rw [layoutLeft_cons m midY layout rightLimit group rest parent px hgp hx] at h
        exact Repositioned.trans m _ _ _ (placeNodes_repositioned m _ _ group layout 0)
          (ih _ _ _ h)

theorem layoutRight_repositioned (m : Measures) (midY : ℚ) (groups : List (List String)) :
    ∀ (layout : Layout) (leftLimit : ℚ) (layout' : Layout),
      layoutRight m midY layout leftLimit groups = .ok layout' →
      Repositioned m layout layout' := by
  induction groups with
  | nil =>
    intro layout leftLimit layout' h
    simp only [layoutRight, Except.ok.injEq] at h
    rw [← h]
    exact Repositioned.of_eq m layout
  | cons group rest ih =>
    intro layout leftLimit layout' h
    cases hgp : groupParent layout group with
    | error e => simp [layoutRight, hgp, bind, Except.bind] at h
    | ok parent =>
      cases hx : parent.x with
      | none => simp [layoutRight, hgp, hx, coordinate, bind, Except.bind] at h
      | some px =>
        rw [layoutRight_cons m midY layout leftLimit group rest parent px hgp hx] at h
        exact Repositioned.trans m _ _ _ (placeNodes_repositioned m _ _ group layout 0)
          (ih _ _ _ h)

theorem updateFrontierLayout_repositioned (viz : Viz) (layout : Layout)
    (generation : List (List String)) (genNum : Nat) (layout' : Layout)
    (h : updateFrontierLayout viz layout generation genNum = .ok layout') :
    Repositioned viz.measures layout layout' := by
  unfold updateFrontierLayout at h
  split at h
  · simp only [Except.ok.injEq] at h
    rw [← h]
    exact Repositioned.of_eq _ layout
  · cases hmid : generation[generation.length / 2]? with
    | none => simp [hmid, bind, Except.bind] at h
    | some midGroup =>
      cases hgp : groupParent layout midGroup with
      | error e => simp [hmid, hgp, bind, Except.bind] at h
      | ok parent =>
        cases hx : parent.x with
        | none => simp [hmid, hgp, hx, coordinate, bind, Except.bind] at h
        | some px =>
          cases hy : parent.y with
          | none => simp [hmid, hgp, hx, hy, coordinate, bind, Except.bind] at h
          | some py =>
            simp only [hmid, hgp, hx, hy, coordinate, bind, Except.bind] at h
            split at h
            · simp at h
            · rename_i layout1 hleft
              exact Repositioned.trans _ _ _ _
                (layoutLeft_repositioned _ _ _ _ _ _ hleft)
                (layoutRight_repositioned _ _ _ _ _ _ h)

theorem layoutGenerations_repositioned (viz : Viz) (generations : List (List (List String))) :
    ∀ (layout : Layout) (i : Nat) (layout' : Layout),
      layoutGenerations viz layout i generations = .ok layout' →
      Repositioned viz.measures layout layout' := by
  induction generations with
  | nil =>
    intro layout i layout' h
    simp only [layoutGenerations, Except.ok.injEq] at h
    rw [← h]
    exact Repositioned.of_eq _ layout
  | cons generation rest ih =>
    intro layout i layout' h
    cases hup : updateFrontierLayout viz layout generation i with
    | error e => simp [layoutGenerations, hup, bind, Except.bind] at h
    | ok layout1 =>
      simp only [layoutGenerations, hup, bind, Except.bind] at h
      exact Repositioned.trans _ _ _ _
        (updateFrontierLayout_repositioned viz layout generation i layout1 hup) (ih _ _ _ h)

theorem Repositioned.erasePos_eq (m : Measures) (layout layout' : Layout)
    (h : Repositioned m layout layout') (k : String) :
    (layout' k).map LayoutNode.erasePos = (layout k).map LayoutNode.erasePos := by
  rcases h k with hk | ⟨x, y, hk⟩
  · rw [hk]
  · rw [hk]
    cases layout k <;> simp [setPos, LayoutNode.erasePos]

theorem Repositioned.x_defined (m : Measures) (layout layout' : Layout)
    (h : Repositioned m layout layout')
    (hxy : ∀ k, (layout.deref k).y ≠ none → (layout.deref k).x ≠ none) :
    ∀ k, (layout'.deref k).y ≠ none → (layout'.deref k).x ≠ none := by
  intro k hy
  rcases h k with hk | ⟨x, y, hk⟩
  · rw [Layout.deref_congr _ _ _ hk] at hy ⊢
    exact hxy k hy
  · cases hl : layout k with
    | none =>
      rw [hl] at hk
      have hd : layout'.deref k = layout.deref k := by
        simp [Layout.deref, hk, hl]
      rw [hd] at hy ⊢
      exact hxy k hy
    | some n =>
      rw [hl] at hk
      rw [Layout.deref_of_eq_some _ _ _ hk]
      simp [setPos]

theorem visitChildren_same (node : String) (children : List String) :
    ∀ (layout : Layout) (k : String),
      (visitChildren node layout children k).map LayoutNode.eraseVisit =
        (layout k).map LayoutNode.eraseVisit := by
  induction children with
  | nil => intro layout k; rfl
  | cons c rest ih =>
    intro layout k
    rw [visitChildren, ih, Layout.modify_apply]
    split
    · cases layout k <;> simp [markChild, LayoutNode.eraseVisit]
    · rfl

theorem traverse_same :
    ∀ (fuel : Nat) (t t' : Traversal), traverse fuel t = some t' →
      ∀ k, (t'.layout k).map LayoutNode.eraseVisit = (t.layout k).map LayoutNode.eraseVisit := by
  intro fuel
  induction fuel with
  | zero =>
    intro t t' h k
    unfold traverse at h
    split at h
    · rw [← Option.some.inj h]
    · simp at h
  | succ fuel ih =>
    intro t t' h k
    unfold traverse at h
    split at h
    · rw [← Option.some.inj h]
    · rename_i node rest hq
      rw [ih _ _ h k]
      exact visitChildren_same node _ t.layout k

theorem calcLayout_run_of_ok (fuel : Nat) (viz : Viz) (sprites : List LibSprite)
    (layout : Layout) (hok : calcLayout fuel viz (some sprites) = .ok (some layout)) :
    ∃ t, traverse fuel (Traversal.start (sprites.foldl addLibSprite
        (Layout.empty.set "parent_0" (rootNode viz)))) = some t ∧
      layoutGenerations viz t.layout 0 t.generations = .ok layout := by
  unfold calcLayout at hok
  simp only at hok
  split at hok
  · simp at hok
  · rename_i layout0 hbuild
    rw [(addLibSprites_ok sprites _ _ hbuild).1] at hok
    split at hok
    · simp at hok
    · rename_i t ht
      split at hok
      · simp at hok
      · rename_i layout1 hl
        simp only [Except.ok.injEq, Option.some.injEq] at hok
        exact ⟨t, ht, by rw [hl, hok]⟩

theorem calcLayout_same (fuel : Nat) (viz : Viz) (sprites : List LibSprite)
    (layout : Layout) (hok : calcLayout fuel viz (some sprites) = .ok (some layout)) (k : String) :
    (layout k ≠ none ↔ (sprites.foldl addLibSprite
      (Layout.empty.set "parent_0" (rootNode viz))) k ≠ none) ∧
    (layout.deref k).parentId = ((sprites.foldl addLibSprite
      (Layout.empty.set "parent_0" (rootNode viz))).deref k).parentId := by
  obtain ⟨t, ht, hl⟩ := calcLayout_run_of_ok fuel viz sprites layout hok
  have h1 := (layoutGenerations_repositioned viz _ _ _ _ hl).erasePos_eq _ _ _ k
  have h2 := traverse_same fuel _ t ht k
  refine ⟨(isSome_of_map_eq _ _ _ k h1).trans (isSome_of_map_eq _ _ _ k h2), ?_⟩
  rw [(erasePos_fields _ _ (deref_map_eq _ _ _ k h1)).2.1,
    (eraseVisit_fields _ _ (deref_map_eq _ _ _ k h2)).2.1]
  rfl

theorem build_parents :
    ∀ (todo done : List LibSprite) (layout : Layout),
      (done.map LibSprite.md5 ++ todo.map LibSprite.md5).Nodup →
      (∀ s ∈ done, layout s.md5 ≠ none ∧ (layout.deref s.md5).parentId = some s.layParentId ∧
        layout s.layParentId ≠ none) →
      (∀ k, k ∉ done.map LibSprite.md5 → k ≠ "parent_0" → (layout.deref k).parentId = none) →
      (∀ s ∈ done ++ todo, (todo.foldl addLibSprite layout) s.md5 ≠ none ∧
        ((todo.foldl addLibSprite layout).deref s.md5).parentId = some s.layParentId ∧
        (todo.foldl addLibSprite layout) s.layParentId ≠ none) ∧
      ∀ k, k ∉ (done ++ todo).map LibSprite.md5 → k ≠ "parent_0" →
        ((todo.foldl addLibSprite layout).deref k).parentId = none := by
  intro todo
  induction todo with
  | nil =>
    intro done layout _ hdone hstub
    rw [List.append_nil]
    exact ⟨hdone, hstub⟩
  | cons s0 rest ih =>
    intro done layout hnodup hdone hstub
    have hnodup' : ((done ++ [s0]).map LibSprite.md5 ++ rest.map LibSprite.md5).Nodup := by
      simpa using hnodup
    have h := ih (done ++ [s0]) (addLibSprite layout s0) hnodup' ?_ ?_
    · simpa using h
    · intro s hs
      rw [List.mem_append, List.mem_singleton] at hs
      rcases hs with hs | hs
      · obtain ⟨h1, h2, h3⟩ := hdone s hs
        have hne : s.md5 ≠ s0.md5 := by
          intro heq
          have hd := (List.nodup_append.1 hnodup).2.2
          exact hd (List.mem_map_of_mem _ hs) (heq ▸ by simp)
        refine ⟨(addLibSprite_isSome _ _ _).2 (Or.inl h1), ?_,
          (addLibSprite_isSome _ _ _).2 (Or.inl h3)⟩
        rw [addLibSprite_parentId, if_neg hne, h2]
      · subst hs
        refine ⟨(addLibSprite_isSome _ _ _).2 (Or.inr (Or.inr rfl)), ?_,
          (addLibSprite_isSome _ _ _).2 (Or.inr (Or.inl rfl))⟩
        rw [addLibSprite_parentId, if_pos rfl]
    · intro k hk hroot
      rw [List.map_append, List.mem_append] at hk
      rw [addLibSprite_parentId, if_neg (fun h => hk (Or.inr (by simp [h])))]
      exact hstub k (fun h => hk (Or.inl h)) hroot

/-! ## Layout engine: the parent of every descriptor -/

set_option maxRecDepth 100000 in
theorem orphan_stub :
    (match calcLayout 2 (calcViz 1000 800 400) (some orphanSprites) with
      | .ok (some layout) => (layout "z").map (fun n => n.parentId)
      | _ => none) = some none := by
  with_unfolding_all rfl

/-- C11, counterexample: the one descriptor `c` with the parent `z`, which is not the
identity of a descriptor, is a list with distinct identities and acyclic parent references;
the layout returned for it has the entry `z`, which is not `'parent_0'`, and this entry has
no `parentId` at all. -/
theorem calcLayout_stub_counterexample :
    (orphanSprites.map LibSprite.md5).Nodup ∧
    (∀ s ∈ orphanSprites, ∀ p, s.parentId = some p →
      (if p = "c" then 1 else 0) < (if s.md5 = "c" then 1 else 0)) ∧
    ∃ layout stub, calcLayout 2 (calcViz 1000 800 400) (some orphanSprites) = .ok (some layout) ∧
      layout "z" = some stub ∧ "z" ≠ "parent_0" ∧ stub.parentId = none ∧
      ¬ ∃ key, layout key ≠ none ∧ stub.parentId = some key := by
  refine ⟨by decide, by decide, ?_⟩
  have h := orphan_stub
  cases hc : calcLayout 2 (calcViz 1000 800 400) (some orphanSprites) with
  | error e =>
    rw [hc] at h
    simp at h
  | ok result =>
    cases result with
    | none =>
      rw [hc] at h
      simp at h
    | some layout =>
      rw [hc] at h
      simp only at h
      cases hz : layout "z" with
      | none => rw [hz] at h; simp at h
      | some stub =>
        rw [hz] at h
        simp only [Option.map_some', Option.some.injEq] at h
        refine ⟨layout, stub, rfl, hz, by decide, h, ?_⟩
        rintro ⟨key, -, hkey⟩
        rw [h] at hkey
        simp at hkey

/-- C11, amended: for a descriptor list with pairwise distinct identities and acyclic parent
references, in every layout returned by `calcLayout` the entry of a descriptor other than
`'parent_0'` has as `parentId` the descriptor's `parentId` (`'parent_0'` when that is absent
or empty), which is the key of exactly one other entry of the layout; an entry other than
`'parent_0'` that is the entry of no descriptor (a stub) has no `parentId`; and no `md5` or
`parentId` of the list is a property of `Object.prototype`, for which the loop over the
descriptors throws instead of making a node.  A layout is returned, within `length + 1`
iterations of the traversal, when no identity is `'parent_0'` and the loop over the
descriptors does not throw: no `md5` or `parentId` is a property of `Object.prototype` and
no other key of a descriptor is a field of a node. -/
theorem calcLayout_descriptor_parent (viz : Viz) (sprites : List LibSprite)
    (rank : String → Nat) (hnodup : (sprites.map LibSprite.md5).Nodup)
    (hacyclic : ∀ s ∈ sprites, ∀ p, s.parentId = some p → rank p < rank s.md5) :
    (∀ fuel layout, calcLayout fuel viz (some sprites) = .ok (some layout) →
      (∀ s ∈ sprites, s.md5 ≠ "parent_0" →
        ∃ node, layout s.md5 = some node ∧ node.parentId = some s.layParentId ∧
          ∃! key, key ≠ s.md5 ∧ layout key ≠ none ∧ node.parentId = some key) ∧
      (∀ key, layout key ≠ none → key ≠ "parent_0" → key ∉ sprites.map LibSprite.md5 →
        (layout.deref key).parentId = none) ∧
      ∀ s ∈ sprites, inheritedKey s.md5 = false ∧ inheritedKey s.layParentId = false) ∧
    ("parent_0" ∉ sprites.map LibSprite.md5 →
      (∀ s ∈ sprites, inheritedKey s.md5 = false ∧ inheritedKey s.layParentId = false ∧
        ∀ k ∈ s.others, maintainedKey k = false) →
      ∀ fuel, sprites.length + 1 ≤ fuel →
        ∃ layout, calcLayout fuel viz (some sprites) = .ok (some layout)) := by
  constructor
  · intro fuel layout hok
    obtain ⟨hbuilt, hstub⟩ := build_parents sprites [] (Layout.empty.set "parent_0" (rootNode viz))
      (by simpa using hnodup) (by simp) (by
        intro k _ hk
        simp [Layout.deref, Layout.set_apply, hk, Layout.empty])
    constructor
    · intro s hs hne
      obtain ⟨h1, h2, h3⟩ := hbuilt s (by simpa using hs)
      have hself := calcLayout_same fuel viz sprites layout hok s.md5
      have hpar := calcLayout_same fuel viz sprites layout hok s.layParentId
      have hnode := eq_some_deref layout s.md5 (hself.1.2 h1)
      have hparentId : (layout.deref s.md5).parentId = some s.layParentId := by
        rw [hself.2, h2]
      have hother : s.layParentId ≠ s.md5 := by
        rcases layParentId_cases s with h | h
        · rw [h]
          exact fun h' => hne h'.symm
        · intro heq
          have hlt := hacyclic s hs s.layParentId h
          rw [heq] at hlt
          exact absurd hlt (lt_irrefl _)
      refine ⟨layout.deref s.md5, hnode, hparentId, s.layParentId,
        ⟨hother, hpar.1.2 h3, hparentId⟩, ?_⟩
      rintro key ⟨-, -, hkey⟩
      rw [hparentId] at hkey
      exact (Option.some.inj hkey).symm
    · refine ⟨?_, fun s hs =>
        ⟨((calcLayout_returned fuel viz sprites layout hok).1 s hs).1,
          ((calcLayout_returned fuel viz sprites layout hok).1 s hs).2.1⟩⟩
      intro key _ hroot hkey
      rw [(calcLayout_same fuel viz sprites layout hok key).2]
      exact hstub key (by simpa using hkey) hroot
  · intro hroot hkeys fuel hfuel
    obtain ⟨_, _, _, layout, hok, -⟩ :=
      calcLayout_outcome fuel viz sprites hkeys hnodup hroot hfuel
    exact ⟨layout, hok⟩

theorem calcLayout_descriptor_parent_witness :
    ∃ layout, calcLayout 2 (calcViz 1000 800 400) (some orphanSprites) = .ok (some layout) ∧
      (∀ s ∈ orphanSprites, s.md5 ≠ "parent_0" →
        ∃ node, layout s.md5 = some node ∧ node.parentId = some s.layParentId ∧
          ∃! key, key ≠ s.md5 ∧ layout key ≠ none ∧ node.parentId = some key) ∧
      (∀ key, layout key ≠ none → key ≠ "parent_0" → key ∉ orphanSprites.map LibSprite.md5 →
        (layout.deref key).parentId = none) ∧
      ∀ s ∈ orphanSprites, inheritedKey s.md5 = false ∧ inheritedKey s.layParentId = false := by
  have h := calcLayout_descriptor_parent (calcViz 1000 800 400) orphanSprites
    (fun k => if k = "c" then 1 else 0) (by decide) (by decide)
  obtain ⟨layout, hok⟩ := h.2 (by decide) (by decide) 2 (by decide)
  exact ⟨layout, hok, h.1 2 layout hok⟩

/-! ## Layout engine: the parent lookups of the frontier layout -/

theorem RootGeneration.next (viz : Viz) (sprites : List LibSprite) (layout0 : Layout)
    (t : Traversal) (visited : List String) (node : String) (rest : List String)
    (hf : Forest viz sprites layout0) (hroot : "parent_0" ∉ sprites.map LibSprite.md5)
    (hv : Visited layout0 t visited) (hq : t.queue = node :: rest)
    (hr : RootGeneration t visited) :
    RootGeneration (traversalStep t node rest) (visited ++ [node]) := by
  have hv' := Visited.step viz sprites layout0 t visited node rest hf hroot hv hq
  refine ⟨fun h => absurd h (by simp), fun _ => ?_⟩
  rw [traversalStep_pending]
  by_cases hvis : visited = []
  · obtain ⟨hgs, hg, hcur, hgn, hqueue⟩ := hr.1 hvis
    rw [hq] at hqueue
    obtain ⟨hnode, -⟩ := List.cons.inj hqueue
    subst hnode
    have hgen0 := hv'.root_gen
    have hpar : ((traversalStep t "parent_0" rest).layout.deref "parent_0").parentId =
        some "" := by
      obtain ⟨r, hr0, -, -, -, -, hpr⟩ := hf.root
      rw [(eraseVisit_fields _ _ (deref_map_eq _ _ _ "parent_0" (hv'.same "parent_0"))).2.1,
        Layout.deref_of_eq_some _ _ _ hr0, hpr]
    have hgen' : (traversalStep t "parent_0" rest).generation = [["parent_0"]] := by
      have hlay : (traversalStep t "parent_0" rest).layout =
          visitChildren "parent_0" t.layout (t.layout.deref "parent_0").children := rfl
      rw [hlay] at hgen0 hpar
      simp only [traversalStep, hgen0, hpar, hgn, hcur, hg]
      simp [numGt, pushToLastGroup]
    rw [hgen0, hgn, hgs, hgen']
    simp [numGt]
  · have h0 := hr.2 hvis
    have hpend : t.pending = t.generations ++ [t.generation] := by
      unfold Traversal.pending
      rw [hq]
      rfl
    rw [hpend] at h0
    by_cases hnew : numGt ((traversalStep t node rest).layout.deref node).generation t.genNum = true
    · rw [if_pos hnew]
      exact getElem?_append_singleton_of_some _ _ _ 0 h0
    · rw [if_neg hnew]
      cases hgs : t.generations with
      | nil =>
        exfalso
        apply hnew
        rw [hgs] at h0
        simp only [List.nil_append, List.getElem?_cons_zero, Option.some.injEq] at h0
        obtain ⟨g, hg, hlen⟩ := hv.genNum
        rw [hpend, hgs] at hlen
        have hg0 : g = 0 := by simpa using hlen.symm
        have hflat := hv.flat
        rw [hpend, hgs, h0] at hflat
        have hnd := hv.nodup
        rw [← hflat, hq] at hnd
        have hne : node ≠ "parent_0" := by
          intro h
          rw [h] at hnd
          simp at hnd
        obtain ⟨p, g', -, -, -, -, hgen⟩ := Visited.parent_gen viz sprites layout0 _ _ hf hv' node
          (List.mem_append_left _ (List.mem_append_right _ (List.mem_singleton_self _))) hne
        rw [hgen, hg, hg0]
        simp [numGt]
      | cons first others =>
        rw [hgs] at h0
        simpa using h0

theorem RootGeneration.traverse_keeps (viz : Viz) (sprites : List LibSprite) (layout0 : Layout)
    (hf : Forest viz sprites layout0) (hroot : "parent_0" ∉ sprites.map LibSprite.md5) :
    ∀ (fuel : Nat) (t : Traversal) (visited : List String) (t' : Traversal),
      Visited layout0 t visited → RootGeneration t visited → traverse fuel t = some t' →
      ∃ visited', Visited layout0 t' visited' ∧ RootGeneration t' visited' := by
  intro fuel
  induction fuel with
  | zero =>
    intro t visited t' hv hr h
    unfold traverse at h
    split at h
    · rw [← Option.some.inj h]
      exact ⟨visited, hv, hr⟩
    · simp at h
  | succ fuel ih =>
    intro t visited t' hv hr h
    unfold traverse at h
    split at h
    · rw [← Option.some.inj h]
      exact ⟨visited, hv, hr⟩
    · rename_i node rest hq
      exact ih _ (visited ++ [node]) t'
        (Visited.step viz sprites layout0 t visited node rest hf hroot hv hq)
        (RootGeneration.next viz sprites layout0 t visited node rest hf hroot hv hq hr) h

theorem Linked.take (layout : Layout) :
    ∀ (gens : List (List (List String))) (prev : List String) (j : Nat),
      Linked layout prev gens → Linked layout prev (gens.take j) := by
  intro gens
  induction gens with
  | nil => intro prev j _; simp [Linked]
  | cons gen rest ih =>
    intro prev j hl
    cases j with
    | zero => simp [Linked]
    | succ j =>
      obtain ⟨hne, hgroups, hrest⟩ := hl
      exact ⟨hne, hgroups, ih _ j hrest⟩

theorem flatten_take_append (gens : List (List (List String))) (j : Nat) :
    gens.flatten.flatten = (gens.take j).flatten.flatten ++ (gens.drop j).flatten.flatten := by
  conv_lhs => rw [← List.take_append_drop j gens]
  rw [List.flatten_append, List.flatten_append]

theorem parent_lookups_of_plain (fuel : Nat) (viz : Viz) (sprites : List LibSprite)
    (hkeys : ∀ s ∈ sprites, inheritedKey s.md5 = false ∧ inheritedKey s.layParentId = false ∧
      ∀ k ∈ s.others, maintainedKey k = false)
    (hnodup : (sprites.map LibSprite.md5).Nodup)
    (hroot : "parent_0" ∉ sprites.map LibSprite.md5) (hfuel : sprites.length + 1 ≤ fuel) :
    ∃ t layout,
      traverse fuel (Traversal.start (sprites.foldl addLibSprite
        (Layout.empty.set "parent_0" (rootNode viz)))) = some t ∧
      calcLayout fuel viz (some sprites) = .ok (some layout) ∧
      (∀ gen ∈ t.generations, gen ≠ [] ∧ ∀ group ∈ gen, group ≠ []) ∧
      ∀ (i : Nat) (gen : List (List String)), t.generations[i]? = some gen → 1 ≤ i →
        ∃ before, layoutGenerations viz t.layout 0 (t.generations.take i) = .ok before ∧
          ∀ group ∈ gen, ∃ parent px py, groupParent before group = .ok parent ∧
            parent.x = some px ∧ parent.y = some py := by
  obtain ⟨t, visited, layout, htrav, -, hok, ho⟩ :=
    calcLayout_run fuel viz sprites hkeys hnodup hroot hfuel
  have hf := ho.forest
  have hv := ho.traversed
  have hq := ho.finished
  have hpend : t.pending = t.generations := by
    unfold Traversal.pending
    rw [hq]
    rfl
  refine ⟨t, layout, htrav, hok, ?_, ?_⟩
  · -- the first generation is the group of the root, the others are covered by the invariant
    obtain ⟨visited', hv', hr'⟩ := RootGeneration.traverse_keeps viz sprites _ hf hroot fuel _ []
      t (Visited.start viz sprites _ hf) ⟨fun _ => ⟨rfl, rfl, rfl, rfl, rfl⟩,
        fun h => absurd rfl h⟩ htrav
    have hne' : visited' ≠ [] := by
      intro h
      have hmem := hv'.root_mem
      rw [h, hq] at hmem
      simp at hmem
    have h0 := hr'.2 hne'
    rw [hpend] at h0
    intro gen hgen
    obtain ⟨i, hi⟩ := List.mem_iff_getElem?.1 hgen
    cases i with
    | zero =>
      rw [h0] at hi
      rw [← Option.some.inj hi]
      simp
    | succ i => exact hv.groups (i + 1) gen (by rw [hpend]; exact hi) (by omega)
  · intro i gen hi h1
    obtain ⟨j, rfl⟩ : ∃ j, i = j + 1 := ⟨i - 1, by omega⟩
    cases hgens : t.generations with
    | nil =>
      rw [hgens] at hi
      simp at hi
    | cons first rest =>
      rw [hgens, List.getElem?_cons_succ] at hi
      obtain ⟨hraw, hnd, hsome, hfirst, hrootpos, hroot_rest, hxy⟩ :=
        Visited.frontier_ready viz sprites _ t visited hf hv hq first rest hgens
      have hsplit := flatten_take_append rest j
      have hnd' : (first.flatten ++ (rest.take j).flatten.flatten).Nodup := by
        rw [hsplit, ← List.append_assoc] at hnd
        exact (List.nodup_append.1 hnd).1
      have hsub : ∀ k, k ∈ (rest.take j).flatten.flatten → k ∈ rest.flatten.flatten := by
        intro k hk
        rw [hsplit]
        exact List.mem_append_left _ hk
      obtain ⟨before, hbefore, hshape, hout, hlev⟩ := layoutGenerations_spec viz
        (viz.viewport.height + (viz.measures.nodeh / 2)) (rest.take j) t.layout 0 first.flatten
        (Linked.take t.layout rest _ j (Linked.of_index t.layout rest first hraw)) hnd'
        (fun k hk => hsome k (by
          rw [List.mem_append] at hk ⊢
          exact hk.imp id (hsub k)))
        (fun p hp => by
          rw [hfirst p hp, hrootpos.1, hrootpos.2]
          simp)
      have hxy' := (layoutGenerations_repositioned viz _ _ _ _ hbefore).x_defined _ _ _ hxy
      refine ⟨before, by rw [List.take_succ_cons, layoutGenerations_zero_cons, hbefore], ?_⟩
      intro group hgroup
      obtain ⟨-, hgroups⟩ := hraw j gen hi
      obtain ⟨node, parentId, hhead, hpar, pg, hpg, hmem⟩ := hgroups group hgroup
      -- the parent is in the generation before, which is laid out
      have hpy : ∃ py, (before.deref parentId).y = some py := by
        cases j with
        | zero =>
          simp only [List.getElem?_cons_zero, Option.some.injEq] at hpg
          rw [← hpg] at hmem
          rw [hfirst parentId hmem, Layout.deref_congr _ _ _ (hout "parent_0"
            (fun h => hroot_rest (hsub _ h)))]
          exact ⟨_, hrootpos.2⟩
        | succ j =>
          rw [List.getElem?_cons_succ] at hpg
          have hpg' : (rest.take (j + 1))[j]? = some pg := by
            rw [List.getElem?_take_of_lt (by omega)]
            exact hpg
          exact ⟨_, (hlev j pg hpg').1 parentId hmem⟩
      obtain ⟨py, hpy⟩ := hpy
      have hpx : (before.deref parentId).x ≠ none := hxy' parentId (by rw [hpy]; simp)
      obtain ⟨px, hpx⟩ := Option.ne_none_iff_exists'.1 hpx
      have hex : before parentId ≠ none := by
        refine (isSome_of_map_eq _ _ _ parentId (hshape parentId)).2 ?_
        have hp : parentId ∈ first.flatten ++ rest.flatten.flatten := by
          have hall : (first :: rest).flatten.flatten = first.flatten ++ rest.flatten.flatten := by
            rw [List.flatten_cons, List.flatten_append]
          rw [← hall]
          obtain ⟨g, hg, hpg'⟩ := List.mem_flatten.1 hmem
          exact List.mem_flatten.2 ⟨g, List.mem_flatten.2 ⟨pg, List.getElem?_mem hpg, hg⟩, hpg'⟩
        exact hsome parentId hp
      have hready : Ready before [] py [group] := by
        intro group' hgroup'
        rw [List.mem_singleton] at hgroup'
        subst hgroup'
        refine ⟨node, parentId, before.deref parentId, px, hhead, ?_,
          eq_some_deref before parentId hex, hpx, hpy, by simp⟩
        rw [(erasePos_fields _ _ (deref_map_eq _ _ _ node (hshape node))).2.1, hpar]
      obtain ⟨-, parent, px', hgp, hx', hy'⟩ :=
        hready.groupParent_ok _ _ _ _ group (List.mem_singleton_self _)
      exact ⟨parent, px', py, hgp, hx', hy'⟩

/-- C17: for a descriptor list with pairwise distinct identities, none `'parent_0'`
(acyclicity of the parent references is not needed), whenever the loop over the descriptors
has built the layout `layout0`, the traversal ends within `length + 1` iterations and
`calcLayout` returns a layout, so that no lookup of `updateFrontierLayout` fails.  Every
generation built by the traversal is a non-empty list of non-empty groups, and for every
generation `i ≥ 1`, in the layout as it is when `updateFrontierLayout` is called for it (the
generations before it are laid out), the parent `layout[group[0].parentId]` of every group
exists and has `x` and `y` defined.  The loop over the descriptors builds a layout when it
does not throw: no `md5` or `parentId` is a property of `Object.prototype` and no other key
of a descriptor is a field of a node. -/
theorem calcLayout_parent_lookups (viz : Viz) (sprites : List LibSprite)
    (hnodup : (sprites.map LibSprite.md5).Nodup)
    (hroot : "parent_0" ∉ sprites.map LibSprite.md5) :
    (∀ fuel layout0,
      addLibSprites (Layout.empty.set "parent_0" (rootNode viz)) sprites = .ok layout0 →
      sprites.length + 1 ≤ fuel →
      ∃ t layout,
        traverse fuel (Traversal.start layout0) = some t ∧
        calcLayout fuel viz (some sprites) = .ok (some layout) ∧
        (∀ gen ∈ t.generations, gen ≠ [] ∧ ∀ group ∈ gen, group ≠ []) ∧
        ∀ (i : Nat) (gen : List (List String)), t.generations[i]? = some gen → 1 ≤ i →
          ∃ before, layoutGenerations viz t.layout 0 (t.generations.take i) = .ok before ∧
            ∀ group ∈ gen, ∃ parent px py, groupParent before group = .ok parent ∧
              parent.x = some px ∧ parent.y = some py) ∧
    ((∀ s ∈ sprites, inheritedKey s.md5 = false ∧ inheritedKey s.layParentId = false ∧
        ∀ k ∈ s.others, maintainedKey k = false) →
      ∃ layout0,
        addLibSprites (Layout.empty.set "parent_0" (rootNode viz)) sprites = .ok layout0) := by
  constructor
  · intro fuel layout0 hbuild hfuel
    obtain ⟨h0, hkeys⟩ := addLibSprites_ok sprites _ _ hbuild
    rw [h0]
    exact parent_lookups_of_plain fuel viz sprites hkeys hnodup hroot hfuel
  · intro hkeys
    exact ⟨_, addLibSprites_of_plain sprites _ hkeys⟩

/-- Witness for C17: the example descriptors `a`, `b`, `c`. -/
theorem calcLayout_parent_lookups_witness :
    ∃ layout0 t layout,
      addLibSprites (Layout.empty.set "parent_0" (rootNode (calcViz 1000 800 400)))
        exampleSprites = .ok layout0 ∧
      traverse 4 (Traversal.start layout0) = some t ∧
      calcLayout 4 (calcViz 1000 800 400) (some exampleSprites) = .ok (some layout) ∧
      (∀ gen ∈ t.generations, gen ≠ [] ∧ ∀ group ∈ gen, group ≠ []) ∧
      ∀ (i : Nat) (gen : List (List String)), t.generations[i]? = some gen → 1 ≤ i →
        ∃ before, layoutGenerations (calcViz 1000 800 400) t.layout 0 (t.generations.take i) =
            .ok before ∧
          ∀ group ∈ gen, ∃ parent px py, groupParent before group = .ok parent ∧
            parent.x = some px ∧ parent.y = some py := by
  have h := calcLayout_parent_lookups (calcViz 1000 800 400) exampleSprites (by decide)
    (by decide)
  obtain ⟨layout0, hbuild⟩ := h.2 (by decide)
  obtain ⟨t, layout, hrest⟩ := h.1 4 layout0 hbuild (by decide)
  exact ⟨layout0, t, layout, hbuild, hrest⟩

/-! ## Layout engine: left to right in the order of the traversal -/

theorem Visited.dequeued_eq (viz : Viz) (sprites : List LibSprite) (layout0 : Layout)
    (hf : Forest viz sprites layout0) (hroot : "parent_0" ∉ sprites.map LibSprite.md5) :
    ∀ (fuel : Nat) (t : Traversal) (visited : List String) (t' : Traversal),
      Visited layout0 t visited → traverse fuel t = some t' →
      Visited layout0 t' (visited ++ dequeued fuel t) := by
  intro fuel
  induction fuel with
  | zero =>
    intro t visited t' hv h
    unfold traverse at h
    split at h
    · rw [← Option.some.inj h, dequeued, List.append_nil]
      exact hv
    · simp at h
  | succ fuel ih =>
    intro t visited t' hv h
    unfold traverse at h
    split at h
    · rename_i hq
      rw [← Option.some.inj h, dequeued, hq, List.append_nil]
      exact hv
    · rename_i node rest hq
      have hstep := ih _ (visited ++ [node]) t'
        (Visited.step viz sprites layout0 t visited node rest hf hroot hv hq) h
      rw [dequeued, hq]
      simpa using hstep

theorem Repositioned.x_of_xoff (m : Measures) (layout layout' : Layout)
    (h : Repositioned m layout layout') (k : String)
    (hxoff : (layout.deref k).xoff = none) (xo : ℚ) (hk : (layout'.deref k).xoff = some xo) :
    (layout'.deref k).x = some (xo + m.nodew / 2) := by
  rcases h k with h' | ⟨x, y, h'⟩
  · rw [Layout.deref_congr _ _ _ h', hxoff] at hk
    simp at hk
  · cases hl : layout k with
    | none =>
      rw [hl] at h'
      have hd : layout'.deref k = layout.deref k := by
        simp [Layout.deref, h', hl]
      rw [hd, hxoff] at hk
      simp at hk
    | some n =>
      rw [hl] at h'
      rw [Layout.deref_of_eq_some _ _ _ h'] at hk ⊢
      simp only [setPos, Option.some.injEq] at hk ⊢
      rw [← hk]
      ring

theorem traversal_order_of_plain (fuel : Nat) (viz : Viz)
    (innerWidth innerHeight stageWidth : ℚ) (sprites : List LibSprite)
    (hm : viz.measures = (calcViz innerWidth innerHeight stageWidth).measures)
    (hkeys : ∀ s ∈ sprites, inheritedKey s.md5 = false ∧ inheritedKey s.layParentId = false ∧
      ∀ k ∈ s.others, maintainedKey k = false)
    (hnodup : (sprites.map LibSprite.md5).Nodup)
    (hroot : "parent_0" ∉ sprites.map LibSprite.md5) (hfuel : sprites.length + 1 ≤ fuel) :
    ∃ t layout,
      traverse fuel (Traversal.start (sprites.foldl addLibSprite
        (Layout.empty.set "parent_0" (rootNode viz)))) = some t ∧
      calcLayout fuel viz (some sprites) = .ok (some layout) ∧
      dequeued fuel (Traversal.start (sprites.foldl addLibSprite
        (Layout.empty.set "parent_0" (rootNode viz)))) = t.generations.flatten.flatten ∧
      ∀ (i j : Nat) (a b : String) (na nb : LayoutNode) (g : Nat),
        (dequeued fuel (Traversal.start (sprites.foldl addLibSprite
          (Layout.empty.set "parent_0" (rootNode viz)))))[i]? = some a →
        (dequeued fuel (Traversal.start (sprites.foldl addLibSprite
          (Layout.empty.set "parent_0" (rootNode viz)))))[j]? = some b → i < j →
        layout a = some na → layout b = some nb →
        na.generation = some g → nb.generation = some g →
        ∃ xa xb, na.x = some xa ∧ nb.x = some xb ∧ xa < xb := by
  obtain ⟨t, visited, layout, htrav, hgenl, hok, ho⟩ :=
    calcLayout_run fuel viz sprites hkeys hnodup hroot hfuel
  have hf := ho.forest
  have hv := ho.traversed
  have hq := ho.finished
  have hcv : CalcVizMeasures viz.measures := by
    rw [hm]
    exact ⟨rfl, rfl, rfl, rfl⟩
  have hpend : t.pending = t.generations := by
    unfold Traversal.pending
    rw [hq]
    rfl
  have hdq := Visited.dequeued_eq viz sprites _ hf hroot fuel _ [] t
    (Visited.start viz sprites _ hf) htrav
  rw [List.nil_append] at hdq
  have hflat : dequeued fuel (Traversal.start (sprites.foldl addLibSprite
      (Layout.empty.set "parent_0" (rootNode viz)))) = t.generations.flatten.flatten := by
    rw [← hpend]
    exact hdq.flat.symm
  have hnd : (t.generations.map List.flatten).flatten.Nodup := by
    have h := hdq.nodup
    rw [hq, List.append_nil, hflat, List.flatten_flatten] at h
    exact h
  have hrep := layoutGenerations_repositioned viz _ _ _ _ hgenl
  have hgen : ∀ (i : Nat) (gen : List (List String)), t.generations[i]? = some gen →
      ∀ n ∈ gen.flatten, (layout.deref n).generation = some i := by
    intro i gen hi n hn
    rw [(ho.fields _ _ _ _ _ _ n).2.2.1]
    exact hv.index i gen (by rw [hpend]; exact hi) n hn
  -- the dequeued nodes, pairwise
  have hpw : t.generations.flatten.flatten.Pairwise (fun a b => ∀ g,
      (layout.deref a).generation = some g → (layout.deref b).generation = some g →
      ∃ xa xb, (layout.deref a).x = some xa ∧ (layout.deref b).x = some xb ∧ xa < xb) := by
    rw [List.flatten_flatten, List.pairwise_flatten]
    constructor
    · intro l hl
      obtain ⟨gen, hgenmem, rfl⟩ := List.mem_map.1 hl
      obtain ⟨i, hi⟩ := List.mem_iff_getElem?.1 hgenmem
      have hlnd : gen.flatten.Nodup := (List.nodup_flatten.1 hnd).1 _ hl
      cases i with
      | zero =>
        refine List.Pairwise.imp_of_mem ?_ hlnd
        intro a b ha hb hne
        exact absurd ((ho.root_of_generation_zero _ _ _ _ _ _ a (hgen 0 gen hi a ha)).trans
          (ho.root_of_generation_zero _ _ _ _ _ _ b (hgen 0 gen hi b hb)).symm) hne
      | succ i =>
        have hxoff : ∀ n ∈ gen.flatten, (t.layout.deref n).xoff = none := by
          intro n hn
          have hne : n ≠ "parent_0" := by
            intro h
            have h1 := hv.index (i + 1) gen (by rw [hpend]; exact hi) n hn
            rw [h, hv.root_gen] at h1
            simp at h1
          rw [(eraseVisit_fields _ _ (deref_map_eq _ _ _ n (hv.same n))).2.2.2.2.1]
          exact (hf.unvisited n hne).2.2.2.2.1
        refine List.Pairwise.imp_of_mem ?_ (ho.spaced hcv (i + 1) gen hi (by omega))
        rintro a b ha hb ⟨xa, xb, hxa, hxb, hlt⟩ g - -
        refine ⟨xa + viz.measures.nodew / 2, xb + viz.measures.nodew / 2,
          hrep.x_of_xoff _ _ _ a (hxoff a ha) xa hxa,
          hrep.x_of_xoff _ _ _ b (hxoff b hb) xb hxb, ?_⟩
        obtain ⟨-, -, -, hnw⟩ := hcv
        rw [hnw] at hlt ⊢
        linarith
    · rw [List.pairwise_map, List.pairwise_iff_getElem]
      intro i j hi hj hij a ha b hb g hga hgb
      have h1 := hgen i _ (List.getElem?_eq_getElem hi) a ha
      have h2 := hgen j _ (List.getElem?_eq_getElem hj) b hb
      rw [hga] at h1
      rw [hgb] at h2
      have := Option.some.inj h1
      have := Option.some.inj h2
      omega
  refine ⟨t, layout, htrav, hok, hflat, ?_⟩
  intro i j a b na nb g hi hj hij hla hlb hga hgb
  rw [hflat] at hi hj
  obtain ⟨hi', hia⟩ := List.getElem?_eq_some.1 hi
  obtain ⟨hj', hjb⟩ := List.getElem?_eq_some.1 hj
  have h := List.pairwise_iff_getElem.1 hpw i j hi' hj' hij g
  rw [hia, hjb, Layout.deref_of_eq_some _ _ _ hla, Layout.deref_of_eq_some _ _ _ hlb] at h
  exact h hga hgb

theorem dequeued_mono :
    ∀ (fuel k : Nat) (t t' : Traversal), traverse fuel t = some t' →
      dequeued (fuel + k) t = dequeued fuel t := by
  intro fuel
  induction fuel with
  | zero =>
    intro k t t' h
    have hq : t.queue = [] := by
      unfold traverse at h
      split at h
      · rename_i hq
        simpa using hq
      · simp at h
    cases k with
    | zero => rfl
    | succ k =>
      rw [Nat.zero_add]
      simp only [dequeued, hq]
  | succ fuel ih =>
    intro k t t' h
    have hsucc : fuel + 1 + k = (fuel + k) + 1 := by omega
    rw [hsucc]
    cases hq : t.queue with
    | nil => simp only [dequeued, hq]
    | cons node rest =>
      simp only [traverse, hq] at h
      simp only [dequeued, hq]
      rw [ih k _ t' h]

/-- C21: with the measures of `calcViz`, for a descriptor list with pairwise distinct
identities, none `'parent_0'` (acyclicity of the parent references is not needed), whenever
the loop over the descriptors has built the layout `layout0` and `calcLayout` returns a
layout, the traversal has ended, the nodes are dequeued in the order of the generations
built, group after group and sibling after sibling within a group, and of two nodes with the
same generation, the one dequeued earlier has the strictly smaller `x` in the returned
layout.  A layout is returned, within `length + 1` iterations of the traversal, when the
loop over the descriptors does not throw: no `md5` or `parentId` is a property of
`Object.prototype` and no other key of a descriptor is a field of a node. -/
theorem calcLayout_traversal_order (viz : Viz)
    (innerWidth innerHeight stageWidth : ℚ) (sprites : List LibSprite)
    (hm : viz.measures = (calcViz innerWidth innerHeight stageWidth).measures)
    (hnodup : (sprites.map LibSprite.md5).Nodup)
    (hroot : "parent_0" ∉ sprites.map LibSprite.md5) :
    (∀ fuel layout0 layout,
      addLibSprites (Layout.empty.set "parent_0" (rootNode viz)) sprites = .ok layout0 →
      calcLayout fuel viz (some sprites) = .ok (some layout) →
      ∃ t, traverse fuel (Traversal.start layout0) = some t ∧
        dequeued fuel (Traversal.start layout0) = t.generations.flatten.flatten ∧
        ∀ (i j : Nat) (a b : String) (na nb : LayoutNode) (g : Nat),
          (dequeued fuel (Traversal.start layout0))[i]? = some a →
          (dequeued fuel (Traversal.start layout0))[j]? = some b → i < j →
          layout a = some na → layout b = some nb →
          na.generation = some g → nb.generation = some g →
          ∃ xa xb, na.x = some xa ∧ nb.x = some xb ∧ xa < xb) ∧
    ((∀ s ∈ sprites, inheritedKey s.md5 = false ∧ inheritedKey s.layParentId = false ∧
        ∀ k ∈ s.others, maintainedKey k = false) →
      ∀ fuel, sprites.length + 1 ≤ fuel →
        ∃ layout0 layout,
          addLibSprites (Layout.empty.set "parent_0" (rootNode viz)) sprites = .ok layout0 ∧
          calcLayout fuel viz (some sprites) = .ok (some layout)) := by
  constructor
  · intro fuel layout0 layout hbuild hok
    obtain ⟨hkeys, hbuild', ⟨t0, ht0, -⟩, hmono⟩ :=
      calcLayout_returned fuel viz sprites layout hok
    rw [hbuild'] at hbuild
    simp only [Except.ok.injEq] at hbuild
    rw [← hbuild]
    obtain ⟨t, layout', htrav, hok', hdq, horder⟩ := traversal_order_of_plain
      (fuel + (sprites.length + 1)) viz innerWidth innerHeight stageWidth sprites hm hkeys
      hnodup hroot (by omega)
    rw [hmono] at hok'
    simp only [Except.ok.injEq, Option.some.injEq] at hok'
    rw [traverse_mono fuel _ _ t0 ht0] at htrav
    simp only [Option.some.injEq] at htrav
    rw [dequeued_mono fuel _ _ t0 ht0] at hdq horder
    rw [← hok'] at horder
    rw [← htrav] at hdq
    exact ⟨t0, ht0, hdq, horder⟩
  · intro hkeys fuel hfuel
    obtain ⟨t, layout, -, hok, -⟩ := traversal_order_of_plain fuel viz innerWidth innerHeight
      stageWidth sprites hm hkeys hnodup hroot hfuel
    exact ⟨_, layout, addLibSprites_of_plain sprites _ hkeys, hok⟩

/-- Witness for C21: the example descriptors `a`, `b`, `c`. -/
theorem calcLayout_traversal_order_witness :
    ∃ layout0 layout t,
      addLibSprites (Layout.empty.set "parent_0" (rootNode (calcViz 1000 800 400)))
        exampleSprites = .ok layout0 ∧
      calcLayout 4 (calcViz 1000 800 400) (some exampleSprites) = .ok (some layout) ∧
      traverse 4 (Traversal.start layout0) = some t ∧
      dequeued 4 (Traversal.start layout0) = t.generations.flatten.flatten ∧
      ∀ (i j : Nat) (a b : String) (na nb : LayoutNode) (g : Nat),
        (dequeued 4 (Traversal.start layout0))[i]? = some a →
        (dequeued 4 (Traversal.start layout0))[j]? = some b →
        i < j → layout a = some na → layout b = some nb →
        na.generation = some g → nb.generation = some g →
        ∃ xa xb, na.x = some xa ∧ nb.x = some xb ∧ xa < xb := by
  have h := calcLayout_traversal_order (calcViz 1000 800 400) 1000 800 400 exampleSprites rfl
    (by decide) (by decide)
  obtain ⟨layout0, layout, hbuild, hok⟩ := h.2 (by decide) 4 (by decide)
  obtain ⟨t, hrest⟩ := h.1 4 layout0 layout hbuild hok
  exact ⟨layout0, layout, t, hbuild, hok, hrest⟩

theorem example_dequeued :
    dequeued 4 (Traversal.start (exampleSprites.foldl addLibSprite
      (Layout.empty.set "parent_0" (rootNode (calcViz 1000 800 400))))) =
        ["parent_0", "a", "b", "c"] := by
  decide

/-! ## Viewport model: the anchor in the arithmetic of the source -/

set_option maxRecDepth 100000 in
theorem zoomDouble_example :
    roundDouble (95 / 100) = some (4278419646001971 / 4503599627370496) ∧
    (zoomDouble (calcViz 1000 800 400) (4278419646001971 / 4503599627370496) ⟨3, 4⟩).map
      (fun viz => (viz.zoom, viz.viewBox)) =
      some (4278419646001971 / 4503599627370496,
        { x := -2338441329953997 / 8796093022208, y := 225179981368525 / 1125899906842624,
          width := 532, height := 665 }) ∧
    roundDouble (3 - -2338441329953997 / 8796093022208) =
      some (2364829609020621 / 8796093022208) ∧
    roundDouble (3 - -280) = some 283 ∧
    roundDouble (4278419646001971 / 4503599627370496 * 283) =
      some (4729659218041241 / 17592186044416) := by
  refine ⟨?_, ?_, ?_, ?_, ?_⟩ <;> with_unfolding_all rfl

/-- C8, counterexample: on the initial state of a window 1000 wide with a stage 400 wide,
`zoom (0.95, (3, 4))` is applied, and in the double precision arithmetic of the source it
gives `viewBox.x = -2338441329953997 / 2 ^ 43`.  Then `p.x - newViewBox.x` is
`2364829609020621 / 2 ^ 43` and `factor * (p.x - oldViewBox.x)` is
`4729659218041241 / 2 ^ 44`, one unit in the last place less: the two sides of the first
equation differ, as JavaScript numbers and as exact numbers. -/
theorem zoom_anchor_counterexample :
    ∃ factor viz, roundDouble (95 / 100) = some factor ∧
      ¬ ((calcViz 1000 800 400).zoom > MIN_ZOOM ∧ factor > 1) ∧
      zoomDouble (calcViz 1000 800 400) factor ⟨3, 4⟩ = some viz ∧
      (∃ lhs difference rhs, roundDouble (3 - viz.viewBox.x) = some lhs ∧
        roundDouble (3 - (calcViz 1000 800 400).viewBox.x) = some difference ∧
        roundDouble (factor * difference) = some rhs ∧ lhs ≠ rhs) ∧
      3 - viz.viewBox.x ≠ factor * (3 - (calcViz 1000 800 400).viewBox.x) := by
  obtain ⟨hf, hz, hl, hd, hr⟩ := zoomDouble_example
  cases hv : zoomDouble (calcViz 1000 800 400) (4278419646001971 / 4503599627370496) ⟨3, 4⟩ with
  | none =>
    rw [hv] at hz
    simp at hz
  | some viz =>
    rw [hv] at hz
    simp only [Option.map_some', Option.some.injEq, Prod.mk.injEq] at hz
    obtain ⟨-, hbox⟩ := hz
    have hx : viz.viewBox.x = -2338441329953997 / 8796093022208 := by rw [hbox]
    have hold : (calcViz 1000 800 400).viewBox.x = -280 := by norm_num [calcViz]
    refine ⟨_, viz, hf, ?_, hv, ⟨_, _, _, by rw [hx]; exact hl, by rw [hold]; exact hd, hr, ?_⟩,
      ?_⟩
    · norm_num [calcViz, MIN_ZOOM]
    · norm_num
    · rw [hx, hold]
      norm_num

end BotchOrganismTab
